import Mathlib

/-!
# Account repository: eligibility queries, gate updates, group binding

A shallow embedding of `backend/internal/repository/account_repo.go`, with the
account counts of `proxy_repo.go` and the performance and account usage statistics
of `usage_log_repo.go`.

The store `DB` is two tables, `accounts` and `account_groups`, each a list of rows
in the order a sequential scan visits them; the tables `proxies` and `usage_logs`
are arguments of the methods that read them.  A query with `ORDER BY` fixes the
order of its result only as far as its sort keys go: the methods of the embedding
compute one sorted list, the relation `mayReturn` holds of every list the store may
return, and the order of rows with equal sort keys is stated of `mayReturn` only.
The int64 sums of the usage summary wrap around as Go integer arithmetic does.  Every repository method runs one or
two statements against the store; a statement either fails as a whole, leaving the
tables as they were, or is applied as a whole.  The failure a statement may report
for reasons outside the tables (connectivity, a constraint that is not modelled)
is an explicit argument of the method, one per statement, and `time.Now()` is the
explicit argument `now`.

Columns the ORM fills in by itself when it writes a row (`created_at`,
`updated_at`) and the JSON columns (`credentials`, `extra`) are not part of the
modelled rows of `accounts`, and the list queries return the selected rows
themselves.  The converters between the Go structs of the package and the service
structs are embedded on their own, on structs that carry all the fields.
-/

namespace Repository

/-- An instant of `time.Time`, counted in ticks of one clock. -/
abbrev Time := Int

/-- Modelled from the spec: the constant `service.StatusActive`, declared outside
the repository package; the spec names the status value `active`. -/
def StatusActive : String := "active"

/-- Modelled from the spec: the constant `service.StatusError`, declared outside
the repository package; the spec names the status value `error`. -/
def StatusError : String := "error"

/-- The errors a statement can return. -/
inductive DbError where
  /-- a failure reported by the store for a reason outside the tables -/
  | driver (code : Nat)
  /-- the primary key of the written table would hold one key twice -/
  | duplicateKey
  deriving DecidableEq, Repr

/-- A row of table `accounts` (struct `accountModel`). -/
structure accountModel where
  ID : Int
  Name : String
  Platform : String
  Typ : String
  ProxyID : Option Int
  Concurrency : Int
  Priority : Int
  Status : String
  ErrorMessage : String
  LastUsedAt : Option Time
  DeletedAt : Option Time
  Schedulable : Bool
  RateLimitedAt : Option Time
  RateLimitResetAt : Option Time
  OverloadUntil : Option Time
  SessionWindowStart : Option Time
  SessionWindowEnd : Option Time
  SessionWindowStatus : String
  deriving DecidableEq, Repr

/-- A row of table `account_groups` (struct `accountGroupModel`); its primary key
is the pair `(AccountID, GroupID)`. -/
structure accountGroupModel where
  AccountID : Int
  GroupID : Int
  Priority : Int
  deriving DecidableEq, Repr

/-- The store behind `r.db`. -/
structure DB where
  accounts : List accountModel
  account_groups : List accountGroupModel
  deriving DecidableEq, Repr

/-- The scope gorm adds to every statement built on a model with a
`gorm.DeletedAt` column: `deleted_at IS NULL`. -/
def notDeleted (a : accountModel) : Bool := a.DeletedAt.isNone

/-- The SQL condition `(col IS NULL OR col <= ?)` with the argument `now`. -/
def nullOrLe (col : Option Time) (now : Time) : Bool :=
  match col with
  | none => true
  | some t => decide (t ≤ now)

/-- The clause `status = ? AND schedulable = ?` with the arguments
`service.StatusActive, true`. -/
def activeSchedulable (a : accountModel) : Bool :=
  a.Status == StatusActive && a.Schedulable == true

/-- The four conditions every `ListSchedulable*` query puts on table `accounts`,
after the soft delete scope. -/
def schedulableWhere (now : Time) (a : accountModel) : Bool :=
  notDeleted a && activeSchedulable a && nullOrLe a.OverloadUntil now &&
    nullOrLe a.RateLimitResetAt now

/-- The clause `ORDER BY`, as the methods of the embedding compute it: the rows in
ascending order of the comparison `le`.  SQL leaves the order of rows the comparison
does not separate to the store; this function keeps them in scan order, which is one
of the orders the clause allows (`orderedSelection`).  What is stated of the order of
results beyond their sort keys is stated of every list `mayReturn` allows, not of
the list computed here. -/
def orderBy {α : Type} (le : α → α → Bool) (rows : List α) : List α :=
  rows.insertionSort (fun x y => le x y = true)

/-- The comparison of `Order("priority ASC")`. -/
def byPriority (a b : accountModel) : Bool := decide (a.Priority ≤ b.Priority)

/-- The comparison of `Order("account_groups.priority ASC, accounts.priority ASC")`
on the rows of the join. -/
def byGroupPriority (x y : accountModel × accountGroupModel) : Bool :=
  decide (x.2.Priority < y.2.Priority) ||
    (decide (x.2.Priority = y.2.Priority) && decide (x.1.Priority ≤ y.1.Priority))

/-- The clause `JOIN account_groups ON account_groups.account_id = accounts.id`:
one row for every account row and every membership row of that account. -/
def joinAccountGroups (db : DB) : List (accountModel × accountGroupModel) :=
  db.accounts.flatMap (fun a =>
    (db.account_groups.filter (fun m => m.AccountID == a.ID)).map (fun m => (a, m)))

/-- The call `Find(&accounts)`: the statement fails with the reported failure or
yields the selected rows. -/
def Find {α : Type} (fault : Option DbError) (rows : List α) : Except DbError (List α) :=
  match fault with
  | some err => Except.error err
  | none => Except.ok rows

/-- The method `ListSchedulable`. -/
def ListSchedulable (db : DB) (now : Time) (fault : Option DbError) :
    Except DbError (List accountModel) :=
  Find fault (orderBy byPriority (db.accounts.filter (fun a => schedulableWhere now a)))

/-- The method `ListSchedulableByGroupID`. -/
def ListSchedulableByGroupID (db : DB) (now : Time) (groupID : Int)
    (fault : Option DbError) : Except DbError (List accountModel) :=
  Find fault ((orderBy byGroupPriority ((joinAccountGroups db).filter (fun x =>
    x.2.GroupID == groupID && schedulableWhere now x.1))).map Prod.fst)

/-- The method `ListSchedulableByPlatform`. -/
def ListSchedulableByPlatform (db : DB) (now : Time) (platform : String)
    (fault : Option DbError) : Except DbError (List accountModel) :=
  Find fault (orderBy byPriority (db.accounts.filter (fun a =>
    a.Platform == platform && schedulableWhere now a)))

/-- The method `ListSchedulableByGroupIDAndPlatform`. -/
def ListSchedulableByGroupIDAndPlatform (db : DB) (now : Time) (groupID : Int)
    (platform : String) (fault : Option DbError) : Except DbError (List accountModel) :=
  Find fault ((orderBy byGroupPriority ((joinAccountGroups db).filter (fun x =>
    x.2.GroupID == groupID && x.1.Platform == platform &&
      schedulableWhere now x.1))).map Prod.fst)

/-- The method `ListSchedulableByPlatforms`; an empty platform list returns
`nil, nil` without a statement. -/
def ListSchedulableByPlatforms (db : DB) (now : Time) (platforms : List String)
    (fault : Option DbError) : Except DbError (List accountModel) :=
  if platforms.length = 0 then Except.ok []
  else Find fault (orderBy byPriority (db.accounts.filter (fun a =>
    platforms.contains a.Platform && schedulableWhere now a)))

/-- The method `ListSchedulableByGroupIDAndPlatforms`; an empty platform list
returns `nil, nil` without a statement. -/
def ListSchedulableByGroupIDAndPlatforms (db : DB) (now : Time) (groupID : Int)
    (platforms : List String) (fault : Option DbError) :
    Except DbError (List accountModel) :=
  if platforms.length = 0 then Except.ok []
  else Find fault ((orderBy byGroupPriority ((joinAccountGroups db).filter (fun x =>
    x.2.GroupID == groupID && platforms.contains x.1.Platform &&
      schedulableWhere now x.1))).map Prod.fst)

/-- The statement `Model(&accountModel{}).Where("id = ?", id).Updates(set)`: one
UPDATE that assigns the columns of `set` in every row that is not soft deleted and
has the given id.  It reports no error when no row matches.  The rewritten row is
listed at the place of the row it replaces; where a store keeps an updated row is
not fixed by the source, and what is stated of the lists the queries may return
(`mayReturn`) does not depend on the place. -/
def Updates (db : DB) (id : Int) (set : accountModel → accountModel)
    (fault : Option DbError) : DB × Option DbError :=
  match fault with
  | some err => (db, some err)
  | none =>
    ({ db with accounts := db.accounts.map (fun a =>
        if a.ID = id ∧ a.DeletedAt = none then set a else a) }, none)

/-- The method `SetRateLimited`. -/
def SetRateLimited (db : DB) (id : Int) (resetAt : Time) (now : Time)
    (fault : Option DbError) : DB × Option DbError :=
  Updates db id (fun a =>
    { a with RateLimitedAt := some now, RateLimitResetAt := some resetAt }) fault

/-- The method `SetOverloaded`. -/
def SetOverloaded (db : DB) (id : Int) (overloadUntil : Time) (fault : Option DbError) :
    DB × Option DbError :=
  Updates db id (fun a => { a with OverloadUntil := some overloadUntil }) fault

/-- The method `ClearRateLimit`. -/
def ClearRateLimit (db : DB) (id : Int) (fault : Option DbError) : DB × Option DbError :=
  Updates db id (fun a =>
    { a with RateLimitedAt := none, RateLimitResetAt := none, OverloadUntil := none }) fault

/-- The statement `Where("account_id = ?", accountID).Delete(&accountGroupModel{})`:
the model has no soft delete column, so the rows are removed. -/
def deleteAccountGroups (db : DB) (accountID : Int) (fault : Option DbError) :
    DB × Option DbError :=
  match fault with
  | some err => (db, some err)
  | none =>
    ({ db with account_groups :=
        db.account_groups.filter (fun m => !(m.AccountID == accountID)) }, none)

/-- The primary key of a row of `account_groups`. -/
def accountGroupKey (m : accountGroupModel) : Int × Int := (m.AccountID, m.GroupID)

/-- The statement `Create(&accountGroups)`: one INSERT of all the rows, refused as
a whole by the primary key when two of the new rows have one key or a new row has
the key of a stored row. -/
def createAccountGroups (db : DB) (rows : List accountGroupModel)
    (fault : Option DbError) : DB × Option DbError :=
  match fault with
  | some err => (db, some err)
  | none =>
    if (rows.map accountGroupKey).Nodup ∧
        ∀ r ∈ rows, accountGroupKey r ∉ db.account_groups.map accountGroupKey then
      ({ db with account_groups := db.account_groups ++ rows }, none)
    else (db, some DbError.duplicateKey)

/-- The rows `BindGroups` builds: one for each group id, with priority `i + 1` at
index `i`. -/
def bindRows (accountID : Int) (groupIDs : List Int) : List accountGroupModel :=
  groupIDs.enum.map (fun p =>
    { AccountID := accountID, GroupID := p.2, Priority := (p.1 : Int) + 1 })

/-- The method `BindGroups`: the delete statement, then (for a non-empty list) the
insert statement, with no transaction around the two. -/
def BindGroups (db : DB) (accountID : Int) (groupIDs : List Int)
    (deleteFault insertFault : Option DbError) : DB × Option DbError :=
  match deleteAccountGroups db accountID deleteFault with
  | (db1, some err) => (db1, some err)
  | (db1, none) =>
    if groupIDs.length = 0 then (db1, none)
    else createAccountGroups db1 (bindRows accountID groupIDs) insertFault

/-- The memberships of an account: its rows in `account_groups`. -/
def membershipsOf (db : DB) (accountID : Int) : List accountGroupModel :=
  db.account_groups.filter (fun m => m.AccountID == accountID)

/-- The spec's gate condition (section 4.2): the timestamp is nil or it is not
after now. -/
def gatePassed (t : Option Time) (now : Time) : Prop :=
  t = none ∨ ∃ u, t = some u ∧ u ≤ now

/-- The spec's predicate isEligible (section 4.2), in the spec's words. -/
def isEligible (a : accountModel) (now : Time) : Prop :=
  a.Status = StatusActive ∧ a.Schedulable = true ∧ gatePassed a.OverloadUntil now ∧
    gatePassed a.RateLimitResetAt now

/-- The account has a membership in the group. -/
def inGroup (db : DB) (a : accountModel) (groupID : Int) : Prop :=
  ∃ m ∈ db.account_groups, m.AccountID = a.ID ∧ m.GroupID = groupID

/-- Account A of the scenario of section 8: priority 10, active, schedulable, no
gates. -/
def accountA : accountModel :=
  { ID := 1, Name := "A", Platform := "claude", Typ := "oauth", ProxyID := none,
    Concurrency := 3, Priority := 10, Status := StatusActive, ErrorMessage := "",
    LastUsedAt := none, DeletedAt := none, Schedulable := true, RateLimitedAt := none,
    RateLimitResetAt := none, OverloadUntil := none, SessionWindowStart := none,
    SessionWindowEnd := none, SessionWindowStatus := "" }

/-- Account B of the scenario of section 8: priority 5, active, schedulable,
overloadUntil one hour (3600 ticks of one second) after now. -/
def accountB (now : Time) : accountModel :=
  { accountA with ID := 2, Name := "B", Priority := 5, OverloadUntil := some (now + 3600) }

/-- An active, schedulable account whose rate-limit and overload gates are both
set. -/
def accountG : accountModel :=
  { accountA with
    ID := 3, Name := "G", RateLimitedAt := some 5, RateLimitResetAt := some 900,
    OverloadUntil := some 800 }

/-- A store with accounts A and G, where G is a member of group 7. -/
def gatedStore : DB :=
  { accounts := [accountA, accountG], account_groups := [⟨3, 7, 1⟩] }

/-- The membership priority of an account in a group: the priority column of its
row in `account_groups` (of the first such row a scan meets, 0 when there is none). -/
def membershipPriority (db : DB) (groupID accountID : Int) : Int :=
  match db.account_groups.find? (fun m => m.AccountID == accountID && m.GroupID == groupID) with
  | some m => m.Priority
  | none => 0

/-- The ranking key of a group-scoped request: membership priority in the group,
then the account's own priority. -/
def rankKey (db : DB) (groupID : Int) (a : accountModel) : Int × Int :=
  (membershipPriority db groupID a.ID, a.Priority)

/-- The lexicographic order on ranking keys. -/
def keyLe (k1 k2 : Int × Int) : Prop :=
  k1.1 < k2.1 ∨ (k1.1 = k2.1 ∧ k1.2 ≤ k2.2)

/-- A store where account 1 is in group 7 with priority 2 and account 3 is in
group 7 with priority 1. -/
def rankedStore : DB :=
  { accounts := [accountA, { accountG with RateLimitResetAt := none, OverloadUntil := none }],
    account_groups := [⟨1, 7, 2⟩, ⟨3, 7, 1⟩] }

/-- The method `UpdateLastUsed`. -/
def UpdateLastUsed (db : DB) (id : Int) (now : Time) (fault : Option DbError) :
    DB × Option DbError :=
  Updates db id (fun a => { a with LastUsedAt := some now }) fault

/-- The SQL expression `CASE id WHEN ? THEN CAST(? AS TIMESTAMP) ... END` built from
the entries of the map in the order the loop visits them: the value of the first
entry whose key is the id, NULL when there is none. -/
def caseID (updates : List (Int × Time)) (id : Int) : Option Time :=
  match updates.find? (fun u => u.1 == id) with
  | some u => some u.2
  | none => none

/-- The method `BatchUpdateLastUsed`; `updates` lists the entries of the map in the
order the loop visits them.  An empty map returns nil without a statement; otherwise
one raw UPDATE with the condition `id IN ? AND deleted_at IS NULL`. -/
def BatchUpdateLastUsed (db : DB) (updates : List (Int × Time))
    (fault : Option DbError) : DB × Option DbError :=
  if updates.length = 0 then (db, none)
  else
    match fault with
    | some err => (db, some err)
    | none =>
      ({ db with accounts := db.accounts.map (fun a =>
          if (updates.map Prod.fst).contains a.ID ∧ a.DeletedAt = none then
            { a with LastUsedAt := caseID updates a.ID }
          else a) }, none)

/-- The method `SetError`. -/
def SetError (db : DB) (id : Int) (errorMsg : String) (fault : Option DbError) :
    DB × Option DbError :=
  Updates db id (fun a => { a with Status := StatusError, ErrorMessage := errorMsg }) fault

/-- The column assignments `UpdateSessionWindow` collects: the status always, the
start and the end only when the pointer is not nil. -/
def sessionWindowSet (start end_ : Option Time) (status : String) (a : accountModel) :
    accountModel :=
  let a1 := { a with SessionWindowStatus := status }
  let a2 := match start with
    | some s => { a1 with SessionWindowStart := some s }
    | none => a1
  match end_ with
  | some e => { a2 with SessionWindowEnd := some e }
  | none => a2

/-- The method `UpdateSessionWindow`. -/
def UpdateSessionWindow (db : DB) (id : Int) (start end_ : Option Time) (status : String)
    (fault : Option DbError) : DB × Option DbError :=
  Updates db id (sessionWindowSet start end_ status) fault

/-- The method `SetSchedulable`. -/
def SetSchedulable (db : DB) (id : Int) (schedulable : Bool) (fault : Option DbError) :
    DB × Option DbError :=
  Updates db id (fun a => { a with Schedulable := schedulable }) fault

/-- One call of a targeted mutation of the repository, with its arguments, the
clock value it reads (where it reads one) and the failure its statement reports. -/
inductive Mutation where
  | setRateLimited (id : Int) (resetAt now : Time) (fault : Option DbError)
  | setOverloaded (id : Int) (overloadUntil : Time) (fault : Option DbError)
  | clearRateLimit (id : Int) (fault : Option DbError)
  | setSchedulable (id : Int) (schedulable : Bool) (fault : Option DbError)
  | setError (id : Int) (errorMsg : String) (fault : Option DbError)
  | updateSessionWindow (id : Int) (start end_ : Option Time) (status : String)
      (fault : Option DbError)
  | updateLastUsed (id : Int) (now : Time) (fault : Option DbError)
  | batchUpdateLastUsed (updates : List (Int × Time)) (fault : Option DbError)

/-- The store a call leaves. -/
def Mutation.run (db : DB) : Mutation → DB
  | Mutation.setRateLimited id resetAt now fault => (SetRateLimited db id resetAt now fault).1
  | Mutation.setOverloaded id overloadUntil fault => (SetOverloaded db id overloadUntil fault).1
  | Mutation.clearRateLimit id fault => (ClearRateLimit db id fault).1
  | Mutation.setSchedulable id schedulable fault => (SetSchedulable db id schedulable fault).1
  | Mutation.setError id errorMsg fault => (SetError db id errorMsg fault).1
  | Mutation.updateSessionWindow id start end_ status fault =>
    (UpdateSessionWindow db id start end_ status fault).1
  | Mutation.updateLastUsed id now fault => (UpdateLastUsed db id now fault).1
  | Mutation.batchUpdateLastUsed updates fault => (BatchUpdateLastUsed db updates fault).1

/-- The store a sequence of calls leaves, the calls made one after the other. -/
def runAll (db : DB) (calls : List Mutation) : DB :=
  calls.foldl Mutation.run db

/-- The rate-limit pair invariant of section 3: in every row rateLimitResetAt is
non-nil iff rateLimitedAt is non-nil. -/
def pairInvariant (db : DB) : Prop :=
  ∀ a ∈ db.accounts, a.RateLimitResetAt.isSome = a.RateLimitedAt.isSome

/-- The row with its three session window columns blanked. -/
def eraseSessionWindow (a : accountModel) : accountModel :=
  { a with SessionWindowStart := none, SessionWindowEnd := none, SessionWindowStatus := "" }

/-- No ListSchedulable query, whatever its group, platform and platform list, returns
a row of account `id` at time `t`. -/
def neverReturned (db : DB) (t : Time) (id : Int) : Prop :=
  (∃ res, ListSchedulable db t none = Except.ok res ∧ ∀ b ∈ res, b.ID ≠ id) ∧
  (∀ g, ∃ res, ListSchedulableByGroupID db t g none = Except.ok res ∧
    ∀ b ∈ res, b.ID ≠ id) ∧
  (∀ p, ∃ res, ListSchedulableByPlatform db t p none = Except.ok res ∧
    ∀ b ∈ res, b.ID ≠ id) ∧
  (∀ g p, ∃ res, ListSchedulableByGroupIDAndPlatform db t g p none = Except.ok res ∧
    ∀ b ∈ res, b.ID ≠ id) ∧
  (∀ ps, ∃ res, ListSchedulableByPlatforms db t ps none = Except.ok res ∧
    ∀ b ∈ res, b.ID ≠ id) ∧
  (∀ g ps, ∃ res, ListSchedulableByGroupIDAndPlatforms db t g ps none = Except.ok res ∧
    ∀ b ∈ res, b.ID ≠ id)

/-- Every ListSchedulable query in whose scope the row `a` lies returns it at time
`t`: ListSchedulable, the platform queries for its platform and for every list that
holds its platform, and the group queries for every group it is a member of. -/
def returnedInScope (db : DB) (t : Time) (a : accountModel) : Prop :=
  (∃ res, ListSchedulable db t none = Except.ok res ∧ a ∈ res) ∧
  (∃ res, ListSchedulableByPlatform db t a.Platform none = Except.ok res ∧ a ∈ res) ∧
  (∀ ps, a.Platform ∈ ps →
    ∃ res, ListSchedulableByPlatforms db t ps none = Except.ok res ∧ a ∈ res) ∧
  (∀ g, inGroup db a g →
    (∃ res, ListSchedulableByGroupID db t g none = Except.ok res ∧ a ∈ res) ∧
    (∃ res, ListSchedulableByGroupIDAndPlatform db t g a.Platform none = Except.ok res ∧
      a ∈ res) ∧
    (∀ ps, a.Platform ∈ ps →
      ∃ res, ListSchedulableByGroupIDAndPlatforms db t g ps none = Except.ok res ∧
        a ∈ res))

/-- Every row of account `id` that is not soft deleted has status error. -/
def statusIsError (db : DB) (id : Int) : Prop :=
  ∀ b ∈ db.accounts, b.ID = id → b.DeletedAt = none → b.Status = StatusError

/-- The store with the session window columns of every account blanked. -/
def eraseSessionWindows (db : DB) : DB :=
  { db with accounts := db.accounts.map eraseSessionWindow }

/-- The SQL condition `col IS NOT NULL AND col2 > ?` of the dashboard counters, with
the argument `now`; a comparison with NULL is not true. -/
def notNullAndGt (col col2 : Option Time) (now : Time) : Bool :=
  col.isSome &&
    (match col2 with
     | some t => decide (t > now)
     | none => false)

/-- The CASE of `ratelimit_accounts` in GetDashboardStats:
`rate_limited_at IS NOT NULL AND rate_limit_reset_at > ?`. -/
def countedRateLimited (a : accountModel) (now : Time) : Bool :=
  notNullAndGt a.RateLimitedAt a.RateLimitResetAt now

/-- The CASE of `overload_accounts` in GetDashboardStats:
`overload_until IS NOT NULL AND overload_until > ?`. -/
def countedOverloaded (a : accountModel) (now : Time) : Bool :=
  notNullAndGt a.OverloadUntil a.OverloadUntil now

/-- The struct `accountStats` the account statistics statement of GetDashboardStats
is scanned into. -/
structure accountStats where
  TotalAccounts : Int
  NormalAccounts : Int
  ErrorAccounts : Int
  RateLimitAccounts : Int
  OverloadAccounts : Int
  deriving DecidableEq, Repr

/-- The account statistics statement of GetDashboardStats: one raw SELECT of five
counts over the rows of `accounts` with `deleted_at IS NULL`; `now` is the value
GetDashboardStats read from the clock.  A failing statement makes GetDashboardStats
return the error. -/
def dashboardAccountStats (db : DB) (now : Time) (fault : Option DbError) :
    Except DbError accountStats :=
  match fault with
  | some err => Except.error err
  | none =>
    let rows := db.accounts.filter notDeleted
    Except.ok
      { TotalAccounts := rows.length
        NormalAccounts :=
          (rows.filter (fun a => a.Status == StatusActive && a.Schedulable == true)).length
        ErrorAccounts := (rows.filter (fun a => a.Status == StatusError)).length
        RateLimitAccounts := (rows.filter (fun a => countedRateLimited a now)).length
        OverloadAccounts := (rows.filter (fun a => countedOverloaded a now)).length }

/-- A row of table `usage_logs` (struct `usageLogModel`); the cost columns, which
are floating point numbers, and the preloaded associations are left out. -/
structure usageLogModel where
  ID : Int
  UserID : Int
  ApiKeyID : Int
  AccountID : Int
  RequestID : String
  Model : String
  GroupID : Option Int
  SubscriptionID : Option Int
  InputTokens : Int
  OutputTokens : Int
  CacheCreationTokens : Int
  CacheReadTokens : Int
  CacheCreation5mTokens : Int
  CacheCreation1hTokens : Int
  BillingType : Int
  Stream : Bool
  DurationMs : Option Int
  FirstTokenMs : Option Int
  CreatedAt : Time
  deriving DecidableEq, Repr

/-- The duration `time.Minute` in ticks of `Time`; a tick is one second. -/
def Minute : Int := 60

/-- The struct `perfStats` the statement of getPerformanceStats is scanned into. -/
structure perfStats where
  RequestCount : Int
  TokenCount : Int
  deriving DecidableEq, Repr

/-- The method `getPerformanceStats` on table `usage_logs`: `COUNT(*)` and
`COALESCE(SUM(input_tokens + output_tokens), 0)` over the rows with
`created_at >= fiveMinutesAgo`, of the user when `userID > 0`.  The error of the
statement is not looked at: when it fails the counts stay zero.  The result is
`(rpm, tpm)`, each count divided by 5 with the integer division of Go. -/
def getPerformanceStats (logs : List usageLogModel) (now : Time) (userID : Int)
    (fault : Option DbError) : Int × Int :=
  let fiveMinutesAgo := now + (-5) * Minute
  let rows := logs.filter (fun l => decide (l.CreatedAt ≥ fiveMinutesAgo))
  let rows := if userID > 0 then rows.filter (fun l => l.UserID == userID) else rows
  let scanned : perfStats :=
    match fault with
    | some _ => { RequestCount := 0, TokenCount := 0 }
    | none =>
      { RequestCount := rows.length
        TokenCount := (rows.map (fun l => l.InputTokens + l.OutputTokens)).sum }
  (scanned.RequestCount.tdiv 5, scanned.TokenCount.tdiv 5)

/-- The assignment `stats.Rpm, stats.Tpm = r.getPerformanceStats(ctx, 0)` that ends
GetDashboardStats. -/
def dashboardRpmTpm (logs : List usageLogModel) (now : Time) (fault : Option DbError) :
    Int × Int :=
  getPerformanceStats logs now 0 fault

/-- The assignment `stats.Rpm, stats.Tpm = r.getPerformanceStats(ctx, userID)` that
ends GetUserDashboardStats. -/
def userDashboardRpmTpm (logs : List usageLogModel) (now : Time) (userID : Int)
    (fault : Option DbError) : Int × Int :=
  getPerformanceStats logs now userID fault

/-- A usage log of user 4 with 100 input and 23 output tokens, created at `at_`. -/
def sampleLog (id : Int) (user : Int) (at_ : Time) : usageLogModel :=
  { ID := id, UserID := user, ApiKeyID := 1, AccountID := 1, RequestID := "", Model := "m",
    GroupID := none, SubscriptionID := none, InputTokens := 100, OutputTokens := 23,
    CacheCreationTokens := 0, CacheReadTokens := 0, CacheCreation5mTokens := 0,
    CacheCreation1hTokens := 0, BillingType := 0, Stream := false, DurationMs := none,
    FirstTokenMs := none, CreatedAt := at_ }

/-- A row of table `proxies` (struct `proxyModel`). -/
structure proxyModel where
  ID : Int
  Name : String
  Protocol : String
  Host : String
  Port : Int
  Username : String
  Password : String
  Status : String
  CreatedAt : Time
  UpdatedAt : Time
  DeletedAt : Option Time
  deriving DecidableEq, Repr

/-- Modelled from the spec: the struct `service.Proxy`, declared outside the
repository package; its fields are the ones `proxyModelToService` assigns. -/
structure Proxy where
  ID : Int
  Name : String
  Protocol : String
  Host : String
  Port : Int
  Username : String
  Password : String
  Status : String
  CreatedAt : Time
  UpdatedAt : Time
  deriving DecidableEq, Repr

/-- The function `proxyModelToService`; a nil pointer is `none`. -/
def proxyModelToService (m : Option proxyModel) : Option Proxy :=
  match m with
  | none => none
  | some m =>
    some { ID := m.ID, Name := m.Name, Protocol := m.Protocol, Host := m.Host, Port := m.Port,
           Username := m.Username, Password := m.Password, Status := m.Status,
           CreatedAt := m.CreatedAt, UpdatedAt := m.UpdatedAt }

/-- Modelled from the spec: the struct `service.ProxyWithAccountCount`, declared
outside the repository package; its fields are the ones
`ListActiveWithAccountCount` assigns. -/
structure ProxyWithAccountCount where
  Proxy : Proxy
  AccountCount : Int
  deriving DecidableEq, Repr

/-- The method `GetAccountCountsForProxies`: one row `(proxy_id, COUNT(*))` for each
proxy id met among the rows of `accounts` with `proxy_id IS NOT NULL` and
`deleted_at IS NULL`, collected into a map (here the list of its entries). -/
def GetAccountCountsForProxies (db : DB) (fault : Option DbError) :
    Except DbError (List (Int × Int)) :=
  match fault with
  | some err => Except.error err
  | none =>
    let rows := db.accounts.filter (fun a => a.ProxyID.isSome && a.DeletedAt.isNone)
    let ids := (rows.filterMap (fun a => a.ProxyID)).dedup
    Except.ok (ids.map (fun id =>
      (id, ((rows.filter (fun a => a.ProxyID == some id)).length : Int))))

/-- The map index `counts[id]` of Go: the value of the key, 0 when the key is
absent. -/
def mapIndex (counts : List (Int × Int)) (id : Int) : Int :=
  match counts.find? (fun e => e.1 == id) with
  | some e => e.2
  | none => 0

/-- The comparison of `Order("created_at DESC")` on table `proxies`. -/
def byCreatedAtDesc (p q : proxyModel) : Bool := decide (q.CreatedAt ≤ p.CreatedAt)

/-- The method `ListActiveWithAccountCount`; `proxies` is table `proxies` and `db`
holds table `accounts`.  The first statement selects the proxies (with the soft
delete scope of the model), the second is `GetAccountCountsForProxies`. -/
def ListActiveWithAccountCount (proxies : List proxyModel) (db : DB)
    (findFault countsFault : Option DbError) : Except DbError (List ProxyWithAccountCount) :=
  match Find findFault (orderBy byCreatedAtDesc (proxies.filter (fun p =>
      p.DeletedAt.isNone && p.Status == StatusActive))) with
  | Except.error err => Except.error err
  | Except.ok rows =>
    match GetAccountCountsForProxies db countsFault with
    | Except.error err => Except.error err
    | Except.ok counts =>
      Except.ok (rows.filterMap (fun row =>
        match proxyModelToService (some row) with
        | none => none
        | some proxy => some { Proxy := proxy, AccountCount := mapIndex counts proxy.ID }))

/-- The number of accounts, not soft deleted, that use the proxy. -/
def accountsUsing (db : DB) (proxyID : Int) : Int :=
  ((db.accounts.filter (fun a =>
    decide (a.DeletedAt = none ∧ a.ProxyID = some proxyID))).length : Int)

/-- An active proxy created at `at_`. -/
def sampleProxy (id : Int) (at_ : Time) : proxyModel :=
  { ID := id, Name := "p", Protocol := "http", Host := "h", Port := 8080, Username := "",
    Password := "", Status := StatusActive, CreatedAt := at_, UpdatedAt := at_,
    DeletedAt := none }

/-- The entry `ListActiveWithAccountCount` builds for a selected row, given the map
of counts. -/
def withAccountCount (counts : List (Int × Int)) (row : proxyModel) : ProxyWithAccountCount :=
  { Proxy := { ID := row.ID, Name := row.Name, Protocol := row.Protocol, Host := row.Host,
               Port := row.Port, Username := row.Username, Password := row.Password,
               Status := row.Status, CreatedAt := row.CreatedAt, UpdatedAt := row.UpdatedAt },
    AccountCount := mapIndex counts row.ID }

/-- A row of the daily history statement of GetAccountUsageStats (the anonymous
struct of `historyResults`); the costs are `float64`. -/
structure historyResult where
  Date : String
  Requests : Int
  Tokens : Int
  Cost : Float
  ActualCost : Float

/-- Modelled from the spec: the struct `usagestats.AccountUsageHistory`, declared
outside the repository package; its fields are the ones GetAccountUsageStats
assigns. -/
structure AccountUsageHistory where
  Date : String
  Label : String
  Requests : Int
  Tokens : Int
  Cost : Float
  ActualCost : Float

/-- The anonymous struct of `Summary.Today`. -/
structure todayStats where
  Date : String
  Cost : Float
  Requests : Int
  Tokens : Int

/-- The anonymous struct of `Summary.HighestCostDay` and of
`Summary.HighestRequestDay`. -/
structure highestDay where
  Date : String
  Label : String
  Cost : Float
  Requests : Int

/-- Modelled from the spec: the struct `usagestats.AccountUsageSummary`, declared
outside the repository package; its fields are the ones GetAccountUsageStats
assigns. -/
structure AccountUsageSummary where
  Days : Int
  ActualDaysUsed : Int
  TotalCost : Float
  TotalStandardCost : Float
  TotalRequests : Int
  TotalTokens : Int
  AvgDailyCost : Float
  AvgDailyRequests : Float
  AvgDailyTokens : Float
  AvgDurationMs : Float
  Today : Option todayStats
  HighestCostDay : Option highestDay
  HighestRequestDay : Option highestDay

/-- The loop `for _, h := range historyResults` that builds the history; `label`
stands for the Go library calls `time.Parse("2006-01-02", h.Date)` followed by
`Format("01/02")`. -/
def buildHistory (label : String → String) (historyResults : List historyResult) :
    List AccountUsageHistory :=
  historyResults.map (fun h =>
    { Date := h.Date, Label := label h.Date, Requests := h.Requests, Tokens := h.Tokens,
      Cost := h.Cost, ActualCost := h.ActualCost })

/-- The variables of the summary loop of GetAccountUsageStats; a pointer into the
history is the entry it points to, nil is `none`. -/
structure usageTotals where
  totalActualCost : Float
  totalStandardCost : Float
  totalRequests : Int
  totalTokens : Int
  highestCostDay : Option AccountUsageHistory
  highestRequestDay : Option AccountUsageHistory

/-- The range of the Go type int64, from -2^63 to 2^63 - 1. -/
def inInt64 (x : Int) : Prop := -9223372036854775808 ≤ x ∧ x ≤ 9223372036854775807

/-- The value an int64 variable takes when the exact result of an addition is `x`:
Go integer arithmetic wraps around, the result is `x` reduced modulo 2^64 into the
range from -2^63 to 2^63 - 1. -/
def wrapInt64 (x : Int) : Int :=
  (x + 9223372036854775808) % 18446744073709551616 - 9223372036854775808

/-- One round of the loop `for i := range history` of GetAccountUsageStats; the
variables totalRequests and totalTokens are int64, so `+=` wraps around. -/
def usageStep (acc : usageTotals) (h : AccountUsageHistory) : usageTotals :=
  { totalActualCost := acc.totalActualCost + h.ActualCost
    totalStandardCost := acc.totalStandardCost + h.Cost
    totalRequests := wrapInt64 (acc.totalRequests + h.Requests)
    totalTokens := wrapInt64 (acc.totalTokens + h.Tokens)
    highestCostDay :=
      match acc.highestCostDay with
      | none => some h
      | some d => if h.ActualCost > d.ActualCost then some h else some d
    highestRequestDay :=
      match acc.highestRequestDay with
      | none => some h
      | some d => if h.Requests > d.Requests then some h else some d }

/-- The summary loop of GetAccountUsageStats, from the zero values of its
variables. -/
def usageLoop (history : List AccountUsageHistory) : usageTotals :=
  history.foldl usageStep
    { totalActualCost := 0, totalStandardCost := 0, totalRequests := 0, totalTokens := 0,
      highestCostDay := none, highestRequestDay := none }

/-- The summary GetAccountUsageStats computes from the history.  `daysCount` is the
number of days of the requested range, `avgDurationMs` the result of the average
duration statement and `todayStr` the date `timezone.Now()` formats to. -/
def accountUsageSummary (history : List AccountUsageHistory) (daysCount : Int)
    (avgDurationMs : Float) (todayStr : String) : AccountUsageSummary :=
  let acc := usageLoop history
  let actualDaysUsed : Int := if history.length = 0 then 1 else history.length
  { Days := daysCount
    ActualDaysUsed := actualDaysUsed
    TotalCost := acc.totalActualCost
    TotalStandardCost := acc.totalStandardCost
    TotalRequests := acc.totalRequests
    TotalTokens := acc.totalTokens
    AvgDailyCost := acc.totalActualCost / Float.ofInt actualDaysUsed
    AvgDailyRequests := Float.ofInt acc.totalRequests / Float.ofInt actualDaysUsed
    AvgDailyTokens := Float.ofInt acc.totalTokens / Float.ofInt actualDaysUsed
    AvgDurationMs := avgDurationMs
    Today :=
      (history.find? (fun h => h.Date == todayStr)).map (fun h =>
        { Date := h.Date, Cost := h.ActualCost, Requests := h.Requests, Tokens := h.Tokens })
    HighestCostDay :=
      acc.highestCostDay.map (fun d =>
        { Date := d.Date, Label := d.Label, Cost := d.ActualCost, Requests := d.Requests })
    HighestRequestDay :=
      acc.highestRequestDay.map (fun d =>
        { Date := d.Date, Label := d.Label, Cost := d.ActualCost, Requests := d.Requests }) }

/-- A history of two days whose token counts are int64 values with a sum of 2^63,
one more than the largest int64. -/
def overflowHistory : List AccountUsageHistory :=
  [{ Date := "2025-01-01", Label := "01/01", Requests := 1,
     Tokens := 9223372036854775807, Cost := 0, ActualCost := 0 },
   { Date := "2025-01-02", Label := "01/02", Requests := 1,
     Tokens := 1, Cost := 0, ActualCost := 0 }]

/-- The entry `d` is the first entry of the history whose Requests is maximal: the
entries before it have fewer requests, the entries after it have no more. -/
def firstMaxRequests (history : List AccountUsageHistory) (d : AccountUsageHistory) : Prop :=
  ∃ pre post, history = pre ++ d :: post ∧ (∀ x ∈ pre, x.Requests < d.Requests) ∧
    (∀ x ∈ post, x.Requests ≤ d.Requests)

/-- The type `datatypes.JSONMap`, a `map[string]any`: the entries as key and JSON
text of the value. -/
abbrev JSONMap := List (String × String)

/-- Modelled from the spec: the struct `groupModel`, declared in a file of the
package that is not among the sources; a group is a named bucket of accounts. -/
structure groupModel where
  ID : Int
  Name : String
  deriving DecidableEq, Repr

/-- Modelled from the spec: the struct `service.Group`, declared outside the
repository package; a group is a named bucket of accounts. -/
structure Group where
  ID : Int
  Name : String
  deriving DecidableEq, Repr

/-- Modelled from the spec: the function `groupModelToService`, defined in a file of
the package that is not among the sources; like the other converters it copies the
fields and maps nil to nil. -/
def groupModelToService (m : Option groupModel) : Option Group :=
  match m with
  | none => none
  | some m => some { ID := m.ID, Name := m.Name }

/-- Modelled from the spec: the fields of the struct `service.Account` (declared
outside the repository package) that are not associations; they are the ones the
converters of `account_repo.go` read and assign. -/
structure accountFields where
  ID : Int
  Name : String
  Platform : String
  Typ : String
  Credentials : Option JSONMap
  Extra : Option JSONMap
  ProxyID : Option Int
  Concurrency : Int
  Priority : Int
  Status : String
  ErrorMessage : String
  LastUsedAt : Option Time
  CreatedAt : Time
  UpdatedAt : Time
  Schedulable : Bool
  RateLimitedAt : Option Time
  RateLimitResetAt : Option Time
  OverloadUntil : Option Time
  SessionWindowStart : Option Time
  SessionWindowEnd : Option Time
  SessionWindowStatus : String
  deriving DecidableEq, Repr

mutual
/-- The Go struct `accountModel` with all its fields: the columns of the modelled
row, the columns left out of it (`credentials`, `extra`, `created_at`,
`updated_at`) and the associations `Proxy` and `AccountGroups`.  A nil pointer or
nil slice is `none`. -/
inductive accountRecord where
  | mk (row : accountModel) (Credentials Extra : Option JSONMap) (CreatedAt UpdatedAt : Time)
      (Proxy : Option proxyModel) (AccountGroups : Option (List accountGroupRecord))
/-- The Go struct `accountGroupModel` with all its fields: the columns of the
modelled row, `created_at`, and the associations `Account` and `Group`. -/
inductive accountGroupRecord where
  | mk (row : accountGroupModel) (CreatedAt : Time) (Account : Option accountRecord)
      (Group : Option groupModel)
end

mutual
/-- Modelled from the spec: the struct `service.Account`, declared outside the
repository package: its plain fields and the associations `Proxy`, `AccountGroups`,
`GroupIDs` and `Groups` the converters assign. -/
inductive Account where
  | mk (fields : accountFields) (Proxy : Option Proxy)
      (AccountGroups : Option (List AccountGroup)) (GroupIDs : Option (List Int))
      (Groups : Option (List Group))
/-- Modelled from the spec: the struct `service.AccountGroup`, declared outside the
repository package; its fields are the ones `accountGroupModelToService` assigns. -/
inductive AccountGroup where
  | mk (AccountID GroupID Priority : Int) (CreatedAt : Time) (Account : Option Account)
      (Group : Option Group)
end

/-- The plain fields of a service account. -/
def Account.fields : Account → accountFields
  | Account.mk fields _ _ _ _ => fields

/-- The field `GroupID` of a service account group. -/
def AccountGroup.GroupID : AccountGroup → Int
  | AccountGroup.mk _ groupID _ _ _ _ => groupID

/-- The field `Group` of a service account group. -/
def AccountGroup.Group : AccountGroup → Option Group
  | AccountGroup.mk _ _ _ _ _ grp => grp

mutual
/-- The function `accountModelToService` on a struct (a pointer that is not nil). -/
def accountRecordToService : accountRecord → Account
  | accountRecord.mk row credentials extra createdAt updatedAt proxy accountGroups =>
    let fields : accountFields :=
      { ID := row.ID, Name := row.Name, Platform := row.Platform, Typ := row.Typ,
        Credentials := credentials, Extra := extra, ProxyID := row.ProxyID,
        Concurrency := row.Concurrency, Priority := row.Priority, Status := row.Status,
        ErrorMessage := row.ErrorMessage, LastUsedAt := row.LastUsedAt,
        CreatedAt := createdAt, UpdatedAt := updatedAt, Schedulable := row.Schedulable,
        RateLimitedAt := row.RateLimitedAt, RateLimitResetAt := row.RateLimitResetAt,
        OverloadUntil := row.OverloadUntil, SessionWindowStart := row.SessionWindowStart,
        SessionWindowEnd := row.SessionWindowEnd,
        SessionWindowStatus := row.SessionWindowStatus }
    match accountGroups with
    | none => Account.mk fields (proxyModelToService proxy) none none none
    | some groups =>
      if groups.length > 0 then
        let out := accountGroupRecordsToService groups
        Account.mk fields (proxyModelToService proxy) (some out)
          (some (out.map AccountGroup.GroupID)) (some (out.filterMap AccountGroup.Group))
      else Account.mk fields (proxyModelToService proxy) none none none
/-- The function `accountGroupModelToService` on a struct (a pointer that is not
nil). -/
def accountGroupRecordToService : accountGroupRecord → AccountGroup
  | accountGroupRecord.mk row createdAt account grp =>
    AccountGroup.mk row.AccountID row.GroupID row.Priority createdAt
      (match account with
       | none => none
       | some a => some (accountRecordToService a))
      (groupModelToService grp)
/-- The loop `for i := range m.AccountGroups` of `accountModelToService`: every
element converts to a pointer that is not nil and is appended. -/
def accountGroupRecordsToService : List accountGroupRecord → List AccountGroup
  | [] => []
  | g :: groups => accountGroupRecordToService g :: accountGroupRecordsToService groups
end

/-- The function `accountModelToService`; a nil pointer is `none`. -/
def accountModelToService (m : Option accountRecord) : Option Account :=
  match m with
  | none => none
  | some m => some (accountRecordToService m)

/-- The function `accountGroupModelToService`; a nil pointer is `none`. -/
def accountGroupModelToService (m : Option accountGroupRecord) : Option AccountGroup :=
  match m with
  | none => none
  | some m => some (accountGroupRecordToService m)

/-- The columns of the modelled row that `accountModelFromService` fills from the
fields of a service account; `DeletedAt` keeps its zero value. -/
def rowFromService (f : accountFields) : accountModel :=
  { ID := f.ID, Name := f.Name, Platform := f.Platform, Typ := f.Typ, ProxyID := f.ProxyID,
    Concurrency := f.Concurrency, Priority := f.Priority, Status := f.Status,
    ErrorMessage := f.ErrorMessage, LastUsedAt := f.LastUsedAt, DeletedAt := none,
    Schedulable := f.Schedulable, RateLimitedAt := f.RateLimitedAt,
    RateLimitResetAt := f.RateLimitResetAt, OverloadUntil := f.OverloadUntil,
    SessionWindowStart := f.SessionWindowStart, SessionWindowEnd := f.SessionWindowEnd,
    SessionWindowStatus := f.SessionWindowStatus }

/-- The function `accountModelFromService`; a nil pointer is `none`.  The
associations of the struct it returns keep their zero value nil. -/
def accountModelFromService (a : Option Account) : Option accountRecord :=
  match a with
  | none => none
  | some (Account.mk f _ _ _ _) =>
    some (accountRecord.mk (rowFromService f) f.Credentials f.Extra f.CreatedAt f.UpdatedAt
      none none)

/-- A service account with every association set, used to exercise the converters. -/
def sampleAccount : Account :=
  Account.mk
    { ID := 3, Name := "G", Platform := "claude", Typ := "oauth",
      Credentials := some [("token", "\"t\"")], Extra := none, ProxyID := some 9,
      Concurrency := 3, Priority := 10, Status := StatusActive, ErrorMessage := "",
      LastUsedAt := some 40, CreatedAt := 1, UpdatedAt := 2, Schedulable := true,
      RateLimitedAt := some 5, RateLimitResetAt := some 900, OverloadUntil := some 800,
      SessionWindowStart := none, SessionWindowEnd := none, SessionWindowStatus := "" }
    (some { ID := 9, Name := "p", Protocol := "http", Host := "h", Port := 8080,
            Username := "", Password := "", Status := StatusActive, CreatedAt := 1,
            UpdatedAt := 1 })
    (some [AccountGroup.mk 3 7 1 1 none (some { ID := 7, Name := "g" })])
    (some [7]) (some [{ ID := 7, Name := "g" }])

/-- The call `Save(m)` of the ORM on table `accounts`, for the modelled columns of
`m`.  With a zero primary key it inserts the row under the id `newID` the store
assigns.  Otherwise it runs one UPDATE of every column on the rows with the id that
are not soft deleted; when that UPDATE matches no row it inserts the row, or, when
the id is taken (by a soft deleted row), overwrites every column of the row that
holds it.  The result is the store, the struct `m` after the call and the error. -/
def Save (db : DB) (m : accountModel) (newID : Int) (fault : Option DbError) :
    DB × accountModel × Option DbError :=
  match fault with
  | some err => (db, m, some err)
  | none =>
    if m.ID = 0 then
      ({ db with accounts := db.accounts ++ [{ m with ID := newID }] },
        { m with ID := newID }, none)
    else if db.accounts.any (fun a => a.ID == m.ID && a.DeletedAt.isNone) then
      ({ db with accounts := db.accounts.map (fun a =>
          if a.ID = m.ID ∧ a.DeletedAt = none then m else a) }, m, none)
    else if db.accounts.any (fun a => a.ID == m.ID) then
      ({ db with accounts := db.accounts.map (fun a => if a.ID = m.ID then m else a) },
        m, none)
    else ({ db with accounts := db.accounts ++ [m] }, m, none)

/-- The function `applyAccountModelToService` for two pointers that are not nil:
the id is copied back (and the two timestamps the ORM maintains, which the modelled
store does not change). -/
def applyAccountModelToService (account : Account) (m : accountModel) : Account :=
  match account with
  | Account.mk f proxy accountGroups groupIDs groups =>
    Account.mk { f with ID := m.ID } proxy accountGroups groupIDs groups

/-- The method `Update` for an account pointer that is not nil: the full record is
converted and saved, and on success the id is copied back to the caller's struct.
The result is the store, the caller's struct after the call and the error. -/
def Update (db : DB) (account : Account) (newID : Int) (fault : Option DbError) :
    DB × Account × Option DbError :=
  match accountModelFromService (some account) with
  | none => (db, account, none)
  | some (accountRecord.mk row _ _ _ _ _ _) =>
    match Save db row newID fault with
    | (db1, m, none) => (db1, applyAccountModelToService account m, none)
    | (db1, _, some err) => (db1, account, some err)

/-- A service account with the id of account G that carries no gate, a false
schedulable flag and no last use: what an administrative form would send. -/
def staleAccount : Account :=
  Account.mk
    { ID := 3, Name := "G", Platform := "claude", Typ := "oauth",
      Credentials := none, Extra := none, ProxyID := none,
      Concurrency := 3, Priority := 10, Status := StatusActive, ErrorMessage := "",
      LastUsedAt := none, CreatedAt := 1, UpdatedAt := 2, Schedulable := false,
      RateLimitedAt := none, RateLimitResetAt := none, OverloadUntil := none,
      SessionWindowStart := none, SessionWindowEnd := none, SessionWindowStatus := "" }
    none none none none

/-- What the clause `ORDER BY` guarantees of the rows a statement returns: they are
the selected rows, each as often as it was selected, and the comparison `le` holds
from every row to every row after it.  How rows that the comparison does not
separate follow one another is left to the store; the list `orderBy` computes is one
of the lists this allows. -/
def orderedSelection {α : Type} (le : α → α → Bool) (rows res : List α) : Prop :=
  res.Perm rows ∧ res.Pairwise (fun x y => le x y = true)

/-- A call of one of the six ListSchedulable methods, with its arguments. -/
inductive Query where
  | all
  | byGroupID (groupID : Int)
  | byPlatform (platform : String)
  | byGroupIDAndPlatform (groupID : Int) (platform : String)
  | byPlatforms (platforms : List String)
  | byGroupIDAndPlatforms (groupID : Int) (platforms : List String)

/-- The method a call names, applied to its arguments. -/
def Query.run (db : DB) (now : Time) (q : Query) (fault : Option DbError) :
    Except DbError (List accountModel) :=
  match q with
  | Query.all => ListSchedulable db now fault
  | Query.byGroupID groupID => ListSchedulableByGroupID db now groupID fault
  | Query.byPlatform platform => ListSchedulableByPlatform db now platform fault
  | Query.byGroupIDAndPlatform groupID platform =>
    ListSchedulableByGroupIDAndPlatform db now groupID platform fault
  | Query.byPlatforms platforms => ListSchedulableByPlatforms db now platforms fault
  | Query.byGroupIDAndPlatforms groupID platforms =>
    ListSchedulableByGroupIDAndPlatforms db now groupID platforms fault

/-- The group of a group-scoped call. -/
def Query.groupID (q : Query) : Option Int :=
  match q with
  | Query.all => none
  | Query.byGroupID groupID => some groupID
  | Query.byPlatform _ => none
  | Query.byGroupIDAndPlatform groupID _ => some groupID
  | Query.byPlatforms _ => none
  | Query.byGroupIDAndPlatforms groupID _ => some groupID

/-- The lists a call of a ListSchedulable method may return when its statement runs:
the WHERE and JOIN clauses of the method select the rows, and the ORDER BY clause
fixes their order as far as its keys go.  A call with an empty platform list returns
the empty list without a statement. -/
def mayReturn (db : DB) (now : Time) (q : Query) (res : List accountModel) : Prop :=
  match q with
  | Query.all =>
    orderedSelection byPriority (db.accounts.filter (fun a => schedulableWhere now a)) res
  | Query.byGroupID groupID =>
    ∃ rows, orderedSelection byGroupPriority ((joinAccountGroups db).filter (fun x =>
      x.2.GroupID == groupID && schedulableWhere now x.1)) rows ∧ res = rows.map Prod.fst
  | Query.byPlatform platform =>
    orderedSelection byPriority (db.accounts.filter (fun a =>
      a.Platform == platform && schedulableWhere now a)) res
  | Query.byGroupIDAndPlatform groupID platform =>
    ∃ rows, orderedSelection byGroupPriority ((joinAccountGroups db).filter (fun x =>
      x.2.GroupID == groupID && x.1.Platform == platform &&
        schedulableWhere now x.1)) rows ∧ res = rows.map Prod.fst
  | Query.byPlatforms platforms =>
    if platforms.length = 0 then res = []
    else orderedSelection byPriority (db.accounts.filter (fun a =>
      platforms.contains a.Platform && schedulableWhere now a)) res
  | Query.byGroupIDAndPlatforms groupID platforms =>
    if platforms.length = 0 then res = []
    else ∃ rows, orderedSelection byGroupPriority ((joinAccountGroups db).filter (fun x =>
      x.2.GroupID == groupID && platforms.contains x.1.Platform &&
        schedulableWhere now x.1)) rows ∧ res = rows.map Prod.fst

/-- Two lists of accounts are equal up to the order of accounts with equal sort keys
of the call: they hold the same accounts, each as often, with the same sequence of
account priorities and, for a group-scoped call on a table account_groups that
respects its primary key, the same sequence of ranking keys. -/
def sameUpToTies (db : DB) (q : Query) (r1 r2 : List accountModel) : Prop :=
  r1.Perm r2 ∧ r1.map accountModel.Priority = r2.map accountModel.Priority ∧
    ∀ g, q.groupID = some g → (db.account_groups.map accountGroupKey).Nodup →
      r1.map (rankKey db g) = r2.map (rankKey db g)

/-- The two accounts have equal sort keys for the call: equal account priority and,
for a group-scoped call, equal membership priority in the group. -/
def equalSortKeys (db : DB) (q : Query) (a b : accountModel) : Prop :=
  a.Priority = b.Priority ∧
    ∀ g, q.groupID = some g →
      ∀ m1 ∈ db.account_groups, ∀ m2 ∈ db.account_groups,
        m1.AccountID = a.ID → m1.GroupID = g → m2.AccountID = b.ID → m2.GroupID = g →
          m1.Priority = m2.Priority

/-- Two stores hold the same rows up to the session window columns of their
accounts: same memberships, and the accounts with these three columns blanked are
the same rows, each as often, in whatever order the tables hold them. -/
def sameButSessionWindow (db1 db2 : DB) : Prop :=
  db1.account_groups = db2.account_groups ∧
    (db1.accounts.map eraseSessionWindow).Perm (db2.accounts.map eraseSessionWindow)

/-- Account 2 of `tieStore`: account A under another id. -/
def accountT : accountModel := { accountA with ID := 2, Name := "T" }

/-- A store with the accounts 1 and 2 of one priority and one membership priority in
group 7. -/
def tieStore : DB :=
  { accounts := [accountT, accountA], account_groups := [⟨2, 7, 1⟩, ⟨1, 7, 1⟩] }

/-- Account 2 of `mixedStore`: account A under another id and another platform. -/
def accountM : accountModel := { accountA with ID := 2, Name := "M", Platform := "gemini" }

/-- Account 3 of `mixedStore`: account A under another id. -/
def accountN : accountModel := { accountA with ID := 3, Name := "N" }

/-- A store with three accounts of one priority and one membership priority in
group 7; the accounts 1 and 3 are of platform claude, account 2 of platform gemini. -/
def mixedStore : DB :=
  { accounts := [accountA, accountM, accountN],
    account_groups := [⟨1, 7, 1⟩, ⟨2, 7, 1⟩, ⟨3, 7, 1⟩] }

/-- The sort keys of a row of the join, in the order the clause
`ORDER BY account_groups.priority ASC, accounts.priority ASC` names them. -/
def joinKey (x : accountModel × accountGroupModel) : Int × Int :=
  (x.2.Priority, x.1.Priority)

/-- The platform condition the call puts on an account row (none for the calls
without platform argument). -/
def Query.platformWhere (q : Query) (a : accountModel) : Bool :=
  match q with
  | Query.all => true
  | Query.byGroupID _ => true
  | Query.byPlatform platform => a.Platform == platform
  | Query.byGroupIDAndPlatform _ platform => a.Platform == platform
  | Query.byPlatforms platforms => platforms.contains a.Platform
  | Query.byGroupIDAndPlatforms _ platforms => platforms.contains a.Platform

/-- The call returns before it builds a statement: its platform list is empty. -/
def Query.noStatement (q : Query) : Bool :=
  match q with
  | Query.byPlatforms platforms => platforms.length == 0
  | Query.byGroupIDAndPlatforms _ platforms => platforms.length == 0
  | _ => false

/-- Account 1 of `tieStore` after `UpdateSessionWindow(1, 10, 20, "active")`. -/
def accountW : accountModel :=
  { accountA with
    SessionWindowStart := some 10, SessionWindowEnd := some 20,
    SessionWindowStatus := "active" }

/-! ## Lemmas on the statements -/

theorem mem_orderBy {α : Type} (le : α → α → Bool) (rows : List α) (x : α) :
    x ∈ orderBy le rows ↔ x ∈ rows :=
  (List.perm_insertionSort (fun x y => le x y = true) rows).mem_iff

theorem nullOrLe_iff (t : Option Time) (now : Time) :
    nullOrLe t now = true ↔ gatePassed t now := by
  cases t <;> simp [nullOrLe, gatePassed]

theorem schedulableWhere_iff (now : Time) (a : accountModel) :
    schedulableWhere now a = true ↔ a.DeletedAt = none ∧ isEligible a now := by
  simp only [schedulableWhere, notDeleted, activeSchedulable, isEligible, Bool.and_eq_true,
    nullOrLe_iff, Option.isNone_iff_eq_none, beq_iff_eq]
  tauto

theorem mem_joinAccountGroups (db : DB) (x : accountModel × accountGroupModel) :
    x ∈ joinAccountGroups db ↔
      x.1 ∈ db.accounts ∧ x.2 ∈ db.account_groups ∧ x.2.AccountID = x.1.ID := by
  obtain ⟨a, m⟩ := x
  simp only [joinAccountGroups, List.mem_flatMap, List.mem_map, List.mem_filter, beq_iff_eq,
    Prod.mk.injEq]
  constructor
  · rintro ⟨b, hb, m', ⟨hm, hid⟩, rfl, rfl⟩
    exact ⟨hb, hm, hid⟩
  · rintro ⟨ha, hm, hid⟩
    exact ⟨a, ha, m, ⟨hm, hid⟩, rfl, rfl⟩

theorem mem_map_fst_orderBy (le : accountModel × accountGroupModel → accountModel × accountGroupModel → Bool)
    (rows : List (accountModel × accountGroupModel)) (a : accountModel) :
    a ∈ (orderBy le rows).map Prod.fst ↔ ∃ m, (a, m) ∈ rows := by
  simp [List.mem_map, mem_orderBy]

theorem contains_platform_iff (platforms : List String) (p : String) :
    platforms.contains p = true ↔ p ∈ platforms := by
  simp [List.contains]

theorem Updates_fault (db : DB) (id : Int) (set : accountModel → accountModel)
    (err : DbError) : Updates db id set (some err) = (db, some err) := rfl

theorem Updates_rows (db : DB) (id : Int) (set : accountModel → accountModel) :
    List.Forall₂ (fun a a' => a' = a ∨ (a.ID = id ∧ a.DeletedAt = none ∧ a' = set a))
      db.accounts (Updates db id set none).1.accounts := by
  simp only [Updates]
  rw [List.forall₂_map_right_iff, List.forall₂_same]
  intro a _
  by_cases h : a.ID = id ∧ a.DeletedAt = none
  · rw [if_pos h]
    exact Or.inr ⟨h.1, h.2, rfl⟩
  · rw [if_neg h]
    exact Or.inl rfl

/-- The statement of Updates, row by row: a row that has the id and is not soft
deleted is replaced by its rewritten form, every other row stays as it is. -/
theorem Updates_rows_exact (db : DB) (id : Int) (set : accountModel → accountModel) :
    List.Forall₂ (fun a a' => (a.ID = id ∧ a.DeletedAt = none → a' = set a) ∧
        (¬ (a.ID = id ∧ a.DeletedAt = none) → a' = a))
      db.accounts (Updates db id set none).1.accounts := by
  simp only [Updates]
  rw [List.forall₂_map_right_iff, List.forall₂_same]
  intro a _
  by_cases h : a.ID = id ∧ a.DeletedAt = none
  · rw [if_pos h]
    exact ⟨fun _ => rfl, fun hn => absurd h hn⟩
  · rw [if_neg h]
    exact ⟨fun hc => absurd hc h, fun _ => rfl⟩

theorem mem_Updates (db : DB) (id : Int) (set : accountModel → accountModel)
    (a' : accountModel) :
    a' ∈ (Updates db id set none).1.accounts ↔
      ∃ a ∈ db.accounts, a' = if a.ID = id ∧ a.DeletedAt = none then set a else a := by
  simp only [Updates, List.mem_map]
  constructor
  · rintro ⟨a, ha, rfl⟩
    exact ⟨a, ha, rfl⟩
  · rintro ⟨a, ha, rfl⟩
    exact ⟨a, ha, rfl⟩

theorem mem_ListSchedulable (db : DB) (now : Time) :
    ∃ res, ListSchedulable db now none = Except.ok res ∧
      ∀ a, a ∈ res ↔ (a ∈ db.accounts ∧ a.DeletedAt = none) ∧ isEligible a now := by
  refine ⟨_, rfl, ?_⟩
  intro a
  simp only [mem_orderBy, List.mem_filter, schedulableWhere_iff]
  tauto

theorem mem_ListSchedulableByGroupID (db : DB) (now : Time) (groupID : Int) :
    ∃ res, ListSchedulableByGroupID db now groupID none = Except.ok res ∧
      ∀ a, a ∈ res ↔
        (a ∈ db.accounts ∧ a.DeletedAt = none ∧ inGroup db a groupID) ∧ isEligible a now := by
  refine ⟨_, rfl, ?_⟩
  intro a
  simp only [mem_map_fst_orderBy, List.mem_filter, mem_joinAccountGroups,
    Bool.and_eq_true, beq_iff_eq, schedulableWhere_iff, inGroup]
  constructor
  · rintro ⟨m, ⟨ha, hm, hid⟩, hg, hd, he⟩
    exact ⟨⟨ha, hd, m, hm, hid, hg⟩, he⟩
  · rintro ⟨⟨ha, hd, m, hm, hid, hg⟩, he⟩
    exact ⟨m, ⟨ha, hm, hid⟩, hg, hd, he⟩

theorem mem_ListSchedulableByPlatform (db : DB) (now : Time) (platform : String) :
    ∃ res, ListSchedulableByPlatform db now platform none = Except.ok res ∧
      ∀ a, a ∈ res ↔
        (a ∈ db.accounts ∧ a.DeletedAt = none ∧ a.Platform = platform) ∧
          isEligible a now := by
  refine ⟨_, rfl, ?_⟩
  intro a
  simp only [mem_orderBy, List.mem_filter, Bool.and_eq_true, beq_iff_eq,
    schedulableWhere_iff]
  tauto

theorem mem_ListSchedulableByGroupIDAndPlatform (db : DB) (now : Time) (groupID : Int)
    (platform : String) :
    ∃ res, ListSchedulableByGroupIDAndPlatform db now groupID platform none
        = Except.ok res ∧
      ∀ a, a ∈ res ↔
        (a ∈ db.accounts ∧ a.DeletedAt = none ∧ inGroup db a groupID ∧
          a.Platform = platform) ∧ isEligible a now := by
  refine ⟨_, rfl, ?_⟩
  intro a
  simp only [mem_map_fst_orderBy, List.mem_filter, mem_joinAccountGroups,
    Bool.and_eq_true, beq_iff_eq, schedulableWhere_iff, inGroup]
  constructor
  · rintro ⟨m, ⟨ha, hm, hid⟩, ⟨hg, hp⟩, hd, he⟩
    exact ⟨⟨ha, hd, ⟨m, hm, hid, hg⟩, hp⟩, he⟩
  · rintro ⟨⟨ha, hd, ⟨m, hm, hid, hg⟩, hp⟩, he⟩
    exact ⟨m, ⟨ha, hm, hid⟩, ⟨hg, hp⟩, hd, he⟩

theorem mem_ListSchedulableByPlatforms (db : DB) (now : Time) (platforms : List String) :
    ∃ res, ListSchedulableByPlatforms db now platforms none = Except.ok res ∧
      ∀ a, a ∈ res ↔
        (a ∈ db.accounts ∧ a.DeletedAt = none ∧ a.Platform ∈ platforms) ∧
          isEligible a now := by
  unfold ListSchedulableByPlatforms
  split
  · rename_i h
    refine ⟨_, rfl, ?_⟩
    have hnil : platforms = [] := List.length_eq_zero.mp h
    subst hnil
    intro a
    simp
  · refine ⟨_, rfl, ?_⟩
    intro a
    simp only [mem_orderBy, List.mem_filter, Bool.and_eq_true, contains_platform_iff,
      schedulableWhere_iff]
    tauto

theorem mem_ListSchedulableByGroupIDAndPlatforms (db : DB) (now : Time) (groupID : Int)
    (platforms : List String) :
    ∃ res, ListSchedulableByGroupIDAndPlatforms db now groupID platforms none
        = Except.ok res ∧
      ∀ a, a ∈ res ↔
        (a ∈ db.accounts ∧ a.DeletedAt = none ∧ inGroup db a groupID ∧
          a.Platform ∈ platforms) ∧ isEligible a now := by
  unfold ListSchedulableByGroupIDAndPlatforms
  split
  · rename_i h
    refine ⟨_, rfl, ?_⟩
    have hnil : platforms = [] := List.length_eq_zero.mp h
    subst hnil
    intro a
    simp
  · refine ⟨_, rfl, ?_⟩
    intro a
    simp only [mem_map_fst_orderBy, List.mem_filter, mem_joinAccountGroups,
      Bool.and_eq_true, beq_iff_eq, contains_platform_iff, schedulableWhere_iff, inGroup]
    constructor
    · rintro ⟨m, ⟨ha, hm, hid⟩, ⟨hg, hp⟩, hd, he⟩
      exact ⟨⟨ha, hd, ⟨m, hm, hid, hg⟩, hp⟩, he⟩
    · rintro ⟨⟨ha, hd, ⟨m, hm, hid, hg⟩, hp⟩, he⟩
      exact ⟨m, ⟨ha, hm, hid⟩, ⟨hg, hp⟩, hd, he⟩

theorem bindRows_keys (accountID : Int) (groupIDs : List Int) :
    (bindRows accountID groupIDs).map accountGroupKey
      = groupIDs.map (fun g => (accountID, g)) := by
  conv_rhs => rw [← List.enum_map_snd groupIDs]
  simp only [bindRows, List.map_map]
  rfl

theorem bindRows_keys_nodup (accountID : Int) (groupIDs : List Int) :
    ((bindRows accountID groupIDs).map accountGroupKey).Nodup ↔ groupIDs.Nodup := by
  rw [bindRows_keys]
  exact List.nodup_map_iff (fun g h hgh => (Prod.mk.inj hgh).2)

theorem mem_bindRows (accountID : Int) (groupIDs : List Int) (m : accountGroupModel) :
    m ∈ bindRows accountID groupIDs ↔
      ∃ (i : Nat) (g : Int), groupIDs[i]? = some g ∧
        m = { AccountID := accountID, GroupID := g, Priority := (i : Int) + 1 } := by
  simp only [bindRows, List.mem_map, List.mem_enum_iff_getElem?]
  constructor
  · rintro ⟨p, hp, rfl⟩
    exact ⟨p.1, p.2, hp, rfl⟩
  · rintro ⟨i, g, hg, rfl⟩
    exact ⟨(i, g), hg, rfl⟩

theorem bindRows_accountID (accountID : Int) (groupIDs : List Int) (m : accountGroupModel)
    (hm : m ∈ bindRows accountID groupIDs) : m.AccountID = accountID := by
  obtain ⟨i, g, _, rfl⟩ := (mem_bindRows accountID groupIDs m).mp hm
  rfl

theorem bindRows_length (accountID : Int) (groupIDs : List Int) :
    (bindRows accountID groupIDs).length = groupIDs.length := by
  simp [bindRows]

theorem bindRows_fresh (db : DB) (accountID : Int) (groupIDs : List Int) :
    ∀ r ∈ bindRows accountID groupIDs, accountGroupKey r ∉
      (db.account_groups.filter (fun m => !(m.AccountID == accountID))).map
        accountGroupKey := by
  intro r hr hin
  obtain ⟨m, hm, hkey⟩ := List.mem_map.mp hin
  have hne : m.AccountID ≠ accountID := by
    have := (List.mem_filter.mp hm).2
    simpa using this
  have hacc : m.AccountID = r.AccountID := (Prod.mk.inj hkey).1
  exact hne (hacc.trans (bindRows_accountID accountID groupIDs r hr))

/-- The table `account_groups` a call of BindGroups leaves when both statements
run: the rows of the other accounts, then the rows built from the list. -/
theorem BindGroups_ok (db : DB) (accountID : Int) (groupIDs : List Int)
    (hnodup : groupIDs.Nodup) :
    BindGroups db accountID groupIDs none none =
      ({ db with account_groups :=
          db.account_groups.filter (fun m => !(m.AccountID == accountID)) ++
            bindRows accountID groupIDs }, none) := by
  unfold BindGroups
  simp only [deleteAccountGroups]
  split
  · rename_i h
    have hnil : groupIDs = [] := List.length_eq_zero.mp h
    subst hnil
    simp [bindRows]
  · simp only [createAccountGroups]
    rw [if_pos ⟨(bindRows_keys_nodup accountID groupIDs).mpr hnodup,
      bindRows_fresh db accountID groupIDs⟩]

theorem BindGroups_of_success (db : DB) (accountID : Int) (groupIDs : List Int)
    (deleteFault insertFault : Option DbError)
    (hok : (BindGroups db accountID groupIDs deleteFault insertFault).2 = none) :
    (BindGroups db accountID groupIDs deleteFault insertFault).1 =
      { db with account_groups :=
          db.account_groups.filter (fun m => !(m.AccountID == accountID)) ++
            bindRows accountID groupIDs } := by
  cases deleteFault with
  | some err => simp [BindGroups, deleteAccountGroups] at hok
  | none =>
    by_cases hlen : groupIDs.length = 0
    · have hnil : groupIDs = [] := List.length_eq_zero.mp hlen
      subst hnil
      simp [BindGroups, deleteAccountGroups, bindRows]
    · cases insertFault with
      | some err => simp [BindGroups, deleteAccountGroups, createAccountGroups, hlen] at hok
      | none =>
        simp only [BindGroups, deleteAccountGroups, createAccountGroups, if_neg hlen] at hok ⊢
        split
        · rfl
        · rename_i hc
          rw [if_neg hc] at hok
          exact absurd hok (by simp)

theorem membershipsOf_replaced (db : DB) (accountID : Int) (groupIDs : List Int) :
    membershipsOf
      { db with account_groups :=
          db.account_groups.filter (fun m => !(m.AccountID == accountID)) ++
            bindRows accountID groupIDs } accountID = bindRows accountID groupIDs := by
  simp only [membershipsOf, List.filter_append, List.filter_filter]
  have h1 : db.account_groups.filter
      (fun m => (m.AccountID == accountID) && !(m.AccountID == accountID)) = [] := by
    rw [List.filter_eq_nil_iff]
    intro m _
    simp
  have h2 : (bindRows accountID groupIDs).filter (fun m => m.AccountID == accountID)
      = bindRows accountID groupIDs := by
    rw [List.filter_eq_self]
    intro m hm
    simp [bindRows_accountID accountID groupIDs m hm]
  rw [h1, h2, List.nil_append]

theorem membershipsOf_other (db : DB) (accountID other : Int) (groupIDs : List Int)
    (hne : other ≠ accountID) :
    membershipsOf
      { db with account_groups :=
          db.account_groups.filter (fun m => !(m.AccountID == accountID)) ++
            bindRows accountID groupIDs } other = membershipsOf db other := by
  simp only [membershipsOf, List.filter_append, List.filter_filter]
  have h2 : (bindRows accountID groupIDs).filter (fun m => m.AccountID == other) = [] := by
    rw [List.filter_eq_nil_iff]
    intro m hm
    simp [bindRows_accountID accountID groupIDs m hm, Ne.symm hne]
  rw [h2, List.append_nil]
  apply List.filter_congr
  intro m _
  by_cases h : m.AccountID = other
  · simp [h, hne]
  · simp [h]

theorem BindGroups_delete_fault (db : DB) (accountID : Int) (groupIDs : List Int)
    (err : DbError) (insertFault : Option DbError) :
    BindGroups db accountID groupIDs (some err) insertFault = (db, some err) := rfl

theorem BindGroups_insert_error (db : DB) (accountID : Int) (groupIDs : List Int)
    (insertFault : Option DbError)
    (herr : (BindGroups db accountID groupIDs none insertFault).2 ≠ none) :
    (BindGroups db accountID groupIDs none insertFault).1 =
      { db with account_groups :=
          db.account_groups.filter (fun m => !(m.AccountID == accountID)) } := by
  by_cases hlen : groupIDs.length = 0
  · simp [BindGroups, deleteAccountGroups, hlen] at herr
  · cases insertFault with
    | some err => simp [BindGroups, deleteAccountGroups, createAccountGroups, hlen]
    | none =>
      simp only [BindGroups, deleteAccountGroups, createAccountGroups, if_neg hlen] at herr ⊢
      split
      · rename_i hc
        rw [if_pos hc] at herr
        exact absurd rfl herr
      · rfl

theorem BindGroups_insert_fault (db : DB) (accountID : Int) (groupIDs : List Int)
    (err : DbError) (hne : groupIDs ≠ []) :
    (BindGroups db accountID groupIDs none (some err)).2 = some err := by
  have hlen : ¬ groupIDs.length = 0 := fun h => hne (List.length_eq_zero.mp h)
  simp [BindGroups, deleteAccountGroups, createAccountGroups, hlen]

theorem BindGroups_duplicate (db : DB) (accountID : Int) (groupIDs : List Int)
    (hdup : ¬ groupIDs.Nodup) :
    BindGroups db accountID groupIDs none none =
      ({ db with account_groups :=
          db.account_groups.filter (fun m => !(m.AccountID == accountID)) },
        some DbError.duplicateKey) := by
  have hlen : ¬ groupIDs.length = 0 := by
    intro h
    have hnil : groupIDs = [] := List.length_eq_zero.mp h
    exact hdup (hnil ▸ List.nodup_nil)
  have hkeys : ¬ ((bindRows accountID groupIDs).map accountGroupKey).Nodup :=
    fun h => hdup ((bindRows_keys_nodup accountID groupIDs).mp h)
  simp only [BindGroups, deleteAccountGroups, createAccountGroups, if_neg hlen]
  rw [if_neg (fun h => hkeys h.1)]

theorem membershipsOf_deleted (db : DB) (accountID : Int) :
    membershipsOf
      { db with account_groups :=
          db.account_groups.filter (fun m => !(m.AccountID == accountID)) }
      accountID = [] := by
  simp only [membershipsOf, List.filter_filter]
  rw [List.filter_eq_nil_iff]
  intro m _
  simp

theorem membershipsOf_deleted_other (db : DB) (accountID other : Int)
    (hne : other ≠ accountID) :
    membershipsOf
      { db with account_groups :=
          db.account_groups.filter (fun m => !(m.AccountID == accountID)) }
      other = membershipsOf db other := by
  simp only [membershipsOf, List.filter_filter]
  apply List.filter_congr
  intro m _
  by_cases h : m.AccountID = other
  · simp [h, hne]
  · simp [h]

theorem byGroupPriority_total (x y : accountModel × accountGroupModel) :
    byGroupPriority x y = true ∨ byGroupPriority y x = true := by
  simp only [byGroupPriority, Bool.or_eq_true, Bool.and_eq_true, decide_eq_true_eq]
  omega

theorem byGroupPriority_trans (x y z : accountModel × accountGroupModel)
    (hxy : byGroupPriority x y = true) (hyz : byGroupPriority y z = true) :
    byGroupPriority x z = true := by
  simp only [byGroupPriority, Bool.or_eq_true, Bool.and_eq_true, decide_eq_true_eq] at *
  omega

theorem orderBy_byGroupPriority_sorted (rows : List (accountModel × accountGroupModel)) :
    (orderBy byGroupPriority rows).Pairwise (fun x y => byGroupPriority x y = true) :=
  @List.sorted_insertionSort _ (fun x y => byGroupPriority x y = true) _
    ⟨byGroupPriority_total⟩ ⟨byGroupPriority_trans⟩ rows

theorem membershipPriority_eq (db : DB)
    (hpk : (db.account_groups.map accountGroupKey).Nodup) (m : accountGroupModel)
    (hm : m ∈ db.account_groups) :
    membershipPriority db m.GroupID m.AccountID = m.Priority := by
  unfold membershipPriority
  cases hfind : db.account_groups.find?
      (fun m' => m'.AccountID == m.AccountID && m'.GroupID == m.GroupID) with
  | none =>
    have := List.find?_eq_none.mp hfind m hm
    simp at this
  | some m' =>
    have hp := List.find?_some hfind
    have hm' := List.mem_of_find?_eq_some hfind
    simp only [Bool.and_eq_true, beq_iff_eq] at hp
    have hkey : accountGroupKey m' = accountGroupKey m := by
      simp [accountGroupKey, hp.1, hp.2]
    rw [List.inj_on_of_nodup_map hpk hm' hm hkey]

/-- Rows of the join that are sorted by the comparison of the ORDER BY clause give
accounts sorted by the ranking key of the group, when every one of the rows is a
row of the join for that group. -/
theorem rank_sorted_of_rows (db : DB)
    (hpk : (db.account_groups.map accountGroupKey).Nodup) (groupID : Int)
    (rows : List (accountModel × accountGroupModel))
    (hrows : ∀ x ∈ rows, x ∈ joinAccountGroups db ∧ x.2.GroupID = groupID) :
    ((orderBy byGroupPriority rows).map Prod.fst).Pairwise
      (fun a b => keyLe (rankKey db groupID a) (rankKey db groupID b)) := by
  rw [List.pairwise_map]
  refine List.Pairwise.imp_of_mem ?_ (orderBy_byGroupPriority_sorted rows)
  intro x y hx hy hxy
  have hkey : ∀ z ∈ orderBy byGroupPriority rows,
      membershipPriority db groupID z.1.ID = z.2.Priority := by
    intro z hz
    obtain ⟨hj, hg⟩ := hrows z ((mem_orderBy _ _ _).mp hz)
    obtain ⟨_, hm, hid⟩ := (mem_joinAccountGroups db z).mp hj
    rw [← hg, ← hid]
    exact membershipPriority_eq db hpk z.2 hm
  simp only [byGroupPriority, Bool.or_eq_true, Bool.and_eq_true, decide_eq_true_eq] at hxy
  simp only [keyLe, rankKey, hkey x hx, hkey y hy]
  exact hxy

theorem byPriority_total (a b : accountModel) :
    byPriority a b = true ∨ byPriority b a = true := by
  simp only [byPriority, decide_eq_true_eq]
  omega

theorem byPriority_trans (a b c : accountModel) (hab : byPriority a b = true)
    (hbc : byPriority b c = true) : byPriority a c = true := by
  simp only [byPriority, decide_eq_true_eq] at *
  omega

theorem orderBy_byPriority_sorted (rows : List accountModel) :
    (orderBy byPriority rows).Pairwise (fun a b => byPriority a b = true) :=
  @List.sorted_insertionSort _ (fun a b => byPriority a b = true) _
    ⟨byPriority_total⟩ ⟨byPriority_trans⟩ rows

/-- The result of ORDER BY priority in the form of the claim: positions i before j
hold priorities in non-decreasing order. -/
theorem orderBy_byPriority_index (rows : List accountModel) (i j : Nat)
    (hi : i < (orderBy byPriority rows).length) (hj : j < (orderBy byPriority rows).length)
    (hij : i < j) :
    (orderBy byPriority rows)[i].Priority ≤ (orderBy byPriority rows)[j].Priority := by
  have h := List.pairwise_iff_getElem.mp (orderBy_byPriority_sorted rows) i j hi hj hij
  simpa [byPriority] using h

theorem neverReturned_of_ineligible (db : DB) (t : Time) (id : Int)
    (h : ∀ b ∈ db.accounts, b.ID = id → b.DeletedAt = none → ¬ isEligible b t) :
    neverReturned db t id := by
  refine ⟨?_, ?_, ?_, ?_, ?_, ?_⟩
  · obtain ⟨res, hres, hiff⟩ := mem_ListSchedulable db t
    refine ⟨res, hres, fun b hb hid => ?_⟩
    have hb' := (hiff b).mp hb
    exact h b hb'.1.1 hid hb'.1.2 hb'.2
  · intro g
    obtain ⟨res, hres, hiff⟩ := mem_ListSchedulableByGroupID db t g
    refine ⟨res, hres, fun b hb hid => ?_⟩
    have hb' := (hiff b).mp hb
    exact h b hb'.1.1 hid hb'.1.2.1 hb'.2
  · intro p
    obtain ⟨res, hres, hiff⟩ := mem_ListSchedulableByPlatform db t p
    refine ⟨res, hres, fun b hb hid => ?_⟩
    have hb' := (hiff b).mp hb
    exact h b hb'.1.1 hid hb'.1.2.1 hb'.2
  · intro g p
    obtain ⟨res, hres, hiff⟩ := mem_ListSchedulableByGroupIDAndPlatform db t g p
    refine ⟨res, hres, fun b hb hid => ?_⟩
    have hb' := (hiff b).mp hb
    exact h b hb'.1.1 hid hb'.1.2.1 hb'.2
  · intro ps
    obtain ⟨res, hres, hiff⟩ := mem_ListSchedulableByPlatforms db t ps
    refine ⟨res, hres, fun b hb hid => ?_⟩
    have hb' := (hiff b).mp hb
    exact h b hb'.1.1 hid hb'.1.2.1 hb'.2
  · intro g ps
    obtain ⟨res, hres, hiff⟩ := mem_ListSchedulableByGroupIDAndPlatforms db t g ps
    refine ⟨res, hres, fun b hb hid => ?_⟩
    have hb' := (hiff b).mp hb
    exact h b hb'.1.1 hid hb'.1.2.1 hb'.2

theorem returnedInScope_of_eligible (db : DB) (t : Time) (a : accountModel)
    (hmem : a ∈ db.accounts) (hlive : a.DeletedAt = none) (helig : isEligible a t) :
    returnedInScope db t a := by
  refine ⟨?_, ?_, ?_, ?_⟩
  · obtain ⟨res, hres, hiff⟩ := mem_ListSchedulable db t
    exact ⟨res, hres, (hiff a).mpr ⟨⟨hmem, hlive⟩, helig⟩⟩
  · obtain ⟨res, hres, hiff⟩ := mem_ListSchedulableByPlatform db t a.Platform
    exact ⟨res, hres, (hiff a).mpr ⟨⟨hmem, hlive, rfl⟩, helig⟩⟩
  · intro ps hp
    obtain ⟨res, hres, hiff⟩ := mem_ListSchedulableByPlatforms db t ps
    exact ⟨res, hres, (hiff a).mpr ⟨⟨hmem, hlive, hp⟩, helig⟩⟩
  · intro g hg
    refine ⟨?_, ?_, ?_⟩
    · obtain ⟨res, hres, hiff⟩ := mem_ListSchedulableByGroupID db t g
      exact ⟨res, hres, (hiff a).mpr ⟨⟨hmem, hlive, hg⟩, helig⟩⟩
    · obtain ⟨res, hres, hiff⟩ := mem_ListSchedulableByGroupIDAndPlatform db t g a.Platform
      exact ⟨res, hres, (hiff a).mpr ⟨⟨hmem, hlive, hg, rfl⟩, helig⟩⟩
    · intro ps hp
      obtain ⟨res, hres, hiff⟩ := mem_ListSchedulableByGroupIDAndPlatforms db t g ps
      exact ⟨res, hres, (hiff a).mpr ⟨⟨hmem, hlive, hg, hp⟩, helig⟩⟩

/-- A live row with the id in the table an UPDATE leaves is an assigned row. -/
theorem Updates_live_row (db : DB) (id : Int) (set : accountModel → accountModel)
    (b : accountModel) (hb : b ∈ (Updates db id set none).1.accounts) (hbid : b.ID = id)
    (hblive : b.DeletedAt = none) :
    ∃ a ∈ db.accounts, a.ID = id ∧ a.DeletedAt = none ∧ b = set a := by
  obtain ⟨a, ha, rfl⟩ := (mem_Updates db id set b).mp hb
  by_cases h : a.ID = id ∧ a.DeletedAt = none
  · rw [if_pos h]
    exact ⟨a, ha, h.1, h.2, rfl⟩
  · rw [if_neg h] at hbid hblive
    exact absurd ⟨hbid, hblive⟩ h

/-- Two UPDATE statements by id commute when their assignments keep the id and the
soft delete column and commute on the rows both statements reach. -/
theorem Updates_comm (db : DB) (i j : Int) (set1 set2 : accountModel → accountModel)
    (f1 f2 : Option DbError)
    (h1 : ∀ a, (set1 a).ID = a.ID ∧ (set1 a).DeletedAt = a.DeletedAt)
    (h2 : ∀ a, (set2 a).ID = a.ID ∧ (set2 a).DeletedAt = a.DeletedAt)
    (hc : ∀ a, a.ID = i → a.ID = j → set2 (set1 a) = set1 (set2 a)) :
    (Updates (Updates db i set1 f1).1 j set2 f2).1
      = (Updates (Updates db j set2 f2).1 i set1 f1).1 := by
  cases f1 with
  | some e1 => cases f2 <;> rfl
  | none =>
    cases f2 with
    | some e2 => rfl
    | none =>
      simp only [Updates, List.map_map]
      congr 1
      apply List.map_congr_left
      intro a _
      simp only [Function.comp_apply]
      by_cases c1 : a.ID = i ∧ a.DeletedAt = none <;>
        by_cases c2 : a.ID = j ∧ a.DeletedAt = none
      · have e1 : (set1 a).ID = j ∧ (set1 a).DeletedAt = none := by
          rw [(h1 a).1, (h1 a).2]; exact c2
        have e2 : (set2 a).ID = i ∧ (set2 a).DeletedAt = none := by
          rw [(h2 a).1, (h2 a).2]; exact c1
        rw [if_pos c1, if_pos c2, if_pos e1, if_pos e2]
        exact hc a c1.1 c2.1
      · have e1 : ¬ ((set1 a).ID = j ∧ (set1 a).DeletedAt = none) := by
          rw [(h1 a).1, (h1 a).2]; exact c2
        rw [if_pos c1, if_neg c2, if_neg e1, if_pos c1]
      · have e2 : ¬ ((set2 a).ID = i ∧ (set2 a).DeletedAt = none) := by
          rw [(h2 a).1, (h2 a).2]; exact c1
        rw [if_neg c1, if_pos c2, if_neg e2]
      · rw [if_neg c1, if_neg c2, if_neg c1]

theorem pairInvariant_Updates (db : DB) (id : Int) (set : accountModel → accountModel)
    (fault : Option DbError) (hinv : pairInvariant db)
    (hset : ∀ a, a.RateLimitResetAt.isSome = a.RateLimitedAt.isSome →
      (set a).RateLimitResetAt.isSome = (set a).RateLimitedAt.isSome) :
    pairInvariant (Updates db id set fault).1 := by
  cases fault with
  | some err => exact hinv
  | none =>
    intro b hb
    obtain ⟨a, ha, rfl⟩ := (mem_Updates db id set b).mp hb
    by_cases h : a.ID = id ∧ a.DeletedAt = none
    · rw [if_pos h]
      exact hset a (hinv a ha)
    · rw [if_neg h]
      exact hinv a ha

theorem pairInvariant_sessionWindowSet (start end_ : Option Time) (status : String)
    (a : accountModel) :
    (sessionWindowSet start end_ status a).RateLimitResetAt = a.RateLimitResetAt ∧
      (sessionWindowSet start end_ status a).RateLimitedAt = a.RateLimitedAt := by
  cases start <;> cases end_ <;> exact ⟨rfl, rfl⟩

theorem pairInvariant_BatchUpdateLastUsed (db : DB) (updates : List (Int × Time))
    (fault : Option DbError) (hinv : pairInvariant db) :
    pairInvariant (BatchUpdateLastUsed db updates fault).1 := by
  unfold BatchUpdateLastUsed
  split
  · exact hinv
  · cases fault with
    | some err => exact hinv
    | none =>
      intro b hb
      obtain ⟨a, ha, rfl⟩ := List.mem_map.mp hb
      split
      · exact hinv a ha
      · exact hinv a ha

theorem pairInvariant_run (db : DB) (m : Mutation) (hinv : pairInvariant db) :
    pairInvariant (m.run db) := by
  cases m with
  | setRateLimited id resetAt now fault =>
    exact pairInvariant_Updates db id _ fault hinv (fun _ _ => rfl)
  | setOverloaded id overloadUntil fault =>
    exact pairInvariant_Updates db id _ fault hinv (fun _ h => h)
  | clearRateLimit id fault =>
    exact pairInvariant_Updates db id _ fault hinv (fun _ _ => rfl)
  | setSchedulable id schedulable fault =>
    exact pairInvariant_Updates db id _ fault hinv (fun _ h => h)
  | setError id errorMsg fault =>
    exact pairInvariant_Updates db id _ fault hinv (fun _ h => h)
  | updateSessionWindow id start end_ status fault =>
    refine pairInvariant_Updates db id _ fault hinv (fun a h => ?_)
    rw [(pairInvariant_sessionWindowSet start end_ status a).1,
      (pairInvariant_sessionWindowSet start end_ status a).2]
    exact h
  | updateLastUsed id now fault =>
    exact pairInvariant_Updates db id _ fault hinv (fun _ h => h)
  | batchUpdateLastUsed updates fault =>
    exact pairInvariant_BatchUpdateLastUsed db updates fault hinv

theorem pairInvariant_runAll (calls : List Mutation) (db : DB) (hinv : pairInvariant db) :
    pairInvariant (runAll db calls) := by
  induction calls generalizing db with
  | nil => exact hinv
  | cons m calls ih => exact ih (m.run db) (pairInvariant_run db m hinv)

theorem StatusError_ne_StatusActive : StatusError ≠ StatusActive := by decide

theorem statusIsError_Updates (db : DB) (id j : Int) (set : accountModel → accountModel)
    (fault : Option DbError)
    (hset : ∀ a, (set a).ID = a.ID ∧ (set a).DeletedAt = a.DeletedAt ∧
      (a.Status = StatusError → (set a).Status = StatusError))
    (h : statusIsError db id) : statusIsError (Updates db j set fault).1 id := by
  cases fault with
  | some err => exact h
  | none =>
    intro b hb hbid hblive
    obtain ⟨a, ha, rfl⟩ := (mem_Updates db j set b).mp hb
    by_cases hc : a.ID = j ∧ a.DeletedAt = none
    · rw [if_pos hc] at hbid hblive ⊢
      rw [(hset a).1] at hbid
      rw [(hset a).2.1] at hblive
      exact (hset a).2.2 (h a ha hbid hblive)
    · rw [if_neg hc] at hbid hblive ⊢
      exact h a ha hbid hblive

theorem sessionWindowSet_keeps (start end_ : Option Time) (status : String)
    (a : accountModel) :
    (sessionWindowSet start end_ status a).ID = a.ID ∧
      (sessionWindowSet start end_ status a).DeletedAt = a.DeletedAt ∧
      (a.Status = StatusError → (sessionWindowSet start end_ status a).Status = StatusError) := by
  cases start <;> cases end_ <;> exact ⟨rfl, rfl, fun h => h⟩

theorem statusIsError_BatchUpdateLastUsed (db : DB) (id : Int)
    (updates : List (Int × Time)) (fault : Option DbError) (h : statusIsError db id) :
    statusIsError (BatchUpdateLastUsed db updates fault).1 id := by
  unfold BatchUpdateLastUsed
  split
  · exact h
  · cases fault with
    | some err => exact h
    | none =>
      intro b hb hbid hblive
      obtain ⟨a, ha, rfl⟩ := List.mem_map.mp hb
      by_cases hc : (updates.map Prod.fst).contains a.ID ∧ a.DeletedAt = none
      · rw [if_pos hc] at hbid hblive ⊢
        exact h a ha hbid hblive
      · rw [if_neg hc] at hbid hblive ⊢
        exact h a ha hbid hblive

theorem statusIsError_run (db : DB) (id : Int) (m : Mutation) (h : statusIsError db id) :
    statusIsError (m.run db) id := by
  cases m with
  | setRateLimited j resetAt now fault =>
    exact statusIsError_Updates db id j _ fault (fun _ => ⟨rfl, rfl, fun h => h⟩) h
  | setOverloaded j overloadUntil fault =>
    exact statusIsError_Updates db id j _ fault (fun _ => ⟨rfl, rfl, fun h => h⟩) h
  | clearRateLimit j fault =>
    exact statusIsError_Updates db id j _ fault (fun _ => ⟨rfl, rfl, fun h => h⟩) h
  | setSchedulable j schedulable fault =>
    exact statusIsError_Updates db id j _ fault (fun _ => ⟨rfl, rfl, fun h => h⟩) h
  | setError j errorMsg fault =>
    exact statusIsError_Updates db id j _ fault (fun _ => ⟨rfl, rfl, fun _ => rfl⟩) h
  | updateSessionWindow j start end_ status fault =>
    exact statusIsError_Updates db id j _ fault (sessionWindowSet_keeps start end_ status) h
  | updateLastUsed j now fault =>
    exact statusIsError_Updates db id j _ fault (fun _ => ⟨rfl, rfl, fun h => h⟩) h
  | batchUpdateLastUsed updates fault =>
    exact statusIsError_BatchUpdateLastUsed db id updates fault h

theorem statusIsError_runAll (calls : List Mutation) (db : DB) (id : Int)
    (h : statusIsError db id) : statusIsError (runAll db calls) id := by
  induction calls generalizing db with
  | nil => exact h
  | cons m calls ih => exact ih (m.run db) (statusIsError_run db id m h)

theorem statusIsError_SetError (db : DB) (id : Int) (errorMsg : String) :
    statusIsError (SetError db id errorMsg none).1 id := by
  intro b hb hbid hblive
  obtain ⟨a, _, _, _, rfl⟩ := Updates_live_row db id _ b hb hbid hblive
  rfl

theorem neverReturned_of_statusIsError (db : DB) (t : Time) (id : Int)
    (h : statusIsError db id) : neverReturned db t id := by
  apply neverReturned_of_ineligible
  intro b hb hbid hblive helig
  have hs := h b hb hbid hblive
  rw [helig.1] at hs
  exact StatusError_ne_StatusActive hs.symm

theorem joinAccountGroups_erase (db : DB) :
    joinAccountGroups (eraseSessionWindows db)
      = (joinAccountGroups db).map (fun x => (eraseSessionWindow x.1, x.2)) := by
  unfold joinAccountGroups eraseSessionWindows
  simp only
  induction db.accounts with
  | nil => rfl
  | cons a rows ih =>
    simp only [List.map_cons, List.flatMap_cons, List.map_append, List.map_map]
    rw [← ih]
    rfl

theorem sessionWindowSet_erase (start end_ : Option Time) (status : String)
    (a : accountModel) :
    eraseSessionWindow (sessionWindowSet start end_ status a) = eraseSessionWindow a := by
  cases start <;> cases end_ <;> rfl

/-- An UPDATE by id that matches no row leaves the store as it is and reports no
error. -/
theorem Updates_missing (db : DB) (id : Int) (set : accountModel → accountModel)
    (hmissing : ∀ a ∈ db.accounts, a.ID = id → a.DeletedAt ≠ none) :
    Updates db id set none = (db, none) := by
  have hmap : db.accounts.map (fun a => if a.ID = id ∧ a.DeletedAt = none then set a else a)
      = db.accounts := by
    have hcongr : db.accounts.map
        (fun a => if a.ID = id ∧ a.DeletedAt = none then set a else a)
        = db.accounts.map (fun a => a) := by
      apply List.map_congr_left
      intro a ha
      rw [if_neg (fun h => hmissing a ha h.1 h.2)]
    rw [hcongr, List.map_id']
  simp only [Updates, hmap]

/-- A query whose result holds no row returns the empty list with no error. -/
theorem ok_nil_of_no_member (q : Except DbError (List accountModel)) (P : accountModel → Prop)
    (hq : ∃ res, q = Except.ok res ∧ ∀ a, a ∈ res ↔ P a) (hP : ∀ a, ¬ P a) :
    q = Except.ok [] := by
  obtain ⟨res, hres, hiff⟩ := hq
  have hnil : res = [] := List.eq_nil_iff_forall_not_mem.mpr (fun a ha => hP a ((hiff a).mp ha))
  rw [hres, hnil]

/-- An UPDATE by id run twice, with an assignment that keeps the id and the soft
delete column and assigns constants, leaves what one run leaves. -/
theorem Updates_idem (db : DB) (id : Int) (set : accountModel → accountModel)
    (fault : Option DbError)
    (hkeep : ∀ a, (set a).ID = a.ID ∧ (set a).DeletedAt = a.DeletedAt)
    (hidem : ∀ a, set (set a) = set a) :
    Updates (Updates db id set fault).1 id set fault = Updates db id set fault := by
  cases fault with
  | some err => rfl
  | none =>
    simp only [Updates, List.map_map]
    congr 2
    apply List.map_congr_left
    intro a _
    simp only [Function.comp_apply]
    by_cases c : a.ID = id ∧ a.DeletedAt = none
    · have c' : (set a).ID = id ∧ (set a).DeletedAt = none := by
        rw [(hkeep a).1, (hkeep a).2]; exact c
      rw [if_pos c, if_pos c', hidem]
    · rw [if_neg c, if_neg c]

/-- The later of two UPDATE statements by one id wins when its assignment overwrites
what the earlier one assigned. -/
theorem Updates_overwrite (db : DB) (id : Int) (set1 set2 : accountModel → accountModel)
    (hkeep : ∀ a, (set1 a).ID = a.ID ∧ (set1 a).DeletedAt = a.DeletedAt)
    (hover : ∀ a, set2 (set1 a) = set2 a) :
    Updates (Updates db id set1 none).1 id set2 none = Updates db id set2 none := by
  simp only [Updates, List.map_map]
  congr 2
  apply List.map_congr_left
  intro a _
  simp only [Function.comp_apply]
  by_cases c : a.ID = id ∧ a.DeletedAt = none
  · have c' : (set1 a).ID = id ∧ (set1 a).DeletedAt = none := by
      rw [(hkeep a).1, (hkeep a).2]; exact c
    rw [if_pos c, if_pos c', hover, if_pos c]
  · rw [if_neg c, if_neg c]

theorem caseID_of_mem (updates : List (Int × Time))
    (hnodup : (updates.map Prod.fst).Nodup) (id : Int) (ts : Time)
    (hmem : (id, ts) ∈ updates) : caseID updates id = some ts := by
  unfold caseID
  cases hfind : updates.find? (fun u => u.1 == id) with
  | none =>
    have := List.find?_eq_none.mp hfind (id, ts) hmem
    simp at this
  | some u =>
    have hu := List.mem_of_find?_eq_some hfind
    have hkey : u.1 = id := by simpa using List.find?_some hfind
    have heq : u = (id, ts) := List.inj_on_of_nodup_map hnodup hu hmem hkey
    rw [heq]

theorem caseID_eq_none (updates : List (Int × Time)) (id : Int)
    (hid : id ∉ updates.map Prod.fst) : caseID updates id = none := by
  unfold caseID
  cases hfind : updates.find? (fun u => u.1 == id) with
  | none => rfl
  | some u =>
    have hu := List.mem_of_find?_eq_some hfind
    have hkey : u.1 = id := by simpa using List.find?_some hfind
    exact absurd (List.mem_map.mpr ⟨u, hu, hkey⟩) hid

theorem caseID_perm (updates updates2 : List (Int × Time))
    (hnodup : (updates.map Prod.fst).Nodup) (hperm : updates.Perm updates2) (id : Int) :
    caseID updates2 id = caseID updates id := by
  have hnodup2 : (updates2.map Prod.fst).Nodup := (hperm.map Prod.fst).nodup_iff.mp hnodup
  by_cases hid : id ∈ updates.map Prod.fst
  · obtain ⟨u, hu, hkey⟩ := List.mem_map.mp hid
    have hu' : (id, u.2) ∈ updates := by rw [← hkey]; exact hu
    rw [caseID_of_mem updates hnodup id u.2 hu',
      caseID_of_mem updates2 hnodup2 id u.2 (hperm.mem_iff.mp hu')]
  · have hid2 : id ∉ updates2.map Prod.fst := fun h => hid ((hperm.map Prod.fst).mem_iff.mpr h)
    rw [caseID_eq_none updates id hid, caseID_eq_none updates2 id hid2]

theorem contains_keys_iff (updates : List (Int × Time)) (id : Int) :
    (updates.map Prod.fst).contains id = true ↔ id ∈ updates.map Prod.fst := by
  simp [List.contains]

theorem BatchUpdateLastUsed_perm (db : DB) (updates updates2 : List (Int × Time))
    (hnodup : (updates.map Prod.fst).Nodup) (hperm : updates.Perm updates2)
    (fault : Option DbError) :
    BatchUpdateLastUsed db updates2 fault = BatchUpdateLastUsed db updates fault := by
  have hlen : updates2.length = updates.length := hperm.length_eq.symm
  unfold BatchUpdateLastUsed
  rw [hlen]
  split
  · rfl
  · cases fault with
    | some err => rfl
    | none =>
      simp only
      congr 2
      apply List.map_congr_left
      intro a _
      have hkeys : ((updates2.map Prod.fst).contains a.ID = true ∧ a.DeletedAt = none) ↔
          ((updates.map Prod.fst).contains a.ID = true ∧ a.DeletedAt = none) := by
        rw [contains_keys_iff, contains_keys_iff, (hperm.map Prod.fst).mem_iff]
      by_cases hc : (updates.map Prod.fst).contains a.ID = true ∧ a.DeletedAt = none
      · rw [if_pos hc, if_pos (hkeys.mpr hc), caseID_perm updates updates2 hnodup hperm]
      · rw [if_neg hc, if_neg (fun h => hc (hkeys.mp h))]

theorem BatchUpdateLastUsed_rows (db : DB) (updates : List (Int × Time))
    (hnodup : (updates.map Prod.fst).Nodup) :
    List.Forall₂ (fun a a' =>
        (a.DeletedAt = none ∧ ∃ ts, (a.ID, ts) ∈ updates ∧
          a' = { a with LastUsedAt := some ts }) ∨
        ((a.DeletedAt ≠ none ∨ a.ID ∉ updates.map Prod.fst) ∧ a' = a))
      db.accounts (BatchUpdateLastUsed db updates none).1.accounts := by
  unfold BatchUpdateLastUsed
  split
  · rename_i h
    rw [List.length_eq_zero.mp h]
    exact List.forall₂_same.mpr (fun a _ => Or.inr ⟨Or.inr (List.not_mem_nil _), rfl⟩)
  · simp only
    rw [List.forall₂_map_right_iff, List.forall₂_same]
    intro a _
    by_cases hc : (updates.map Prod.fst).contains a.ID = true ∧ a.DeletedAt = none
    · rw [if_pos hc]
      obtain ⟨u, hu, hkey⟩ := List.mem_map.mp ((contains_keys_iff updates a.ID).mp hc.1)
      have hu' : (a.ID, u.2) ∈ updates := by rw [← hkey]; exact hu
      exact Or.inl ⟨hc.2, u.2, hu', by rw [caseID_of_mem updates hnodup a.ID u.2 hu']⟩
    · rw [if_neg hc]
      refine Or.inr ⟨?_, rfl⟩
      by_cases hd : a.DeletedAt = none
      · exact Or.inr (fun hin => hc ⟨(contains_keys_iff updates a.ID).mpr hin, hd⟩)
      · exact Or.inl hd

theorem sessionWindowSet_columns (start end_ : Option Time) (status : String)
    (a : accountModel) :
    (sessionWindowSet start end_ status a).SessionWindowStatus = status ∧
    (start = none →
      (sessionWindowSet start end_ status a).SessionWindowStart = a.SessionWindowStart) ∧
    (∀ s, start = some s →
      (sessionWindowSet start end_ status a).SessionWindowStart = some s) ∧
    (end_ = none →
      (sessionWindowSet start end_ status a).SessionWindowEnd = a.SessionWindowEnd) ∧
    (∀ e, end_ = some e →
      (sessionWindowSet start end_ status a).SessionWindowEnd = some e) := by
  cases start <;> cases end_ <;> simp [sessionWindowSet]

theorem countedOverloaded_iff (a : accountModel) (now : Time) :
    countedOverloaded a now = !nullOrLe a.OverloadUntil now := by
  unfold countedOverloaded notNullAndGt nullOrLe
  cases a.OverloadUntil with
  | none => rfl
  | some t =>
    by_cases h : t ≤ now
    · simp [h, not_lt.mpr h]
    · simp [h, not_le.mp h]

theorem countedRateLimited_iff (a : accountModel) (now : Time)
    (hpair : a.RateLimitResetAt.isSome = a.RateLimitedAt.isSome) :
    countedRateLimited a now = !nullOrLe a.RateLimitResetAt now := by
  unfold countedRateLimited notNullAndGt nullOrLe
  rw [← hpair]
  cases a.RateLimitResetAt with
  | none => rfl
  | some t =>
    by_cases h : t ≤ now
    · simp [h, not_lt.mpr h]
    · simp [h, not_le.mp h]

theorem mapIndex_map (ids : List Int) (f : Int → Int) (k : Int) :
    mapIndex (ids.map (fun id => (id, f id))) k = if k ∈ ids then f k else 0 := by
  induction ids with
  | nil => rfl
  | cons i ids ih =>
    unfold mapIndex at ih ⊢
    by_cases hik : i = k
    · subst hik
      simp [List.find?]
    · have hne : (i == k) = false := by simpa using hik
      have hki : ¬ k = i := fun h => hik h.symm
      simp only [List.map_cons, List.find?, hne, List.mem_cons, hki, false_or]
      exact ih

theorem accountsUsing_eq (db : DB) (k : Int) :
    (((db.accounts.filter (fun a => a.ProxyID.isSome && a.DeletedAt.isNone)).filter
      (fun a => a.ProxyID == some k)).length : Int) = accountsUsing db k := by
  unfold accountsUsing
  rw [List.filter_filter]
  congr 2
  apply List.filter_congr
  intro a _
  cases hp : a.ProxyID with
  | none => cases hd : a.DeletedAt <;> simp
  | some v =>
    cases hd : a.DeletedAt with
    | none => by_cases h : v = k <;> simp [h]
    | some d => simp

theorem accountsUsing_zero (db : DB) (k : Int)
    (hk : k ∉ ((db.accounts.filter (fun a => a.ProxyID.isSome && a.DeletedAt.isNone)).filterMap
      (fun a => a.ProxyID)).dedup) : accountsUsing db k = 0 := by
  unfold accountsUsing
  have hnil : db.accounts.filter (fun a =>
      decide (a.DeletedAt = none ∧ a.ProxyID = some k)) = [] := by
    rw [List.filter_eq_nil_iff]
    intro a ha hc
    have hc' : a.DeletedAt = none ∧ a.ProxyID = some k := by simpa using hc
    apply hk
    rw [List.mem_dedup, List.mem_filterMap]
    refine ⟨a, List.mem_filter.mpr ⟨ha, ?_⟩, hc'.2⟩
    simp [hc'.1, hc'.2]
  rw [hnil]
  rfl

/-- The map `GetAccountCountsForProxies` returns, indexed at a proxy id, gives the
number of accounts, not soft deleted, that use the proxy. -/
theorem counts_index (db : DB) (k : Int) :
    ∃ counts, GetAccountCountsForProxies db none = Except.ok counts ∧
      mapIndex counts k = accountsUsing db k := by
  have hcounts : GetAccountCountsForProxies db none = Except.ok
      ((((db.accounts.filter (fun a => a.ProxyID.isSome && a.DeletedAt.isNone)).filterMap
        (fun a => a.ProxyID)).dedup).map (fun id => (id, (((db.accounts.filter
          (fun a => a.ProxyID.isSome && a.DeletedAt.isNone)).filter
            (fun a => a.ProxyID == some id)).length : Int)))) := rfl
  refine ⟨_, hcounts, ?_⟩
  rw [mapIndex_map _ (fun id => (((db.accounts.filter
    (fun a => a.ProxyID.isSome && a.DeletedAt.isNone)).filter
      (fun a => a.ProxyID == some id)).length : Int)) k]
  split
  · exact accountsUsing_eq db k
  · rename_i hk
    exact (accountsUsing_zero db k hk).symm

theorem byCreatedAtDesc_total (p q : proxyModel) :
    byCreatedAtDesc p q = true ∨ byCreatedAtDesc q p = true := by
  simp only [byCreatedAtDesc, decide_eq_true_eq]
  exact le_total _ _

theorem byCreatedAtDesc_trans (p q r : proxyModel) (hpq : byCreatedAtDesc p q = true)
    (hqr : byCreatedAtDesc q r = true) : byCreatedAtDesc p r = true := by
  simp only [byCreatedAtDesc, decide_eq_true_eq] at *
  exact le_trans hqr hpq

theorem filterMap_withAccountCount (counts : List (Int × Int)) (rows : List proxyModel) :
    rows.filterMap (fun row =>
        match proxyModelToService (some row) with
        | none => none
        | some proxy => some { Proxy := proxy, AccountCount := mapIndex counts proxy.ID })
      = rows.map (withAccountCount counts) := by
  induction rows with
  | nil => rfl
  | cons row rows ih =>
    rw [List.map_cons, ← ih]
    rfl

theorem ListActiveWithAccountCount_ok (proxies : List proxyModel) (db : DB) :
    ∃ counts, GetAccountCountsForProxies db none = Except.ok counts ∧
      ListActiveWithAccountCount proxies db none none =
        Except.ok ((orderBy byCreatedAtDesc (proxies.filter (fun p =>
          p.DeletedAt.isNone && p.Status == StatusActive))).map (withAccountCount counts)) := by
  refine ⟨_, rfl, ?_⟩
  unfold ListActiveWithAccountCount
  simp only [Find, GetAccountCountsForProxies]
  rw [filterMap_withAccountCount]

theorem wrapInt64_of_inInt64 (x : Int) (h : inInt64 x) : wrapInt64 x = x := by
  unfold inInt64 at h
  unfold wrapInt64
  omega

theorem wrapInt64_add (x y : Int) : wrapInt64 (wrapInt64 x + y) = wrapInt64 (x + y) := by
  unfold wrapInt64
  omega

theorem wrapInt64_idem (x : Int) : wrapInt64 (wrapInt64 x) = wrapInt64 x := by
  unfold wrapInt64
  omega

theorem usageLoop_totals (l : List AccountUsageHistory) (acc : usageTotals)
    (hr : wrapInt64 acc.totalRequests = acc.totalRequests)
    (ht : wrapInt64 acc.totalTokens = acc.totalTokens) :
    (l.foldl usageStep acc).totalRequests
        = wrapInt64 (acc.totalRequests + (l.map (fun h => h.Requests)).sum) ∧
      (l.foldl usageStep acc).totalTokens
        = wrapInt64 (acc.totalTokens + (l.map (fun h => h.Tokens)).sum) := by
  induction l generalizing acc with
  | nil => simp [hr, ht]
  | cons h l ih =>
    obtain ⟨h1, h2⟩ := ih (usageStep acc h) (wrapInt64_idem _) (wrapInt64_idem _)
    simp only [List.foldl_cons, List.map_cons, List.sum_cons]
    rw [h1, h2]
    simp only [usageStep]
    rw [wrapInt64_add, wrapInt64_add, add_assoc, add_assoc]
    exact ⟨rfl, rfl⟩

theorem firstMaxRequests_step (done : List AccountUsageHistory) (acc : usageTotals)
    (h : AccountUsageHistory)
    (hnone : acc.highestRequestDay = none → done = [])
    (hsome : ∀ d, acc.highestRequestDay = some d → firstMaxRequests done d) :
    ∃ d, (usageStep acc h).highestRequestDay = some d ∧ firstMaxRequests (done ++ [h]) d := by
  cases hacc : acc.highestRequestDay with
  | none =>
    refine ⟨h, by simp [usageStep, hacc], [], [], ?_, ?_, ?_⟩
    · rw [hnone hacc]
    · intro x hx; exact absurd hx (List.not_mem_nil _)
    · intro x hx; exact absurd hx (List.not_mem_nil _)
  | some d =>
    obtain ⟨pre, post, hsplit, hpre, hpost⟩ := hsome d hacc
    by_cases hgt : h.Requests > d.Requests
    · refine ⟨h, by simp [usageStep, hacc, hgt], done, [], rfl, ?_, ?_⟩
      · intro x hx
        rw [hsplit] at hx
        rcases List.mem_append.mp hx with hx | hx
        · exact lt_trans (hpre x hx) hgt
        · rcases List.mem_cons.mp hx with hx | hx
          · rw [hx]; exact hgt
          · exact lt_of_le_of_lt (hpost x hx) hgt
      · intro x hx; exact absurd hx (List.not_mem_nil _)
    · refine ⟨d, by simp [usageStep, hacc, hgt], pre, post ++ [h], ?_, hpre, ?_⟩
      · rw [hsplit]; simp
      · intro x hx
        rcases List.mem_append.mp hx with hx | hx
        · exact hpost x hx
        · rw [List.mem_singleton.mp hx]; exact not_lt.mp hgt

theorem usageLoop_highest (l done : List AccountUsageHistory) (acc : usageTotals)
    (hnone : acc.highestRequestDay = none → done = [])
    (hsome : ∀ d, acc.highestRequestDay = some d → firstMaxRequests done d) :
    ((l.foldl usageStep acc).highestRequestDay = none → done ++ l = []) ∧
      ∀ d, (l.foldl usageStep acc).highestRequestDay = some d →
        firstMaxRequests (done ++ l) d := by
  induction l generalizing done acc with
  | nil =>
    rw [List.append_nil]
    exact ⟨hnone, hsome⟩
  | cons h l ih =>
    obtain ⟨d, hd, hfirst⟩ := firstMaxRequests_step done acc h hnone hsome
    have hstep := ih (done ++ [h]) (usageStep acc h)
      (fun hn => by rw [hd] at hn; exact Option.noConfusion hn)
      (fun d' hd' => by rw [hd] at hd'; rw [← Option.some.inj hd']; exact hfirst)
    rw [List.append_assoc] at hstep
    exact hstep

theorem Update_eq (db : DB) (account : Account) (newID : Int) (fault : Option DbError) :
    Update db account newID fault =
      match Save db (rowFromService account.fields) newID fault with
      | (db1, m, none) => (db1, applyAccountModelToService account m, none)
      | (db1, _, some err) => (db1, account, some err) := by
  cases account with
  | mk f proxy accountGroups groupIDs groups => rfl

/-- The path of `Save` for a record with an id that a stored row, not soft deleted,
holds: one UPDATE of every column on those rows. -/
theorem Save_stored (db : DB) (m : accountModel) (newID : Int) (hid : m.ID ≠ 0)
    (hstored : ∃ r ∈ db.accounts, r.ID = m.ID ∧ r.DeletedAt = none) :
    Save db m newID none =
      ({ db with accounts := db.accounts.map (fun a =>
          if a.ID = m.ID ∧ a.DeletedAt = none then m else a) }, m, none) := by
  have hany : db.accounts.any (fun a => a.ID == m.ID && a.DeletedAt.isNone) = true := by
    rw [List.any_eq_true]
    obtain ⟨r, hr, hrid, hrlive⟩ := hstored
    exact ⟨r, hr, by simp [hrid, hrlive]⟩
  simp only [Save, if_neg hid, hany, if_true]

theorem orderedSelection_of_perm {α : Type} (le : α → α → Bool) (rows rows2 res : List α)
    (hperm : rows.Perm rows2) (h : orderedSelection le rows res) :
    orderedSelection le rows2 res :=
  ⟨h.1.trans hperm, h.2⟩

theorem orderedSelection_filter {α : Type} (le : α → α → Bool) (p : α → Bool)
    (rows res : List α) (h : orderedSelection le rows res) :
    orderedSelection le (rows.filter p) (res.filter p) :=
  ⟨h.1.filter p, h.2.filter p⟩

theorem orderedSelection_map {α β : Type} (le : α → α → Bool) (le2 : β → β → Bool)
    (f : α → β) (hf : ∀ x y, le2 (f x) (f y) = le x y) (rows res : List α)
    (h : orderedSelection le rows res) :
    orderedSelection le2 (rows.map f) (res.map f) :=
  ⟨h.1.map f, List.pairwise_map.mpr (h.2.imp (fun hxy => by rw [hf]; exact hxy))⟩

/-- Two neighbours the comparison does not separate may stand in either order. -/
theorem orderedSelection_swap {α : Type} (le : α → α → Bool) (rows l1 l2 : List α)
    (x y : α) (hyx : le y x = true) (h : orderedSelection le rows (l1 ++ x :: y :: l2)) :
    orderedSelection le rows (l1 ++ y :: x :: l2) := by
  obtain ⟨hperm, hsorted⟩ := h
  refine ⟨((List.Perm.swap x y l2).append_left l1).trans hperm, ?_⟩
  rw [List.pairwise_append] at hsorted ⊢
  obtain ⟨h1, h2, h3⟩ := hsorted
  rw [List.pairwise_cons, List.pairwise_cons] at h2
  refine ⟨h1, ?_, ?_⟩
  · rw [List.pairwise_cons, List.pairwise_cons]
    refine ⟨?_, ?_, h2.2.2⟩
    · intro z hz
      rcases List.mem_cons.mp hz with rfl | hz
      · exact hyx
      · exact h2.2.1 z hz
    · intro z hz
      exact h2.1 z (List.mem_cons_of_mem _ hz)
  · intro a ha b hb
    apply h3 a ha
    simp only [List.mem_cons] at hb ⊢
    tauto

theorem orderedSelection_orderBy_byPriority (rows : List accountModel) :
    orderedSelection byPriority rows (orderBy byPriority rows) :=
  ⟨List.perm_insertionSort _ rows, orderBy_byPriority_sorted rows⟩

theorem orderedSelection_orderBy_byGroupPriority
    (rows : List (accountModel × accountGroupModel)) :
    orderedSelection byGroupPriority rows (orderBy byGroupPriority rows) :=
  ⟨List.perm_insertionSort _ rows, orderBy_byGroupPriority_sorted rows⟩

/-- Two results of ORDER BY priority over the same priorities hold the same sequence
of priorities. -/
theorem priorities_eq (rows1 rows2 r1 r2 : List accountModel)
    (hrows : (rows1.map accountModel.Priority).Perm (rows2.map accountModel.Priority))
    (h1 : orderedSelection byPriority rows1 r1)
    (h2 : orderedSelection byPriority rows2 r2) :
    r1.map accountModel.Priority = r2.map accountModel.Priority := by
  have hp : (r1.map accountModel.Priority).Perm (r2.map accountModel.Priority) :=
    ((h1.1.map _).trans hrows).trans (h2.1.map _).symm
  have hs : ∀ r : List accountModel, r.Pairwise (fun a b => byPriority a b = true) →
      (r.map accountModel.Priority).Sorted (fun i j : Int => i ≤ j) := by
    intro r hr
    refine List.pairwise_map.mpr (hr.imp ?_)
    intro a b hab
    simpa [byPriority] using hab
  exact List.eq_of_perm_of_sorted hp (hs r1 h1.2) (hs r2 h2.2)

theorem keyLe_antisymm (k1 k2 : Int × Int) (h1 : keyLe k1 k2) (h2 : keyLe k2 k1) :
    k1 = k2 := by
  unfold keyLe at h1 h2
  apply Prod.ext <;> omega

theorem byGroupPriority_iff (x y : accountModel × accountGroupModel) :
    byGroupPriority x y = true ↔ keyLe (joinKey x) (joinKey y) := by
  simp only [byGroupPriority, keyLe, joinKey, Bool.or_eq_true, Bool.and_eq_true,
    decide_eq_true_eq]

/-- Two results of the ORDER BY clause of the group-scoped queries over the same
keys hold the same sequence of keys. -/
theorem joinKeys_eq (rows1 rows2 r1 r2 : List (accountModel × accountGroupModel))
    (hrows : (rows1.map joinKey).Perm (rows2.map joinKey))
    (h1 : orderedSelection byGroupPriority rows1 r1)
    (h2 : orderedSelection byGroupPriority rows2 r2) :
    r1.map joinKey = r2.map joinKey := by
  have hp : (r1.map joinKey).Perm (r2.map joinKey) :=
    ((h1.1.map _).trans hrows).trans (h2.1.map _).symm
  have hs : ∀ r : List (accountModel × accountGroupModel),
      r.Pairwise (fun x y => byGroupPriority x y = true) →
      (r.map joinKey).Sorted keyLe := by
    intro r hr
    refine List.pairwise_map.mpr (hr.imp ?_)
    intro x y hxy
    exact (byGroupPriority_iff x y).mp hxy
  exact @List.eq_of_perm_of_sorted _ keyLe ⟨keyLe_antisymm⟩ _ _ hp (hs r1 h1.2) (hs r2 h2.2)

/-- On a row of the join for the group, the ranking key of the account is the pair of
sort keys of the row, when account_groups respects its primary key. -/
theorem rankKey_of_row (db : DB) (hpk : (db.account_groups.map accountGroupKey).Nodup)
    (g : Int) (x : accountModel × accountGroupModel) (hx : x ∈ joinAccountGroups db)
    (hg : x.2.GroupID = g) : rankKey db g x.1 = joinKey x := by
  obtain ⟨_, hm, hid⟩ := (mem_joinAccountGroups db x).mp hx
  have h := membershipPriority_eq db hpk x.2 hm
  rw [hg, hid] at h
  simp only [rankKey, joinKey, h]

/-- The six cases of `mayReturn` in one form. -/
theorem mayReturn_iff (db : DB) (now : Time) (q : Query) (res : List accountModel) :
    mayReturn db now q res ↔
      if q.noStatement = true then res = []
      else match q.groupID with
        | none => orderedSelection byPriority (db.accounts.filter (fun a =>
            q.platformWhere a && schedulableWhere now a)) res
        | some g => ∃ rows, orderedSelection byGroupPriority
            ((joinAccountGroups db).filter (fun x =>
              x.2.GroupID == g && q.platformWhere x.1 && schedulableWhere now x.1)) rows ∧
            res = rows.map Prod.fst := by
  cases q <;>
    simp [mayReturn, Query.noStatement, Query.groupID, Query.platformWhere]

/-- The list a method computes in the embedding is one the store may return. -/
theorem mayReturn_run (db : DB) (now : Time) (q : Query) :
    ∃ res, q.run db now none = Except.ok res ∧ mayReturn db now q res := by
  cases q with
  | all => exact ⟨_, rfl, orderedSelection_orderBy_byPriority _⟩
  | byGroupID g => exact ⟨_, rfl, _, orderedSelection_orderBy_byGroupPriority _, rfl⟩
  | byPlatform p => exact ⟨_, rfl, orderedSelection_orderBy_byPriority _⟩
  | byGroupIDAndPlatform g p =>
    exact ⟨_, rfl, _, orderedSelection_orderBy_byGroupPriority _, rfl⟩
  | byPlatforms ps =>
    by_cases hlen : ps.length = 0
    · exact ⟨[], by simp [Query.run, ListSchedulableByPlatforms, hlen],
        by simp [mayReturn, hlen]⟩
    · have hrun : (Query.byPlatforms ps).run db now none
          = Except.ok (orderBy byPriority (db.accounts.filter (fun a =>
              ps.contains a.Platform && schedulableWhere now a))) := by
        simp only [Query.run, ListSchedulableByPlatforms, if_neg hlen, Find]
      refine ⟨_, hrun, ?_⟩
      simp only [mayReturn, if_neg hlen]
      exact orderedSelection_orderBy_byPriority _
  | byGroupIDAndPlatforms g ps =>
    by_cases hlen : ps.length = 0
    · exact ⟨[], by simp [Query.run, ListSchedulableByGroupIDAndPlatforms, hlen],
        by simp [mayReturn, hlen]⟩
    · have hrun : (Query.byGroupIDAndPlatforms g ps).run db now none
          = Except.ok ((orderBy byGroupPriority ((joinAccountGroups db).filter (fun x =>
              x.2.GroupID == g && ps.contains x.1.Platform &&
                schedulableWhere now x.1))).map Prod.fst) := by
        simp only [Query.run, ListSchedulableByGroupIDAndPlatforms, if_neg hlen, Find]
      refine ⟨_, hrun, ?_⟩
      simp only [mayReturn, if_neg hlen]
      exact ⟨_, orderedSelection_orderBy_byGroupPriority _, rfl⟩

/-- Any two lists the store may return for one call are equal up to the order of
accounts with equal sort keys. -/
theorem mayReturn_unique (db : DB) (now : Time) (q : Query) (r1 r2 : List accountModel)
    (h1 : mayReturn db now q r1) (h2 : mayReturn db now q r2) :
    sameUpToTies db q r1 r2 := by
  rw [mayReturn_iff] at h1 h2
  by_cases hskip : q.noStatement = true
  · rw [if_pos hskip] at h1 h2
    rw [h1, h2]
    exact ⟨List.Perm.refl _, rfl, fun _ _ _ => rfl⟩
  · rw [if_neg hskip] at h1 h2
    cases hq : q.groupID with
    | none =>
      simp only [hq] at h1 h2
      refine ⟨h1.1.trans h2.1.symm, priorities_eq _ _ r1 r2 (List.Perm.refl _) h1 h2, ?_⟩
      intro g hg
      rw [hq] at hg
      exact Option.noConfusion hg
    | some g =>
      simp only [hq] at h1 h2
      obtain ⟨rows1, hs1, rfl⟩ := h1
      obtain ⟨rows2, hs2, rfl⟩ := h2
      have hkeys := joinKeys_eq _ _ rows1 rows2 (List.Perm.refl _) hs1 hs2
      refine ⟨(hs1.1.trans hs2.1.symm).map _, ?_, ?_⟩
      · have hsnd := congrArg (List.map Prod.snd) hkeys
        rw [List.map_map, List.map_map] at hsnd ⊢
        exact hsnd
      · intro g2 hg2 hpk
        rw [hq] at hg2
        have hgg : g = g2 := Option.some.inj hg2
        subst hgg
        have hrow : ∀ rows : List (accountModel × accountGroupModel),
            orderedSelection byGroupPriority ((joinAccountGroups db).filter (fun x =>
              x.2.GroupID == g && q.platformWhere x.1 && schedulableWhere now x.1)) rows →
            (rows.map Prod.fst).map (rankKey db g) = rows.map joinKey := by
          intro rows hs
          rw [List.map_map]
          apply List.map_congr_left
          intro x hx
          have hx2 := List.mem_filter.mp (hs.1.subset hx)
          simp only [Bool.and_eq_true, beq_iff_eq] at hx2
          exact rankKey_of_row db hpk g x hx2.1 hx2.2.1.1
        rw [hrow rows1 hs1, hrow rows2 hs2, hkeys]

/-- In a list the store may return, two neighbours with equal sort keys may stand in
either order. -/
theorem mayReturn_swap (db : DB) (now : Time) (q : Query) (l1 l2 : List accountModel)
    (a b : accountModel) (h : mayReturn db now q (l1 ++ a :: b :: l2))
    (hk : equalSortKeys db q a b) : mayReturn db now q (l1 ++ b :: a :: l2) := by
  rw [mayReturn_iff] at h ⊢
  by_cases hskip : q.noStatement = true
  · rw [if_pos hskip] at h
    simp at h
  · rw [if_neg hskip] at h ⊢
    cases hq : q.groupID with
    | none =>
      simp only [hq] at h ⊢
      exact orderedSelection_swap byPriority _ l1 l2 a b (by simp [byPriority, hk.1]) h
    | some g =>
      simp only [hq] at h ⊢
      obtain ⟨rows, hs, hres⟩ := h
      obtain ⟨r1, rest, rfl, hr1, hrest⟩ := List.map_eq_append_iff.mp hres.symm
      obtain ⟨x, rest2, rfl, hx, hrest2⟩ := List.map_eq_cons_iff.mp hrest
      obtain ⟨y, r2, rfl, hy, hr2⟩ := List.map_eq_cons_iff.mp hrest2
      have hmem : ∀ z ∈ r1 ++ x :: y :: r2,
          z.2 ∈ db.account_groups ∧ z.2.AccountID = z.1.ID ∧ z.2.GroupID = g := by
        intro z hz
        have hz2 := List.mem_filter.mp (hs.1.subset hz)
        simp only [Bool.and_eq_true, beq_iff_eq] at hz2
        obtain ⟨_, hm, hid⟩ := (mem_joinAccountGroups db z).mp hz2.1
        exact ⟨hm, hid, hz2.2.1.1⟩
      have hxm := hmem x (by simp)
      have hym := hmem y (by simp)
      have hprio : x.2.Priority = y.2.Priority :=
        hk.2 g hq x.2 hxm.1 y.2 hym.1 (by rw [hxm.2.1, hx]) hxm.2.2
          (by rw [hym.2.1, hy]) hym.2.2
      have hle : byGroupPriority y x = true := by
        rw [byGroupPriority_iff]
        right
        refine ⟨hprio.symm, ?_⟩
        show y.1.Priority ≤ x.1.Priority
        rw [hx, hy, hk.1]
      refine ⟨r1 ++ y :: x :: r2, orderedSelection_swap byGroupPriority _ r1 r2 x y hle hs, ?_⟩
      simp [hr1, hx, hy, hr2]

theorem restrict_rows (rows : List accountModel) (P W : accountModel → Bool)
    (r : List accountModel) (h : orderedSelection byPriority (rows.filter W) r) :
    orderedSelection byPriority (rows.filter (fun a => P a && W a)) (r.filter P) := by
  have hf := orderedSelection_filter byPriority P _ _ h
  rwa [List.filter_filter] at hf

theorem restrict_joinRows (rows : List (accountModel × accountGroupModel))
    (G : accountModel × accountGroupModel → Bool) (P W : accountModel → Bool)
    (r : List accountModel)
    (h : ∃ l, orderedSelection byGroupPriority (rows.filter (fun x => G x && W x.1)) l ∧
      r = l.map Prod.fst) :
    ∃ l, orderedSelection byGroupPriority
        (rows.filter (fun x => G x && P x.1 && W x.1)) l ∧
      r.filter P = l.map Prod.fst := by
  obtain ⟨l, hs, rfl⟩ := h
  refine ⟨l.filter (P ∘ Prod.fst), ?_, List.filter_map _ _⟩
  have hf := orderedSelection_filter byGroupPriority (P ∘ Prod.fst) _ _ hs
  rw [List.filter_filter] at hf
  have hfun : (fun x : accountModel × accountGroupModel =>
      (P ∘ Prod.fst) x && (G x && W x.1)) = (fun x => G x && P x.1 && W x.1) := by
    funext x
    simp only [Function.comp]
    rw [Bool.and_left_comm, Bool.and_assoc]
  rwa [hfun] at hf

/-- Selecting by platform in a list the store may return for the call without the
platform argument gives a list the store may return for the call with it. -/
theorem mayReturn_restrict (db : DB) (now : Time) (g : Int) (p : String)
    (ps : List String) :
    (∀ r, mayReturn db now (Query.byGroupID g) r →
      mayReturn db now (Query.byGroupIDAndPlatform g p)
        (r.filter (fun a => a.Platform == p))) ∧
    (∀ r, mayReturn db now (Query.byGroupID g) r →
      mayReturn db now (Query.byGroupIDAndPlatforms g ps)
        (r.filter (fun a => ps.contains a.Platform))) ∧
    (∀ r, mayReturn db now Query.all r →
      mayReturn db now (Query.byPlatforms ps)
        (r.filter (fun a => ps.contains a.Platform))) ∧
    (∀ r, mayReturn db now Query.all r →
      mayReturn db now (Query.byPlatform p) (r.filter (fun a => a.Platform == p))) := by
  have hempty : ps.length = 0 → ∀ r : List accountModel,
      r.filter (fun a => ps.contains a.Platform) = [] := by
    intro hlen r
    rw [List.length_eq_zero.mp hlen]
    simp
  refine ⟨?_, ?_, ?_, ?_⟩
  · intro r h
    exact restrict_joinRows (joinAccountGroups db) (fun x => x.2.GroupID == g)
      (fun a => a.Platform == p) (schedulableWhere now) r h
  · intro r h
    by_cases hlen : ps.length = 0
    · simp only [mayReturn, if_pos hlen]
      exact hempty hlen r
    · simp only [mayReturn, if_neg hlen]
      exact restrict_joinRows (joinAccountGroups db) (fun x => x.2.GroupID == g)
        (fun a => ps.contains a.Platform) (schedulableWhere now) r h
  · intro r h
    by_cases hlen : ps.length = 0
    · simp only [mayReturn, if_pos hlen]
      exact hempty hlen r
    · simp only [mayReturn, if_neg hlen]
      exact restrict_rows db.accounts (fun a => ps.contains a.Platform)
        (schedulableWhere now) r h
  · intro r h
    exact restrict_rows db.accounts (fun a => a.Platform == p) (schedulableWhere now) r h

theorem platformWhere_erase (q : Query) (a : accountModel) :
    q.platformWhere (eraseSessionWindow a) = q.platformWhere a := by
  cases q <;> rfl

/-- A list the store may return, with the session window columns blanked, is one it
may return on the store with these columns blanked. -/
theorem mayReturn_erase (db : DB) (now : Time) (q : Query) (r : List accountModel)
    (h : mayReturn db now q r) :
    mayReturn (eraseSessionWindows db) now q (r.map eraseSessionWindow) := by
  rw [mayReturn_iff] at h ⊢
  by_cases hskip : q.noStatement = true
  · rw [if_pos hskip] at h ⊢
    rw [h]
    rfl
  · rw [if_neg hskip] at h ⊢
    cases hq : q.groupID with
    | none =>
      simp only [hq] at h ⊢
      have hm := orderedSelection_map byPriority byPriority eraseSessionWindow
        (fun _ _ => rfl) _ _ h
      have hsel : (fun a => q.platformWhere a && schedulableWhere now a) ∘ eraseSessionWindow
          = (fun a => q.platformWhere a && schedulableWhere now a) := by
        funext a
        simp only [Function.comp, platformWhere_erase]
        rfl
      show orderedSelection byPriority ((db.accounts.map eraseSessionWindow).filter _) _
      rw [List.filter_map, hsel]
      exact hm
    | some g =>
      simp only [hq] at h ⊢
      obtain ⟨rows, hs, rfl⟩ := h
      refine ⟨rows.map (fun x => (eraseSessionWindow x.1, x.2)), ?_, ?_⟩
      · have hm := orderedSelection_map byGroupPriority byGroupPriority
          (fun x : accountModel × accountGroupModel => (eraseSessionWindow x.1, x.2))
          (fun _ _ => rfl) _ _ hs
        have hsel : (fun x : accountModel × accountGroupModel =>
              x.2.GroupID == g && q.platformWhere x.1 && schedulableWhere now x.1) ∘
              (fun x : accountModel × accountGroupModel => (eraseSessionWindow x.1, x.2))
            = (fun x => x.2.GroupID == g && q.platformWhere x.1 &&
                schedulableWhere now x.1) := by
          funext x
          simp only [Function.comp, platformWhere_erase]
          rfl
        rw [joinAccountGroups_erase, List.filter_map, hsel]
        exact hm
      · rw [List.map_map, List.map_map]
        rfl

theorem joinAccountGroups_perm (db1 db2 : DB)
    (hg : db1.account_groups = db2.account_groups)
    (ha : db1.accounts.Perm db2.accounts) :
    (joinAccountGroups db1).Perm (joinAccountGroups db2) := by
  unfold joinAccountGroups
  rw [hg]
  exact List.Perm.flatMap_right _ ha

/-- What the store may return does not depend on the order in which table accounts
holds its rows. -/
theorem mayReturn_of_perm (db1 db2 : DB) (now : Time) (q : Query) (r : List accountModel)
    (hg : db1.account_groups = db2.account_groups)
    (ha : db1.accounts.Perm db2.accounts) (h : mayReturn db1 now q r) :
    mayReturn db2 now q r := by
  rw [mayReturn_iff] at h ⊢
  by_cases hskip : q.noStatement = true
  · rw [if_pos hskip] at h ⊢
    exact h
  · rw [if_neg hskip] at h ⊢
    cases hq : q.groupID with
    | none =>
      simp only [hq] at h ⊢
      exact orderedSelection_of_perm byPriority _ _ r (ha.filter _) h
    | some g =>
      simp only [hq] at h ⊢
      obtain ⟨rows, hs, hres⟩ := h
      exact ⟨rows, orderedSelection_of_perm byGroupPriority _ _ rows
        ((joinAccountGroups_perm db1 db2 hg ha).filter _) hs, hres⟩

/-- On stores that hold the same rows up to the session window columns, the lists
the store may return for one call are, with these columns blanked, equal up to the
order of accounts with equal sort keys. -/
theorem mayReturn_of_same (db1 db2 : DB) (hsame : sameButSessionWindow db1 db2)
    (t : Time) (q : Query) (r1 r2 : List accountModel) (h1 : mayReturn db1 t q r1)
    (h2 : mayReturn db2 t q r2) :
    sameUpToTies (eraseSessionWindows db1) q (r1.map eraseSessionWindow)
      (r2.map eraseSessionWindow) :=
  mayReturn_unique (eraseSessionWindows db1) t q _ _ (mayReturn_erase db1 t q r1 h1)
    (mayReturn_of_perm (eraseSessionWindows db2) (eraseSessionWindows db1) t q _
      hsame.1.symm hsame.2.symm (mayReturn_erase db2 t q r2 h2))

theorem ids_perm_of_erase (r1 r2 : List accountModel)
    (h : (r1.map eraseSessionWindow).Perm (r2.map eraseSessionWindow)) :
    (r1.map accountModel.ID).Perm (r2.map accountModel.ID) := by
  have h2 := h.map accountModel.ID
  rw [List.map_map, List.map_map] at h2
  exact h2

theorem same_UpdateSessionWindow (db : DB) (id : Int) (start end_ : Option Time)
    (status : String) (fault : Option DbError) :
    sameButSessionWindow db (UpdateSessionWindow db id start end_ status fault).1 := by
  cases fault with
  | some err => exact ⟨rfl, List.Perm.refl _⟩
  | none =>
    refine ⟨rfl, ?_⟩
    have heq : (UpdateSessionWindow db id start end_ status none).1.accounts.map
        eraseSessionWindow = db.accounts.map eraseSessionWindow := by
      simp only [UpdateSessionWindow, Updates, List.map_map]
      apply List.map_congr_left
      intro a _
      simp only [Function.comp]
      by_cases h : a.ID = id ∧ a.DeletedAt = none
      · rw [if_pos h]
        exact sessionWindowSet_erase start end_ status a
      · rw [if_neg h]
    rw [heq]

/-! ## The claims -/

/-- Claim C1: when its statement runs, each of the six ListSchedulable queries
returns exactly the stored accounts that are not soft deleted, lie in the scope of
the query (group membership, platform, platform list) and are eligible at now in the
sense of the spec: status active, schedulable, overloadUntil nil or not after now,
rateLimitResetAt nil or not after now.  An account with schedulable false is
returned by none of them, and the filter gives the same answer for a nil gate
timestamp and for one that is not after now. -/
theorem C1_listSchedulable_iff_eligible (db : DB) (now : Time) (groupID : Int)
    (platform : String) (platforms : List String) :
    (∃ res, ListSchedulable db now none = Except.ok res ∧
      ∀ a, a ∈ res ↔ (a ∈ db.accounts ∧ a.DeletedAt = none) ∧ isEligible a now) ∧
    (∃ res, ListSchedulableByGroupID db now groupID none = Except.ok res ∧
      ∀ a, a ∈ res ↔
        (a ∈ db.accounts ∧ a.DeletedAt = none ∧ inGroup db a groupID) ∧ isEligible a now) ∧
    (∃ res, ListSchedulableByPlatform db now platform none = Except.ok res ∧
      ∀ a, a ∈ res ↔
        (a ∈ db.accounts ∧ a.DeletedAt = none ∧ a.Platform = platform) ∧
          isEligible a now) ∧
    (∃ res, ListSchedulableByGroupIDAndPlatform db now groupID platform none
        = Except.ok res ∧
      ∀ a, a ∈ res ↔
        (a ∈ db.accounts ∧ a.DeletedAt = none ∧ inGroup db a groupID ∧
          a.Platform = platform) ∧ isEligible a now) ∧
    (∃ res, ListSchedulableByPlatforms db now platforms none = Except.ok res ∧
      ∀ a, a ∈ res ↔
        (a ∈ db.accounts ∧ a.DeletedAt = none ∧ a.Platform ∈ platforms) ∧
          isEligible a now) ∧
    (∃ res, ListSchedulableByGroupIDAndPlatforms db now groupID platforms none
        = Except.ok res ∧
      ∀ a, a ∈ res ↔
        (a ∈ db.accounts ∧ a.DeletedAt = none ∧ inGroup db a groupID ∧
          a.Platform ∈ platforms) ∧ isEligible a now) ∧
    (∀ a, a.Schedulable = false → isEligible a now → False) ∧
    (∀ (a : accountModel) (u : Time), u ≤ now →
      schedulableWhere now { a with OverloadUntil := some u }
          = schedulableWhere now { a with OverloadUntil := none } ∧
        schedulableWhere now { a with RateLimitResetAt := some u }
          = schedulableWhere now { a with RateLimitResetAt := none }) := by
  refine ⟨mem_ListSchedulable db now, mem_ListSchedulableByGroupID db now groupID,
    mem_ListSchedulableByPlatform db now platform,
    mem_ListSchedulableByGroupIDAndPlatform db now groupID platform,
    mem_ListSchedulableByPlatforms db now platforms,
    mem_ListSchedulableByGroupIDAndPlatforms db now groupID platforms, ?_, ?_⟩
  · intro a hs he
    rw [he.2.1] at hs
    exact Bool.noConfusion hs
  · intro a u hu
    simp [schedulableWhere, nullOrLe, notDeleted, activeSchedulable, hu]

/-- Claim C2: eligibility is a function of the stored record and the time.  A
stored account that is active, schedulable, has no rate-limit reset time and has
overloadUntil = u is, in one and the same store, left out of
ListSchedulableByPlatform at every now before u and returned at every now from u
on.  In the scenario with accounts A (priority 10, no gates) and B (priority 5,
overloadUntil one hour after now) on one platform the result is exactly [A],
whichever of the two rows the scan meets first. -/
theorem C2_overload_gate_follows_time (db : DB) (a : accountModel) (u : Time)
    (hmem : a ∈ db.accounts) (hlive : a.DeletedAt = none)
    (hstatus : a.Status = StatusActive) (hsched : a.Schedulable = true)
    (hrate : a.RateLimitResetAt = none) (hover : a.OverloadUntil = some u) :
    (∀ now, ∃ res, ListSchedulableByPlatform db now a.Platform none = Except.ok res ∧
      (now < u → a ∉ res) ∧ (u ≤ now → a ∈ res)) ∧
    (∀ now, ListSchedulableByPlatform ⟨[accountA, accountB now], []⟩ now "claude" none
        = Except.ok [accountA] ∧
      ListSchedulableByPlatform ⟨[accountB now, accountA], []⟩ now "claude" none
        = Except.ok [accountA]) := by
  constructor
  · intro now
    refine ⟨_, rfl, ?_, ?_⟩
    · intro hlt hin
      have hw := (List.mem_filter.mp ((mem_orderBy _ _ _).mp hin)).2
      rw [Bool.and_eq_true, schedulableWhere_iff] at hw
      rcases hw.2.2.2.2.1 with h | ⟨v, hv, hle⟩
      · rw [hover] at h
        exact Option.noConfusion h
      · rw [hover] at hv
        have huv : u = v := Option.some.inj hv
        have hlt' : now < v := huv ▸ hlt
        exact absurd hle (not_le.mpr hlt')
    · intro hle
      refine (mem_orderBy _ _ _).mpr (List.mem_filter.mpr ⟨hmem, ?_⟩)
      rw [Bool.and_eq_true, schedulableWhere_iff, beq_iff_eq]
      exact ⟨rfl, hlive, hstatus, hsched, Or.inr ⟨u, hover, hle⟩, Or.inl hrate⟩
  · intro now
    have hB : schedulableWhere now (accountB now) = false := by
      simp [schedulableWhere, nullOrLe, accountB]
    have hA : schedulableWhere now accountA = true := by
      simp [schedulableWhere, nullOrLe, accountA, notDeleted, activeSchedulable]
    have hpA : (accountA.Platform == "claude") = true := by decide
    constructor <;>
      simp [ListSchedulableByPlatform, Find, orderBy, List.filter, hA, hB, hpA]

/-- Witness of C2: account B of the scenario, stored next to A with overloadUntil
3600, is left out at time 0 and returned at time 3600. -/
theorem C2_overload_gate_follows_time_witness :
    (∀ now, ∃ res, ListSchedulableByPlatform ⟨[accountA, accountB 0], []⟩ now
        (accountB 0).Platform none = Except.ok res ∧
      (now < 3600 → accountB 0 ∉ res) ∧ (3600 ≤ now → accountB 0 ∈ res)) ∧
    (∀ now, ListSchedulableByPlatform ⟨[accountA, accountB now], []⟩ now "claude" none
        = Except.ok [accountA] ∧
      ListSchedulableByPlatform ⟨[accountB now, accountA], []⟩ now "claude" none
        = Except.ok [accountA]) :=
  C2_overload_gate_follows_time ⟨[accountA, accountB 0], []⟩ (accountB 0) 3600
    (by simp) rfl rfl rfl rfl rfl

/-- Claim C3: ClearRateLimit(id) is one UPDATE.  When the statement fails the store
is left as it was; when it runs it returns nil, every row of account id that is not
soft deleted has rateLimitedAt, rateLimitResetAt and overloadUntil nil afterwards,
and row by row the table holds either the old row or (for account id only) the old
row with exactly these three columns set to nil: never one or two of them, no
other column, no other account, no membership. -/
theorem C3_clearRateLimit_clears_three_gates (db : DB) (id : Int) :
    (∀ err, ClearRateLimit db id (some err) = (db, some err)) ∧
    (ClearRateLimit db id none).2 = none ∧
    (ClearRateLimit db id none).1.account_groups = db.account_groups ∧
    List.Forall₂ (fun a a' => a' = a ∨ (a.ID = id ∧ a.DeletedAt = none ∧
        a' = { a with RateLimitedAt := none, RateLimitResetAt := none,
                      OverloadUntil := none }))
      db.accounts (ClearRateLimit db id none).1.accounts ∧
    (∀ a' ∈ (ClearRateLimit db id none).1.accounts, a'.ID = id → a'.DeletedAt = none →
      a'.RateLimitedAt = none ∧ a'.RateLimitResetAt = none ∧ a'.OverloadUntil = none) := by
  refine ⟨fun err => rfl, rfl, rfl, Updates_rows db id _, ?_⟩
  intro a' ha' hid hlive
  obtain ⟨a, _, rfl⟩ := (mem_Updates db id _ a').mp ha'
  by_cases h : a.ID = id ∧ a.DeletedAt = none
  · rw [if_pos h]
    exact ⟨rfl, rfl, rfl⟩
  · rw [if_neg h] at hid hlive
    exact absurd ⟨hid, hlive⟩ h

/-- Claim C4: for a stored account that is not soft deleted, active and
schedulable, whatever its rate-limit and overload columns hold and whatever resetAt
is, SetRateLimited(id, resetAt) followed at once by ClearRateLimit(id) both return
nil and leave the account with its three gate columns nil; at every evaluation time
t this row is then returned by ListSchedulable, by ListSchedulableByPlatform for
its platform, by ListSchedulableByPlatforms for every list that holds its platform,
and by the three group queries for every group the account is a member of. -/
theorem C4_report_then_clear_is_eligible (db : DB) (a : accountModel)
    (resetAt now : Time) (hmem : a ∈ db.accounts) (hlive : a.DeletedAt = none)
    (hstatus : a.Status = StatusActive) (hsched : a.Schedulable = true) :
    let s1 := SetRateLimited db a.ID resetAt now none
    let s2 := ClearRateLimit s1.1 a.ID none
    let a' : accountModel :=
      { a with RateLimitedAt := none, RateLimitResetAt := none, OverloadUntil := none }
    s1.2 = none ∧ s2.2 = none ∧ a' ∈ s2.1.accounts ∧
    ∀ t : Time,
      (∃ res, ListSchedulable s2.1 t none = Except.ok res ∧ a' ∈ res) ∧
      (∃ res, ListSchedulableByPlatform s2.1 t a.Platform none = Except.ok res ∧
        a' ∈ res) ∧
      (∀ platforms, a.Platform ∈ platforms →
        ∃ res, ListSchedulableByPlatforms s2.1 t platforms none = Except.ok res ∧
          a' ∈ res) ∧
      (∀ g, inGroup db a g →
        (∃ res, ListSchedulableByGroupID s2.1 t g none = Except.ok res ∧ a' ∈ res) ∧
        (∃ res, ListSchedulableByGroupIDAndPlatform s2.1 t g a.Platform none
            = Except.ok res ∧ a' ∈ res) ∧
        (∀ platforms, a.Platform ∈ platforms →
          ∃ res, ListSchedulableByGroupIDAndPlatforms s2.1 t g platforms none
              = Except.ok res ∧ a' ∈ res)) := by
  intro s1 s2 a'
  have h1 : ({ a with RateLimitedAt := some now, RateLimitResetAt := some resetAt }
      : accountModel) ∈ s1.1.accounts := by
    refine (mem_Updates db a.ID _ _).mpr ⟨a, hmem, ?_⟩
    rw [if_pos ⟨rfl, hlive⟩]
  have h2 : a' ∈ s2.1.accounts := by
    refine (mem_Updates s1.1 a.ID _ _).mpr ⟨_, h1, ?_⟩
    rw [if_pos ⟨rfl, hlive⟩]
  have helig : ∀ t, isEligible a' t := fun t => ⟨hstatus, hsched, Or.inl rfl, Or.inl rfl⟩
  have hgrp : ∀ g, inGroup db a g → inGroup s2.1 a' g := fun g hg => hg
  refine ⟨rfl, rfl, h2, ?_⟩
  intro t
  refine ⟨?_, ?_, ?_, ?_⟩
  · obtain ⟨res, hres, hiff⟩ := mem_ListSchedulable s2.1 t
    exact ⟨res, hres, (hiff a').mpr ⟨⟨h2, hlive⟩, helig t⟩⟩
  · obtain ⟨res, hres, hiff⟩ := mem_ListSchedulableByPlatform s2.1 t a.Platform
    exact ⟨res, hres, (hiff a').mpr ⟨⟨h2, hlive, rfl⟩, helig t⟩⟩
  · intro platforms hp
    obtain ⟨res, hres, hiff⟩ := mem_ListSchedulableByPlatforms s2.1 t platforms
    exact ⟨res, hres, (hiff a').mpr ⟨⟨h2, hlive, hp⟩, helig t⟩⟩
  · intro g hg
    refine ⟨?_, ?_, ?_⟩
    · obtain ⟨res, hres, hiff⟩ := mem_ListSchedulableByGroupID s2.1 t g
      exact ⟨res, hres, (hiff a').mpr ⟨⟨h2, hlive, hgrp g hg⟩, helig t⟩⟩
    · obtain ⟨res, hres, hiff⟩ :=
        mem_ListSchedulableByGroupIDAndPlatform s2.1 t g a.Platform
      exact ⟨res, hres, (hiff a').mpr ⟨⟨h2, hlive, hgrp g hg, rfl⟩, helig t⟩⟩
    · intro platforms hp
      obtain ⟨res, hres, hiff⟩ :=
        mem_ListSchedulableByGroupIDAndPlatforms s2.1 t g platforms
      exact ⟨res, hres, (hiff a').mpr ⟨⟨h2, hlive, hgrp g hg, hp⟩, helig t⟩⟩

/-- Witness of C4: in the store with the gated account G, reporting a rate limit
until 7200 at time 100 and clearing at once leaves G, with its gates nil, in the
result of ListSchedulable and of ListSchedulableByGroupID for its group 7 at every
evaluation time. -/
theorem C4_report_then_clear_is_eligible_witness :
    accountG ∈ gatedStore.accounts ∧ accountG.DeletedAt = none ∧
    accountG.Status = StatusActive ∧ accountG.Schedulable = true ∧
    ∀ t : Time,
      (∃ res, ListSchedulable
          (ClearRateLimit (SetRateLimited gatedStore accountG.ID 7200 100 none).1
            accountG.ID none).1 t none = Except.ok res ∧
        ({ accountG with RateLimitedAt := none, RateLimitResetAt := none,
                         OverloadUntil := none } : accountModel) ∈ res) ∧
      (∃ res, ListSchedulableByGroupID
          (ClearRateLimit (SetRateLimited gatedStore accountG.ID 7200 100 none).1
            accountG.ID none).1 t 7 none = Except.ok res ∧
        ({ accountG with RateLimitedAt := none, RateLimitResetAt := none,
                         OverloadUntil := none } : accountModel) ∈ res) :=
  ⟨by simp [gatedStore], rfl, rfl, rfl, fun t =>
    ⟨((C4_report_then_clear_is_eligible gatedStore accountG 7200 100
        (by simp [gatedStore]) rfl rfl rfl).2.2.2 t).1,
     (((C4_report_then_clear_is_eligible gatedStore accountG 7200 100
        (by simp [gatedStore]) rfl rfl rfl).2.2.2 t).2.2.2 7
        ⟨⟨3, 7, 1⟩, by simp [gatedStore], rfl, rfl⟩).1⟩⟩

/-- Counterexample to C5 as stated: at time 100 account G has the rate-limit pair
(5, 900) and overloadUntil 800; SetRateLimited(3, 50), whose resetAt 50 is not after
now, returns nil and overwrites the pair with (100, 50). -/
theorem C5_counterexample :
    (50 : Time) ≤ 100 ∧
    SetRateLimited gatedStore 3 50 100 none =
      ({ accounts := [accountA,
          { accountG with RateLimitedAt := some 100, RateLimitResetAt := some 50 }],
         account_groups := [⟨3, 7, 1⟩] }, none) ∧
    accountG.RateLimitedAt = some 5 ∧ accountG.RateLimitResetAt = some 900 := by
  refine ⟨by decide, rfl, rfl, rfl⟩

/-- Claim C5, amended: SetRateLimited(id, resetAt) does not compare resetAt with
the clock.  For every resetAt and every now, resetAt at or before now included, the
UPDATE it runs returns nil, gives every row of account id that is not soft deleted
rateLimitedAt = now and rateLimitResetAt = resetAt, and leaves overloadUntil, every
other column, every other account and the memberships as they were.  The one error
it can return is the failure of the statement, and then the store is untouched. -/
theorem C5_setRateLimited_applies_any_resetAt (db : DB) (id : Int) (resetAt now : Time) :
    (SetRateLimited db id resetAt now none).2 = none ∧
    (∀ err, SetRateLimited db id resetAt now (some err) = (db, some err)) ∧
    (SetRateLimited db id resetAt now none).1.account_groups = db.account_groups ∧
    List.Forall₂ (fun a a' => a' = a ∨ (a.ID = id ∧ a.DeletedAt = none ∧
        a' = { a with RateLimitedAt := some now, RateLimitResetAt := some resetAt }))
      db.accounts (SetRateLimited db id resetAt now none).1.accounts ∧
    (∀ a' ∈ (SetRateLimited db id resetAt now none).1.accounts,
      a'.ID = id → a'.DeletedAt = none →
        a'.RateLimitedAt = some now ∧ a'.RateLimitResetAt = some resetAt) := by
  refine ⟨rfl, fun err => rfl, rfl, Updates_rows db id _, ?_⟩
  intro a' ha' hid hlive
  obtain ⟨a, _, rfl⟩ := (mem_Updates db id _ a').mp ha'
  by_cases h : a.ID = id ∧ a.DeletedAt = none
  · rw [if_pos h]
    exact ⟨rfl, rfl⟩
  · rw [if_neg h] at hid hlive
    exact absurd ⟨hid, hlive⟩ h

/-- Counterexample to C6 as stated: SetOverloaded(3, 50) on the store with account G
returns nil and replaces overloadUntil 800 by 50, at whatever time the call is made,
also at a time after 50 such as 100: the method never reads the clock. -/
theorem C6_counterexample :
    (50 : Time) ≤ 100 ∧
    SetOverloaded gatedStore 3 50 none =
      ({ accounts := [accountA, { accountG with OverloadUntil := some 50 }],
         account_groups := [⟨3, 7, 1⟩] }, none) ∧
    accountG.OverloadUntil = some 800 := by
  refine ⟨by decide, rfl, rfl⟩

/-- Claim C6, amended: SetOverloaded(id, until) neither reads the clock nor checks
until.  For every value of until the UPDATE it runs returns nil, gives every row of
account id that is not soft deleted overloadUntil = until, and leaves every other
column, every other account and the memberships as they were.  The one error it can
return is the failure of the statement, and then the store is untouched. -/
theorem C6_setOverloaded_applies_any_until (db : DB) (id : Int) (overloadUntil : Time) :
    (SetOverloaded db id overloadUntil none).2 = none ∧
    (∀ err, SetOverloaded db id overloadUntil (some err) = (db, some err)) ∧
    (SetOverloaded db id overloadUntil none).1.account_groups = db.account_groups ∧
    List.Forall₂ (fun a a' => a' = a ∨ (a.ID = id ∧ a.DeletedAt = none ∧
        a' = { a with OverloadUntil := some overloadUntil }))
      db.accounts (SetOverloaded db id overloadUntil none).1.accounts ∧
    (∀ a' ∈ (SetOverloaded db id overloadUntil none).1.accounts,
      a'.ID = id → a'.DeletedAt = none → a'.OverloadUntil = some overloadUntil) := by
  refine ⟨rfl, fun err => rfl, rfl, Updates_rows db id _, ?_⟩
  intro a' ha' hid hlive
  obtain ⟨a, _, rfl⟩ := (mem_Updates db id _ a').mp ha'
  by_cases h : a.ID = id ∧ a.DeletedAt = none
  · rw [if_pos h]
  · rw [if_neg h] at hid hlive
    exact absurd ⟨hid, hlive⟩ h

/-- Claim C7: for a list of pairwise distinct group ids, BindGroups returns nil when
both its statements run, and after every call that returns nil the memberships of
the account are exactly the rows (accountID, g, i + 1) for the group id g at index i
of the list (counted from 0), one row for each list element: priorities 1..N by
position, and no membership from before the call survives.  The memberships of the
other accounts and the table of accounts are as before.  BindGroups(id, [g3, g1, g2])
gives g3 priority 1, g1 priority 2, g2 priority 3, and a following
BindGroups(id, [g2]) leaves only g2 with priority 1. -/
theorem C7_bindGroups_replaces_by_position (db : DB) (accountID : Int)
    (groupIDs : List Int) (hnodup : groupIDs.Nodup) :
    (BindGroups db accountID groupIDs none none).2 = none ∧
    (∀ deleteFault insertFault,
      (BindGroups db accountID groupIDs deleteFault insertFault).2 = none →
      (∀ m, m ∈ membershipsOf
            (BindGroups db accountID groupIDs deleteFault insertFault).1 accountID ↔
          ∃ (i : Nat) (g : Int), groupIDs[i]? = some g ∧
            m = { AccountID := accountID, GroupID := g, Priority := (i : Int) + 1 }) ∧
      (membershipsOf (BindGroups db accountID groupIDs deleteFault insertFault).1
          accountID).length = groupIDs.length ∧
      (∀ other, other ≠ accountID →
        membershipsOf (BindGroups db accountID groupIDs deleteFault insertFault).1 other
          = membershipsOf db other) ∧
      (BindGroups db accountID groupIDs deleteFault insertFault).1.accounts
        = db.accounts) ∧
    (∀ g1 g2 g3 : Int, g1 ≠ g2 → g1 ≠ g3 → g2 ≠ g3 →
      membershipsOf (BindGroups db accountID [g3, g1, g2] none none).1 accountID
        = [⟨accountID, g3, 1⟩, ⟨accountID, g1, 2⟩, ⟨accountID, g2, 3⟩] ∧
      membershipsOf (BindGroups (BindGroups db accountID [g3, g1, g2] none none).1
          accountID [g2] none none).1 accountID = [⟨accountID, g2, 1⟩]) := by
  refine ⟨?_, ?_, ?_⟩
  · rw [BindGroups_ok db accountID groupIDs hnodup]
  · intro deleteFault insertFault hok
    rw [BindGroups_of_success db accountID groupIDs deleteFault insertFault hok]
    refine ⟨?_, ?_, ?_, rfl⟩
    · intro m
      rw [membershipsOf_replaced]
      exact mem_bindRows accountID groupIDs m
    · rw [membershipsOf_replaced]
      exact bindRows_length accountID groupIDs
    · intro other hne
      exact membershipsOf_other db accountID other groupIDs hne
  · intro g1 g2 g3 h12 h13 h23
    have hn3 : [g3, g1, g2].Nodup := by
      simp only [List.nodup_cons, List.mem_cons, List.mem_singleton, List.not_mem_nil,
        not_or, List.nodup_nil, or_false, not_false_eq_true, and_true]
      exact ⟨⟨Ne.symm h13, Ne.symm h23⟩, h12⟩
    have hn1 : [g2].Nodup := List.nodup_singleton g2
    rw [BindGroups_ok _ accountID [g2] hn1, membershipsOf_replaced,
      BindGroups_ok db accountID [g3, g1, g2] hn3, membershipsOf_replaced]
    exact ⟨rfl, rfl⟩

/-- Witness of C7: on the store where account 3 is a member of group 7 with
priority 1, BindGroups(3, [3, 1, 2]) returns nil and leaves account 3 with groups
3, 1, 2 at priorities 1, 2, 3; a following BindGroups(3, [2]) leaves group 2 at
priority 1 alone. -/
theorem C7_bindGroups_replaces_by_position_witness :
    ([3, 1, 2] : List Int).Nodup ∧
    (BindGroups gatedStore 3 [3, 1, 2] none none).2 = none ∧
    membershipsOf (BindGroups gatedStore 3 [3, 1, 2] none none).1 3
      = [⟨3, 3, 1⟩, ⟨3, 1, 2⟩, ⟨3, 2, 3⟩] ∧
    membershipsOf (BindGroups (BindGroups gatedStore 3 [3, 1, 2] none none).1
        3 [2] none none).1 3 = [⟨3, 2, 1⟩] :=
  ⟨by decide,
   (C7_bindGroups_replaces_by_position gatedStore 3 [3, 1, 2] (by decide)).1,
   (C7_bindGroups_replaces_by_position gatedStore 3 [3, 1, 2] (by decide)).2.2 1 2 3
     (by decide) (by decide) (by decide)⟩

/-- Counterexample to C8 as stated: account 3 is a member of group 7; the call
BindGroups(3, [5, 5]) with a duplicate returns the primary key error of the insert
statement, and by then the delete statement has removed the membership in group 7:
the account is left with no membership. -/
theorem C8_counterexample :
    ¬ ([5, 5] : List Int).Nodup ∧
    membershipsOf gatedStore 3 = [⟨3, 7, 1⟩] ∧
    BindGroups gatedStore 3 [5, 5] none none =
      ({ accounts := [accountA, accountG], account_groups := [] },
        some DbError.duplicateKey) ∧
    membershipsOf (BindGroups gatedStore 3 [5, 5] none none).1 3 = [] := by
  have hdup : ¬ ([5, 5] : List Int).Nodup := by decide
  refine ⟨hdup, rfl, ?_, ?_⟩
  · rw [BindGroups_duplicate gatedStore 3 [5, 5] hdup]
    rfl
  · rw [BindGroups_duplicate gatedStore 3 [5, 5] hdup]
    rfl

/-- Claim C8, amended: BindGroups makes no check of its own on the list.  When
groupIDs contains a duplicate group id every call returns an error, but the error
comes from the store: the failure of one of the two statements or, when both run,
the primary key of account_groups refusing the insert.  In that last case the
delete statement has been applied before the refusal: the account is left with no
membership, nothing of the list is inserted, and the memberships of the other
accounts are as before. -/
theorem C8_bindGroups_duplicate_refused_by_store (db : DB) (accountID : Int)
    (groupIDs : List Int) (hdup : ¬ groupIDs.Nodup) :
    (∀ deleteFault insertFault,
      (BindGroups db accountID groupIDs deleteFault insertFault).2 ≠ none) ∧
    (BindGroups db accountID groupIDs none none).2 = some DbError.duplicateKey ∧
    membershipsOf (BindGroups db accountID groupIDs none none).1 accountID = [] ∧
    (∀ other, other ≠ accountID →
      membershipsOf (BindGroups db accountID groupIDs none none).1 other
        = membershipsOf db other) := by
  have hne : groupIDs ≠ [] := fun h => hdup (h ▸ List.nodup_nil)
  refine ⟨?_, ?_, ?_, ?_⟩
  · intro deleteFault insertFault
    cases deleteFault with
    | some err => simp [BindGroups_delete_fault]
    | none =>
      cases insertFault with
      | some err => simp [BindGroups_insert_fault db accountID groupIDs err hne]
      | none => simp [BindGroups_duplicate db accountID groupIDs hdup]
  · rw [BindGroups_duplicate db accountID groupIDs hdup]
  · rw [BindGroups_duplicate db accountID groupIDs hdup]
    exact membershipsOf_deleted db accountID
  · intro other hother
    rw [BindGroups_duplicate db accountID groupIDs hdup]
    exact membershipsOf_deleted_other db accountID other hother

/-- Witness of C8: the list [5, 5] on the store where account 3 is in group 7. -/
theorem C8_bindGroups_duplicate_refused_by_store_witness :
    ¬ ([5, 5] : List Int).Nodup ∧
    (BindGroups gatedStore 3 [5, 5] none none).2 = some DbError.duplicateKey :=
  ⟨by decide,
   (C8_bindGroups_duplicate_refused_by_store gatedStore 3 [5, 5] (by decide)).2.1⟩

/-- Counterexample to C9 as stated: account 3 is a member of group 7; in the call
BindGroups(3, [5]) the delete statement runs and the insert statement fails.  The
call returns that error and the final state is the intermediate one: the old
membership is deleted and the new one is not inserted. -/
theorem C9_counterexample :
    (BindGroups gatedStore 3 [5] none (some (DbError.driver 1))).2
      = some (DbError.driver 1) ∧
    membershipsOf gatedStore 3 = [⟨3, 7, 1⟩] ∧
    membershipsOf (BindGroups gatedStore 3 [5] none (some (DbError.driver 1))).1 3
      = [] := by
  refine ⟨rfl, rfl, rfl⟩

/-- Claim C9, amended: BindGroups runs its delete and its insert as two statements
with no transaction around them.  An error of the delete statement leaves the whole
store as it was.  An error of the insert statement (which a failing insert on a
non-empty list does produce) leaves the state between the two statements: every old
membership of the account deleted and none of the list inserted.  A part of the list
is never inserted, and whenever an error is returned the memberships of the other
accounts and the table of accounts are as before. -/
theorem C9_bindGroups_error_states (db : DB) (accountID : Int) (groupIDs : List Int) :
    (∀ err insertFault,
      BindGroups db accountID groupIDs (some err) insertFault = (db, some err)) ∧
    (∀ err, groupIDs ≠ [] →
      (BindGroups db accountID groupIDs none (some err)).2 = some err) ∧
    (∀ insertFault, (BindGroups db accountID groupIDs none insertFault).2 ≠ none →
      membershipsOf (BindGroups db accountID groupIDs none insertFault).1 accountID
        = []) ∧
    (∀ deleteFault insertFault,
      (BindGroups db accountID groupIDs deleteFault insertFault).2 ≠ none →
      (BindGroups db accountID groupIDs deleteFault insertFault).1.accounts
          = db.accounts ∧
        ∀ other, other ≠ accountID →
          membershipsOf (BindGroups db accountID groupIDs deleteFault insertFault).1
            other = membershipsOf db other) := by
  refine ⟨fun err insertFault => rfl, ?_, ?_, ?_⟩
  · intro err hne
    exact BindGroups_insert_fault db accountID groupIDs err hne
  · intro insertFault herr
    rw [BindGroups_insert_error db accountID groupIDs insertFault herr]
    exact membershipsOf_deleted db accountID
  · intro deleteFault insertFault herr
    cases deleteFault with
    | some err => exact ⟨rfl, fun other _ => rfl⟩
    | none =>
      rw [BindGroups_insert_error db accountID groupIDs insertFault herr]
      exact ⟨rfl, fun other hother => membershipsOf_deleted_other db accountID other hother⟩

/-- Claim C10: in a store whose table account_groups respects its primary key
(account id, group id), the list each group-scoped query returns
(ListSchedulableByGroupID, ListSchedulableByGroupIDAndPlatform,
ListSchedulableByGroupIDAndPlatforms) is sorted in non-decreasing lexicographic
order of the key (membership priority of the account in the group, priority of the
account): an account that stands before another in the result has a key that is
less than or equal to the key of the other. -/
theorem C10_group_queries_sorted_by_rank (db : DB)
    (hpk : (db.account_groups.map accountGroupKey).Nodup) (now : Time) (groupID : Int)
    (platform : String) (platforms : List String) :
    (∃ res, ListSchedulableByGroupID db now groupID none = Except.ok res ∧
      res.Pairwise (fun a b => keyLe (rankKey db groupID a) (rankKey db groupID b))) ∧
    (∃ res, ListSchedulableByGroupIDAndPlatform db now groupID platform none
        = Except.ok res ∧
      res.Pairwise (fun a b => keyLe (rankKey db groupID a) (rankKey db groupID b))) ∧
    (∃ res, ListSchedulableByGroupIDAndPlatforms db now groupID platforms none
        = Except.ok res ∧
      res.Pairwise (fun a b => keyLe (rankKey db groupID a) (rankKey db groupID b))) := by
  refine ⟨⟨_, rfl, ?_⟩, ⟨_, rfl, ?_⟩, ?_⟩
  · apply rank_sorted_of_rows db hpk groupID
    intro x hx
    have h := List.mem_filter.mp hx
    simp only [Bool.and_eq_true, beq_iff_eq] at h
    exact ⟨h.1, h.2.1⟩
  · apply rank_sorted_of_rows db hpk groupID
    intro x hx
    have h := List.mem_filter.mp hx
    simp only [Bool.and_eq_true, beq_iff_eq] at h
    exact ⟨h.1, h.2.1.1⟩
  · unfold ListSchedulableByGroupIDAndPlatforms
    split
    · exact ⟨_, rfl, List.Pairwise.nil⟩
    · refine ⟨_, rfl, ?_⟩
      apply rank_sorted_of_rows db hpk groupID
      intro x hx
      have h := List.mem_filter.mp hx
      simp only [Bool.and_eq_true, beq_iff_eq] at h
      exact ⟨h.1, h.2.1.1⟩

/-- Witness of C10: in the store where account 1 (priority 10) has membership
priority 2 in group 7 and account 3 (priority 10) has membership priority 1, the
table respects the primary key and the result for group 7 is sorted by rank. -/
theorem C10_group_queries_sorted_by_rank_witness :
    (rankedStore.account_groups.map accountGroupKey).Nodup ∧
    ∃ res, ListSchedulableByGroupID rankedStore 0 7 none = Except.ok res ∧
      res.Pairwise (fun a b => keyLe (rankKey rankedStore 7 a) (rankKey rankedStore 7 b)) :=
  ⟨by decide,
   (C10_group_queries_sorted_by_rank rankedStore (by decide) 0 7 "claude" ["claude"]).1⟩

/-- Claim C11: at every evaluation time the list each of the group-less queries
(ListSchedulable, ListSchedulableByPlatform, ListSchedulableByPlatforms) returns is
sorted by account priority in ascending order: for any two positions i before j,
the priority at i is at most the priority at j. -/
theorem C11_groupless_queries_sorted_by_priority (db : DB) (now : Time)
    (platform : String) (platforms : List String) :
    (∃ res, ListSchedulable db now none = Except.ok res ∧
      ∀ (i j : Nat) (hi : i < res.length) (hj : j < res.length), i < j →
        res[i].Priority ≤ res[j].Priority) ∧
    (∃ res, ListSchedulableByPlatform db now platform none = Except.ok res ∧
      ∀ (i j : Nat) (hi : i < res.length) (hj : j < res.length), i < j →
        res[i].Priority ≤ res[j].Priority) ∧
    (∃ res, ListSchedulableByPlatforms db now platforms none = Except.ok res ∧
      ∀ (i j : Nat) (hi : i < res.length) (hj : j < res.length), i < j →
        res[i].Priority ≤ res[j].Priority) := by
  refine ⟨⟨_, rfl, ?_⟩, ⟨_, rfl, ?_⟩, ?_⟩
  · intro i j hi hj hij
    exact orderBy_byPriority_index _ i j hi hj hij
  · intro i j hi hj hij
    exact orderBy_byPriority_index _ i j hi hj hij
  · unfold ListSchedulableByPlatforms
    split
    · refine ⟨_, rfl, ?_⟩
      intro i j hi
      exact absurd hi (Nat.not_lt_zero i)
    · refine ⟨_, rfl, ?_⟩
      intro i j hi hj hij
      exact orderBy_byPriority_index _ i j hi hj hij

/-- Claim C14: when its statement runs, SetRateLimited(id, resetAt) returns nil and
gives the stored, not soft deleted account id rateLimitedAt = now and
rateLimitResetAt = resetAt in the one UPDATE (every other column kept).  From then
on, with no further call, no ListSchedulable query returns the account at a time
before resetAt, and at every time from resetAt on every query in whose scope the
account lies returns it, provided it is active, schedulable and its overload gate
has passed at that time. -/
theorem C14_setRateLimited_gates_until_resetAt (db : DB) (a : accountModel)
    (resetAt now : Time) (hmem : a ∈ db.accounts) (hlive : a.DeletedAt = none) :
    (SetRateLimited db a.ID resetAt now none).2 = none ∧
    ({ a with RateLimitedAt := some now, RateLimitResetAt := some resetAt } : accountModel)
      ∈ (SetRateLimited db a.ID resetAt now none).1.accounts ∧
    (∀ b ∈ (SetRateLimited db a.ID resetAt now none).1.accounts, b.ID = a.ID →
      b.DeletedAt = none →
        b.RateLimitedAt = some now ∧ b.RateLimitResetAt = some resetAt) ∧
    (∀ t, t < resetAt →
      neverReturned (SetRateLimited db a.ID resetAt now none).1 t a.ID) ∧
    (∀ t, resetAt ≤ t → a.Status = StatusActive → a.Schedulable = true →
      gatePassed a.OverloadUntil t →
      returnedInScope (SetRateLimited db a.ID resetAt now none).1 t
        { a with RateLimitedAt := some now, RateLimitResetAt := some resetAt }) := by
  have hrow : ({ a with RateLimitedAt := some now, RateLimitResetAt := some resetAt }
      : accountModel) ∈ (SetRateLimited db a.ID resetAt now none).1.accounts := by
    refine (mem_Updates db a.ID _ _).mpr ⟨a, hmem, ?_⟩
    rw [if_pos ⟨rfl, hlive⟩]
  have hset : ∀ b ∈ (SetRateLimited db a.ID resetAt now none).1.accounts, b.ID = a.ID →
      b.DeletedAt = none →
        b.RateLimitedAt = some now ∧ b.RateLimitResetAt = some resetAt := by
    intro b hb hbid hblive
    obtain ⟨c, _, _, _, rfl⟩ := Updates_live_row db a.ID _ b hb hbid hblive
    exact ⟨rfl, rfl⟩
  refine ⟨rfl, hrow, hset, ?_, ?_⟩
  · intro t ht
    apply neverReturned_of_ineligible
    intro b hb hbid hblive helig
    rcases helig.2.2.2 with hnone | ⟨u, hu, hle⟩
    · rw [(hset b hb hbid hblive).2] at hnone
      exact Option.noConfusion hnone
    · rw [(hset b hb hbid hblive).2] at hu
      have hu' : resetAt = u := Option.some.inj hu
      have hlt : t < u := hu' ▸ ht
      exact absurd hle (not_le.mpr hlt)
  · intro t ht hstatus hsched hover
    exact returnedInScope_of_eligible _ t _ hrow hlive
      ⟨hstatus, hsched, hover, Or.inr ⟨resetAt, rfl, ht⟩⟩

/-- Witness of C14: account A, ungated, is reported rate limited at time 100 until
time 7200; it is returned by no query at time 5000 and by ListSchedulable at time
7200. -/
theorem C14_setRateLimited_gates_until_resetAt_witness :
    accountA ∈ gatedStore.accounts ∧ accountA.DeletedAt = none ∧
    neverReturned (SetRateLimited gatedStore accountA.ID 7200 100 none).1 5000 accountA.ID ∧
    ∃ res, ListSchedulable (SetRateLimited gatedStore accountA.ID 7200 100 none).1 7200 none
        = Except.ok res ∧
      ({ accountA with RateLimitedAt := some 100, RateLimitResetAt := some 7200 }
        : accountModel) ∈ res :=
  ⟨by simp [gatedStore], rfl,
   (C14_setRateLimited_gates_until_resetAt gatedStore accountA 7200 100
      (by simp [gatedStore]) rfl).2.2.2.1 5000 (by decide),
   ((C14_setRateLimited_gates_until_resetAt gatedStore accountA 7200 100
      (by simp [gatedStore]) rfl).2.2.2.2 7200 (le_refl _) rfl rfl (Or.inl rfl)).1⟩

/-- Claim C15: the three field groups are written independently.  Row by row,
SetRateLimited leaves the old row or (for account id only) the old row with
rateLimitedAt and rateLimitResetAt replaced, SetOverloaded the old row with
overloadUntil replaced, SetSchedulable the old row with schedulable replaced; no
other column, no other account and no membership changes.  After SetRateLimited and
SetOverloaded on one account both gates are set on it.  Two of these calls on
different field groups (on any ids), and two calls on one field group with
different ids, leave the same store in either order, whether or not their
statements fail. -/
theorem C15_field_groups_are_independent (db : DB) (i j : Int) (resetAt now resetAt2 now2 : Time)
    (overloadUntil overloadUntil2 : Time) (schedulable schedulable2 : Bool)
    (f1 f2 : Option DbError) :
    ((SetRateLimited db i resetAt now none).1.account_groups = db.account_groups ∧
      List.Forall₂ (fun a a' => a' = a ∨ (a.ID = i ∧ a.DeletedAt = none ∧
          a' = { a with RateLimitedAt := some now, RateLimitResetAt := some resetAt }))
        db.accounts (SetRateLimited db i resetAt now none).1.accounts) ∧
    ((SetOverloaded db i overloadUntil none).1.account_groups = db.account_groups ∧
      List.Forall₂ (fun a a' => a' = a ∨ (a.ID = i ∧ a.DeletedAt = none ∧
          a' = { a with OverloadUntil := some overloadUntil }))
        db.accounts (SetOverloaded db i overloadUntil none).1.accounts) ∧
    ((SetSchedulable db i schedulable none).1.account_groups = db.account_groups ∧
      List.Forall₂ (fun a a' => a' = a ∨ (a.ID = i ∧ a.DeletedAt = none ∧
          a' = { a with Schedulable := schedulable }))
        db.accounts (SetSchedulable db i schedulable none).1.accounts) ∧
    (∀ a ∈ db.accounts, a.ID = i → a.DeletedAt = none →
      ({ a with RateLimitedAt := some now, RateLimitResetAt := some resetAt,
                OverloadUntil := some overloadUntil } : accountModel) ∈
        (SetOverloaded (SetRateLimited db i resetAt now none).1 i overloadUntil none).1.accounts) ∧
    (SetOverloaded (SetRateLimited db i resetAt now f1).1 j overloadUntil f2).1
      = (SetRateLimited (SetOverloaded db j overloadUntil f2).1 i resetAt now f1).1 ∧
    (SetSchedulable (SetRateLimited db i resetAt now f1).1 j schedulable f2).1
      = (SetRateLimited (SetSchedulable db j schedulable f2).1 i resetAt now f1).1 ∧
    (SetSchedulable (SetOverloaded db i overloadUntil f1).1 j schedulable f2).1
      = (SetOverloaded (SetSchedulable db j schedulable f2).1 i overloadUntil f1).1 ∧
    (i ≠ j →
      (SetRateLimited (SetRateLimited db i resetAt now f1).1 j resetAt2 now2 f2).1
        = (SetRateLimited (SetRateLimited db j resetAt2 now2 f2).1 i resetAt now f1).1 ∧
      (SetOverloaded (SetOverloaded db i overloadUntil f1).1 j overloadUntil2 f2).1
        = (SetOverloaded (SetOverloaded db j overloadUntil2 f2).1 i overloadUntil f1).1 ∧
      (SetSchedulable (SetSchedulable db i schedulable f1).1 j schedulable2 f2).1
        = (SetSchedulable (SetSchedulable db j schedulable2 f2).1 i schedulable f1).1) := by
  refine ⟨⟨rfl, Updates_rows db i _⟩, ⟨rfl, Updates_rows db i _⟩, ⟨rfl, Updates_rows db i _⟩,
    ?_, ?_, ?_, ?_, ?_⟩
  · intro a ha hid hlive
    have h1 : ({ a with RateLimitedAt := some now, RateLimitResetAt := some resetAt }
        : accountModel) ∈ (SetRateLimited db i resetAt now none).1.accounts := by
      refine (mem_Updates db i _ _).mpr ⟨a, ha, ?_⟩
      rw [if_pos ⟨hid, hlive⟩]
    refine (mem_Updates _ i _ _).mpr ⟨_, h1, ?_⟩
    rw [if_pos ⟨hid, hlive⟩]
  · exact Updates_comm db i j _ _ f1 f2 (fun _ => ⟨rfl, rfl⟩) (fun _ => ⟨rfl, rfl⟩)
      (fun _ _ _ => rfl)
  · exact Updates_comm db i j _ _ f1 f2 (fun _ => ⟨rfl, rfl⟩) (fun _ => ⟨rfl, rfl⟩)
      (fun _ _ _ => rfl)
  · exact Updates_comm db i j _ _ f1 f2 (fun _ => ⟨rfl, rfl⟩) (fun _ => ⟨rfl, rfl⟩)
      (fun _ _ _ => rfl)
  · intro hij
    refine ⟨?_, ?_, ?_⟩
    · exact Updates_comm db i j _ _ f1 f2 (fun _ => ⟨rfl, rfl⟩) (fun _ => ⟨rfl, rfl⟩)
        (fun _ hi hj => absurd (hi.symm.trans hj) hij)
    · exact Updates_comm db i j _ _ f1 f2 (fun _ => ⟨rfl, rfl⟩) (fun _ => ⟨rfl, rfl⟩)
        (fun _ hi hj => absurd (hi.symm.trans hj) hij)
    · exact Updates_comm db i j _ _ f1 f2 (fun _ => ⟨rfl, rfl⟩) (fun _ => ⟨rfl, rfl⟩)
        (fun _ hi hj => absurd (hi.symm.trans hj) hij)

/-- Claim C16: the rate-limit pair invariant (in every row rateLimitResetAt is
non-nil iff rateLimitedAt is non-nil) is preserved by each of SetRateLimited,
SetOverloaded, ClearRateLimit, SetSchedulable, SetError, UpdateSessionWindow,
UpdateLastUsed and BatchUpdateLastUsed, with any arguments and whether or not the
statement fails, and therefore by every sequence of such calls. -/
theorem C16_pair_invariant_preserved (db : DB) (hinv : pairInvariant db) (id : Int)
    (resetAt now overloadUntil : Time) (schedulable : Bool) (errorMsg status : String)
    (start end_ : Option Time) (updates : List (Int × Time)) (fault : Option DbError) :
    pairInvariant (SetRateLimited db id resetAt now fault).1 ∧
    pairInvariant (SetOverloaded db id overloadUntil fault).1 ∧
    pairInvariant (ClearRateLimit db id fault).1 ∧
    pairInvariant (SetSchedulable db id schedulable fault).1 ∧
    pairInvariant (SetError db id errorMsg fault).1 ∧
    pairInvariant (UpdateSessionWindow db id start end_ status fault).1 ∧
    pairInvariant (UpdateLastUsed db id now fault).1 ∧
    pairInvariant (BatchUpdateLastUsed db updates fault).1 ∧
    ∀ calls : List Mutation, pairInvariant (runAll db calls) :=
  ⟨pairInvariant_run db (Mutation.setRateLimited id resetAt now fault) hinv,
   pairInvariant_run db (Mutation.setOverloaded id overloadUntil fault) hinv,
   pairInvariant_run db (Mutation.clearRateLimit id fault) hinv,
   pairInvariant_run db (Mutation.setSchedulable id schedulable fault) hinv,
   pairInvariant_run db (Mutation.setError id errorMsg fault) hinv,
   pairInvariant_run db (Mutation.updateSessionWindow id start end_ status fault) hinv,
   pairInvariant_run db (Mutation.updateLastUsed id now fault) hinv,
   pairInvariant_run db (Mutation.batchUpdateLastUsed updates fault) hinv,
   fun calls => pairInvariant_runAll calls db hinv⟩

/-- Witness of C16: the store with account G, whose pair is (5, 900), satisfies the
invariant, and so does the store left by SetRateLimited(3, 7200) at time 100. -/
theorem C16_pair_invariant_preserved_witness :
    pairInvariant gatedStore ∧
    pairInvariant (SetRateLimited gatedStore 3 7200 100 none).1 :=
  ⟨by simp [pairInvariant, gatedStore, accountA, accountG],
   (C16_pair_invariant_preserved gatedStore
      (by simp [pairInvariant, gatedStore, accountA, accountG]) 3 7200 100 800 true "" ""
      none none [] none).1⟩

/-- Claim C17: when its statement runs, SetError(id, msg) returns nil and gives the
not soft deleted account id status error and error message msg, every other column
and every other account kept.  The signal is sticky: after it, whatever sequence of
SetRateLimited, SetOverloaded, ClearRateLimit, SetSchedulable, UpdateSessionWindow
and BatchUpdateLastUsed calls follows (and of SetError and UpdateLastUsed calls as
well), on any ids, with any arguments, failing or not, no ListSchedulable query
returns the account at any evaluation time. -/
theorem C17_setError_is_sticky (db : DB) (id : Int) (errorMsg : String) :
    (SetError db id errorMsg none).2 = none ∧
    List.Forall₂ (fun a a' => a' = a ∨ (a.ID = id ∧ a.DeletedAt = none ∧
        a' = { a with Status := StatusError, ErrorMessage := errorMsg }))
      db.accounts (SetError db id errorMsg none).1.accounts ∧
    (∀ b ∈ (SetError db id errorMsg none).1.accounts, b.ID = id → b.DeletedAt = none →
      b.Status = StatusError ∧ b.ErrorMessage = errorMsg) ∧
    (∀ (calls : List Mutation) (t : Time),
      neverReturned (runAll (SetError db id errorMsg none).1 calls) t id) := by
  refine ⟨rfl, Updates_rows db id _, ?_, ?_⟩
  · intro b hb hbid hblive
    obtain ⟨a, _, _, _, rfl⟩ := Updates_live_row db id _ b hb hbid hblive
    exact ⟨rfl, rfl⟩
  · intro calls t
    exact neverReturned_of_statusIsError _ t id
      (statusIsError_runAll calls _ id (statusIsError_SetError db id errorMsg))

/-- Counterexample to C19 as stated: the store holds the accounts 1 and 3 only, and
each of the six mutations called with the id 99 returns nil, with the store as it
was: success is reported for an account that does not exist. -/
theorem C19_counterexample :
    (∀ a ∈ gatedStore.accounts, a.ID ≠ 99) ∧
    SetRateLimited gatedStore 99 7200 100 none = (gatedStore, none) ∧
    SetOverloaded gatedStore 99 7200 none = (gatedStore, none) ∧
    ClearRateLimit gatedStore 99 none = (gatedStore, none) ∧
    SetSchedulable gatedStore 99 false none = (gatedStore, none) ∧
    SetError gatedStore 99 "expired" none = (gatedStore, none) ∧
    UpdateSessionWindow gatedStore 99 (some 10) (some 20) "active" none
      = (gatedStore, none) := by
  refine ⟨by simp [gatedStore, accountA, accountG], rfl, rfl, rfl, rfl, rfl, rfl⟩

/-- Claim C19, amended: none of the targeted mutations looks at the number of rows
its UPDATE matched.  Called with an id that no stored, not soft deleted account has,
each of SetRateLimited, SetOverloaded, ClearRateLimit, SetSchedulable, SetError and
UpdateSessionWindow returns nil when its statement runs and leaves the store as it
was; the one error any of them returns is the failure of the statement itself, never
a not-found error. -/
theorem C19_missing_id_reports_success (db : DB) (id : Int)
    (hmissing : ∀ a ∈ db.accounts, a.ID = id → a.DeletedAt ≠ none)
    (resetAt now overloadUntil : Time) (schedulable : Bool) (errorMsg status : String)
    (start end_ : Option Time) :
    SetRateLimited db id resetAt now none = (db, none) ∧
    SetOverloaded db id overloadUntil none = (db, none) ∧
    ClearRateLimit db id none = (db, none) ∧
    SetSchedulable db id schedulable none = (db, none) ∧
    SetError db id errorMsg none = (db, none) ∧
    UpdateSessionWindow db id start end_ status none = (db, none) ∧
    (∀ err, SetRateLimited db id resetAt now (some err) = (db, some err) ∧
      SetOverloaded db id overloadUntil (some err) = (db, some err) ∧
      ClearRateLimit db id (some err) = (db, some err) ∧
      SetSchedulable db id schedulable (some err) = (db, some err) ∧
      SetError db id errorMsg (some err) = (db, some err) ∧
      UpdateSessionWindow db id start end_ status (some err) = (db, some err)) :=
  ⟨Updates_missing db id _ hmissing, Updates_missing db id _ hmissing,
   Updates_missing db id _ hmissing, Updates_missing db id _ hmissing,
   Updates_missing db id _ hmissing, Updates_missing db id _ hmissing,
   fun _ => ⟨rfl, rfl, rfl, rfl, rfl, rfl⟩⟩

/-- Witness of C19: the id 99 on the store that holds the accounts 1 and 3. -/
theorem C19_missing_id_reports_success_witness :
    (∀ a ∈ gatedStore.accounts, a.ID = 99 → a.DeletedAt ≠ none) ∧
    SetError gatedStore 99 "expired" none = (gatedStore, none) :=
  ⟨by simp [gatedStore, accountA, accountG],
   (C19_missing_id_reports_success gatedStore 99
      (by simp [gatedStore, accountA, accountG]) 7200 100 7200 false "expired" "active"
      (some 10) (some 20)).2.2.2.2.1⟩

/-- Claim C20: an empty selection is no error.  For each of the six ListSchedulable
queries, when its statement runs and no stored, not soft deleted account in the
scope of the query is eligible at now, the query returns the empty list and a nil
error.  ListSchedulableByPlatforms and ListSchedulableByGroupIDAndPlatforms called
with an empty platform list return the empty list and a nil error without running a
statement (so whatever the store would report), which is also what their statement
selects for the empty list. -/
theorem C20_empty_selection_is_not_an_error (db : DB) (now : Time) (groupID : Int)
    (platform : String) (platforms : List String) :
    ((∀ a ∈ db.accounts, a.DeletedAt = none → ¬ isEligible a now) →
      ListSchedulable db now none = Except.ok []) ∧
    ((∀ a ∈ db.accounts, a.DeletedAt = none → inGroup db a groupID → ¬ isEligible a now) →
      ListSchedulableByGroupID db now groupID none = Except.ok []) ∧
    ((∀ a ∈ db.accounts, a.DeletedAt = none → a.Platform = platform →
        ¬ isEligible a now) →
      ListSchedulableByPlatform db now platform none = Except.ok []) ∧
    ((∀ a ∈ db.accounts, a.DeletedAt = none → inGroup db a groupID →
        a.Platform = platform → ¬ isEligible a now) →
      ListSchedulableByGroupIDAndPlatform db now groupID platform none = Except.ok []) ∧
    ((∀ a ∈ db.accounts, a.DeletedAt = none → a.Platform ∈ platforms →
        ¬ isEligible a now) →
      ListSchedulableByPlatforms db now platforms none = Except.ok []) ∧
    ((∀ a ∈ db.accounts, a.DeletedAt = none → inGroup db a groupID →
        a.Platform ∈ platforms → ¬ isEligible a now) →
      ListSchedulableByGroupIDAndPlatforms db now groupID platforms none = Except.ok []) ∧
    (∀ fault, ListSchedulableByPlatforms db now [] fault = Except.ok [] ∧
      ListSchedulableByGroupIDAndPlatforms db now groupID [] fault = Except.ok []) ∧
    Find none (orderBy byPriority (db.accounts.filter (fun a =>
      ([] : List String).contains a.Platform && schedulableWhere now a))) = Except.ok [] ∧
    Find none ((orderBy byGroupPriority ((joinAccountGroups db).filter (fun x =>
      x.2.GroupID == groupID && ([] : List String).contains x.1.Platform &&
        schedulableWhere now x.1))).map Prod.fst) = Except.ok [] := by
  refine ⟨?_, ?_, ?_, ?_, ?_, ?_, fun fault => ⟨rfl, rfl⟩, ?_, ?_⟩
  · intro h
    exact ok_nil_of_no_member _ _ (mem_ListSchedulable db now)
      (fun a ha => h a ha.1.1 ha.1.2 ha.2)
  · intro h
    exact ok_nil_of_no_member _ _ (mem_ListSchedulableByGroupID db now groupID)
      (fun a ha => h a ha.1.1 ha.1.2.1 ha.1.2.2 ha.2)
  · intro h
    exact ok_nil_of_no_member _ _ (mem_ListSchedulableByPlatform db now platform)
      (fun a ha => h a ha.1.1 ha.1.2.1 ha.1.2.2 ha.2)
  · intro h
    exact ok_nil_of_no_member _ _
      (mem_ListSchedulableByGroupIDAndPlatform db now groupID platform)
      (fun a ha => h a ha.1.1 ha.1.2.1 ha.1.2.2.1 ha.1.2.2.2 ha.2)
  · intro h
    exact ok_nil_of_no_member _ _ (mem_ListSchedulableByPlatforms db now platforms)
      (fun a ha => h a ha.1.1 ha.1.2.1 ha.1.2.2 ha.2)
  · intro h
    exact ok_nil_of_no_member _ _
      (mem_ListSchedulableByGroupIDAndPlatforms db now groupID platforms)
      (fun a ha => h a ha.1.1 ha.1.2.1 ha.1.2.2.1 ha.1.2.2.2 ha.2)
  · have hnil : db.accounts.filter (fun a =>
        ([] : List String).contains a.Platform && schedulableWhere now a) = [] := by
      rw [List.filter_eq_nil_iff]
      intro a _
      simp
    rw [hnil]
    rfl
  · have hnil : (joinAccountGroups db).filter (fun x =>
        x.2.GroupID == groupID && ([] : List String).contains x.1.Platform &&
          schedulableWhere now x.1) = [] := by
      rw [List.filter_eq_nil_iff]
      intro x _
      simp
    rw [hnil]
    rfl

/-- Witness of C20: the store holds account B alone, overloaded until 3600; at time 0
ListSchedulable returns the empty list and no error. -/
theorem C20_empty_selection_is_not_an_error_witness :
    ListSchedulable ⟨[accountB 0], []⟩ 0 none = Except.ok [] :=
  (C20_empty_selection_is_not_an_error ⟨[accountB 0], []⟩ 0 7 "claude" ["claude"]).1
    (by
      intro a ha _ he
      have hab : a = accountB 0 := List.mem_singleton.mp ha
      subst hab
      rcases he.2.2.1 with h | ⟨u, hu, hle⟩
      · exact Option.noConfusion h
      · have h3600 : (0 : Int) + 3600 = u := Option.some.inj hu
        subst h3600
        exact absurd hle (by decide))

/-- Claim C21: the gate mutations are idempotent overwrites.  For every store, id
and arguments, SetOverloaded(id, until), ClearRateLimit(id), SetSchedulable(id, b)
and SetError(id, msg) called twice in a row leave the store, and return the error, of
one call; so does SetRateLimited(id, resetAt) when both calls read the same current
time.  When the two calls of SetRateLimited read different times the store is the
one the second call alone leaves. -/
theorem C21_gate_mutations_are_idempotent (db : DB) (id : Int) (resetAt now now2 : Time)
    (overloadUntil : Time) (schedulable : Bool) (errorMsg : String)
    (fault : Option DbError) :
    SetOverloaded (SetOverloaded db id overloadUntil fault).1 id overloadUntil fault
      = SetOverloaded db id overloadUntil fault ∧
    ClearRateLimit (ClearRateLimit db id fault).1 id fault = ClearRateLimit db id fault ∧
    SetSchedulable (SetSchedulable db id schedulable fault).1 id schedulable fault
      = SetSchedulable db id schedulable fault ∧
    SetError (SetError db id errorMsg fault).1 id errorMsg fault
      = SetError db id errorMsg fault ∧
    SetRateLimited (SetRateLimited db id resetAt now fault).1 id resetAt now fault
      = SetRateLimited db id resetAt now fault ∧
    SetRateLimited (SetRateLimited db id resetAt now none).1 id resetAt now2 none
      = SetRateLimited db id resetAt now2 none :=
  ⟨Updates_idem db id _ fault (fun _ => ⟨rfl, rfl⟩) (fun _ => rfl),
   Updates_idem db id _ fault (fun _ => ⟨rfl, rfl⟩) (fun _ => rfl),
   Updates_idem db id _ fault (fun _ => ⟨rfl, rfl⟩) (fun _ => rfl),
   Updates_idem db id _ fault (fun _ => ⟨rfl, rfl⟩) (fun _ => rfl),
   Updates_idem db id _ fault (fun _ => ⟨rfl, rfl⟩) (fun _ => rfl),
   Updates_overwrite db id _ _ (fun _ => ⟨rfl, rfl⟩) (fun _ => rfl)⟩

/-- Claim C22: BatchUpdateLastUsed, given the entries of a map (no key twice), runs
one UPDATE.  When it runs it returns nil and, row by row, either the account is not
soft deleted, its id is a key, and the row is the old row with lastUsedAt set to the
value of that key, or the account is soft deleted or its id is no key and the row is
the old row; no other column and no membership changes.  The result is the same for
every order in which the entries are visited.  A failing statement leaves the store
as it was, and with an empty map no statement is run, the store is as it was and the
call returns nil. -/
theorem C22_batchUpdateLastUsed_writes_map (db : DB) (updates : List (Int × Time))
    (hnodup : (updates.map Prod.fst).Nodup) :
    (∀ fault, BatchUpdateLastUsed db [] fault = (db, none)) ∧
    (∀ err, updates ≠ [] → BatchUpdateLastUsed db updates (some err) = (db, some err)) ∧
    (BatchUpdateLastUsed db updates none).2 = none ∧
    (BatchUpdateLastUsed db updates none).1.account_groups = db.account_groups ∧
    List.Forall₂ (fun a a' =>
        (a.DeletedAt = none ∧ ∃ ts, (a.ID, ts) ∈ updates ∧
          a' = { a with LastUsedAt := some ts }) ∨
        ((a.DeletedAt ≠ none ∨ a.ID ∉ updates.map Prod.fst) ∧ a' = a))
      db.accounts (BatchUpdateLastUsed db updates none).1.accounts ∧
    (∀ updates2 fault, updates.Perm updates2 →
      BatchUpdateLastUsed db updates2 fault = BatchUpdateLastUsed db updates fault) := by
  refine ⟨fun _ => rfl, ?_, ?_, ?_, BatchUpdateLastUsed_rows db updates hnodup, ?_⟩
  · intro err hne
    have hlen : ¬ updates.length = 0 := fun h => hne (List.length_eq_zero.mp h)
    simp [BatchUpdateLastUsed, hlen]
  · unfold BatchUpdateLastUsed
    split <;> rfl
  · unfold BatchUpdateLastUsed
    split <;> rfl
  · intro updates2 fault hperm
    exact BatchUpdateLastUsed_perm db updates updates2 hnodup hperm fault

/-- Witness of C22: the map with the entries 3 -> 500 and 1 -> 600 on the store with
the accounts 1 and 3: both rows get their value, in either order of the entries. -/
theorem C22_batchUpdateLastUsed_writes_map_witness :
    (([(3, 500), (1, 600)] : List (Int × Time)).map Prod.fst).Nodup ∧
    BatchUpdateLastUsed gatedStore [(1, 600), (3, 500)] none
      = BatchUpdateLastUsed gatedStore [(3, 500), (1, 600)] none ∧
    (BatchUpdateLastUsed gatedStore [(3, 500), (1, 600)] none).1.accounts
      = [{ accountA with LastUsedAt := some 600 }, { accountG with LastUsedAt := some 500 }] :=
  ⟨by decide,
   (C22_batchUpdateLastUsed_writes_map gatedStore [(3, 500), (1, 600)] (by decide)).2.2.2.2.2
     [(1, 600), (3, 500)] none (List.Perm.swap _ _ _),
   rfl⟩

/-- Claim C27: when its statement runs, UpdateSessionWindow(id, start, end, status)
returns nil and rewrites exactly the rows of account id that are not soft deleted:
on each of them sessionWindowStatus becomes status, whatever it was, sessionWindowStart
becomes start when start is not nil and keeps the stored value when it is nil,
sessionWindowEnd does the same with end, and every other column is as before; every
other row and the memberships are as before.  Hence no call, failing or not, turns a
stored non-nil sessionWindowStart or sessionWindowEnd into nil. -/
theorem C27_updateSessionWindow_keeps_on_nil (db : DB) (id : Int) (start end_ : Option Time)
    (status : String) :
    (UpdateSessionWindow db id start end_ status none).2 = none ∧
    (UpdateSessionWindow db id start end_ status none).1.account_groups
      = db.account_groups ∧
    List.Forall₂ (fun a a' =>
        (a.ID = id ∧ a.DeletedAt = none →
          eraseSessionWindow a' = eraseSessionWindow a ∧
          a'.SessionWindowStatus = status ∧
          (start = none → a'.SessionWindowStart = a.SessionWindowStart) ∧
          (∀ s, start = some s → a'.SessionWindowStart = some s) ∧
          (end_ = none → a'.SessionWindowEnd = a.SessionWindowEnd) ∧
          (∀ e, end_ = some e → a'.SessionWindowEnd = some e)) ∧
        (¬ (a.ID = id ∧ a.DeletedAt = none) → a' = a))
      db.accounts (UpdateSessionWindow db id start end_ status none).1.accounts ∧
    (∀ a' ∈ (UpdateSessionWindow db id start end_ status none).1.accounts,
      a'.ID = id → a'.DeletedAt = none → a'.SessionWindowStatus = status) ∧
    (∀ fault, List.Forall₂ (fun a a' =>
        (a.SessionWindowStart ≠ none → a'.SessionWindowStart ≠ none) ∧
        (a.SessionWindowEnd ≠ none → a'.SessionWindowEnd ≠ none))
      db.accounts (UpdateSessionWindow db id start end_ status fault).1.accounts) := by
  refine ⟨rfl, rfl, ?_, ?_, ?_⟩
  · refine (Updates_rows_exact db id _).imp ?_
    intro a a' h
    constructor
    · intro hc
      rw [h.1 hc]
      exact ⟨sessionWindowSet_erase start end_ status a,
        sessionWindowSet_columns start end_ status a⟩
    · exact h.2
  · intro a' ha' hid hlive
    obtain ⟨a, _, _, _, rfl⟩ := Updates_live_row db id _ a' ha' hid hlive
    exact (sessionWindowSet_columns start end_ status a).1
  · intro fault
    cases fault with
    | some err => exact List.forall₂_same.mpr (fun _ _ => ⟨fun h => h, fun h => h⟩)
    | none =>
      refine (Updates_rows db id _).imp ?_
      intro a a' h
      rcases h with rfl | ⟨_, _, rfl⟩
      · exact ⟨fun h => h, fun h => h⟩
      · have hc := sessionWindowSet_columns start end_ status a
        constructor
        · intro hs
          cases start with
          | none => rw [hc.2.1 rfl]; exact hs
          | some s => rw [hc.2.2.1 s rfl]; exact Option.some_ne_none s
        · intro he
          cases end_ with
          | none => rw [hc.2.2.2.1 rfl]; exact he
          | some e => rw [hc.2.2.2.2 e rfl]; exact Option.some_ne_none e

/-- Claim C28: in a store where every account has rateLimitResetAt non-nil iff
rateLimitedAt non-nil, at every time now an account is counted by the CASE of
ratelimit_accounts exactly when it fails the rate-limit condition of the
ListSchedulable queries, and by the CASE of overload_accounts exactly when it fails
their overload condition; so RateLimitAccounts and OverloadAccounts are the numbers
of accounts, not soft deleted, that fail the one and the other condition.  Without
the pair invariant the first agreement is lost: an account with rateLimitResetAt set
after now and rateLimitedAt nil fails the rate-limit condition and is not counted. -/
theorem C28_dashboard_counters_match_filter (db : DB) (hinv : pairInvariant db)
    (now : Time) :
    (∀ a ∈ db.accounts,
      (countedRateLimited a now = true ↔ nullOrLe a.RateLimitResetAt now = false) ∧
      (countedOverloaded a now = true ↔ nullOrLe a.OverloadUntil now = false)) ∧
    (∃ stats, dashboardAccountStats db now none = Except.ok stats ∧
      stats.RateLimitAccounts = ((db.accounts.filter notDeleted).filter
        (fun a => !nullOrLe a.RateLimitResetAt now)).length ∧
      stats.OverloadAccounts = ((db.accounts.filter notDeleted).filter
        (fun a => !nullOrLe a.OverloadUntil now)).length) ∧
    (∃ a : accountModel, a.DeletedAt = none ∧ a.RateLimitedAt = none ∧
      a.RateLimitResetAt = some (now + 1) ∧
      nullOrLe a.RateLimitResetAt now = false ∧ countedRateLimited a now = false) := by
  refine ⟨?_, ⟨_, rfl, ?_, ?_⟩, ?_⟩
  · intro a ha
    rw [countedRateLimited_iff a now (hinv a ha), countedOverloaded_iff a now]
    cases nullOrLe a.RateLimitResetAt now <;> cases nullOrLe a.OverloadUntil now <;> simp
  · simp only
    congr 2
    apply List.filter_congr
    intro a ha
    exact countedRateLimited_iff a now (hinv a (List.mem_filter.mp ha).1)
  · simp only
    congr 2
    apply List.filter_congr
    intro a _
    exact countedOverloaded_iff a now
  · refine ⟨{ accountA with RateLimitResetAt := some (now + 1) }, rfl, rfl, rfl, ?_, ?_⟩
    · simp [nullOrLe]
    · simp [countedRateLimited, notNullAndGt, accountA]

/-- Witness of C28: the store with account G, whose pair is (5, 900) and whose
overloadUntil is 800, at time 850: G is counted as rate limited and not as
overloaded, as the filter conditions say. -/
theorem C28_dashboard_counters_match_filter_witness :
    pairInvariant gatedStore ∧
    (countedRateLimited accountG 850 = true ↔ nullOrLe accountG.RateLimitResetAt 850 = false) ∧
    (countedOverloaded accountG 850 = true ↔ nullOrLe accountG.OverloadUntil 850 = false) :=
  ⟨by simp [pairInvariant, gatedStore, accountA, accountG],
   (C28_dashboard_counters_match_filter gatedStore
      (by simp [pairInvariant, gatedStore, accountA, accountG]) 850).1 accountG
      (by simp [gatedStore])⟩

/-- Claim C26: when its statement runs, getPerformanceStats returns
rpm = n / 5 and tpm = s / 5 (integer division), where n is the number of usage logs
with created_at at or after now minus five minutes (300 seconds) and s is the sum of
input_tokens + output_tokens over those logs; the logs are those of userID when
userID > 0 and those of all users when userID <= 0.  So five times rpm is at most n
and n is less than five times rpm plus five.  GetDashboardStats reports the values
over all users and GetUserDashboardStats the values for its userID as Rpm and Tpm. -/
theorem C26_performance_is_five_minute_average (logs : List usageLogModel) (now : Time)
    (userID : Int) :
    (0 < userID →
      getPerformanceStats logs now userID none =
        (Int.tdiv ((logs.filter (fun l =>
            decide (now - 300 ≤ l.CreatedAt ∧ l.UserID = userID))).length : Int) 5,
         Int.tdiv (((logs.filter (fun l =>
            decide (now - 300 ≤ l.CreatedAt ∧ l.UserID = userID))).map
              (fun l => l.InputTokens + l.OutputTokens)).sum) 5)) ∧
    (userID ≤ 0 →
      getPerformanceStats logs now userID none =
        (Int.tdiv ((logs.filter (fun l => decide (now - 300 ≤ l.CreatedAt))).length : Int) 5,
         Int.tdiv (((logs.filter (fun l => decide (now - 300 ≤ l.CreatedAt))).map
              (fun l => l.InputTokens + l.OutputTokens)).sum) 5)) ∧
    (5 * (getPerformanceStats logs now 0 none).1
        ≤ ((logs.filter (fun l => decide (now - 300 ≤ l.CreatedAt))).length : Int) ∧
      ((logs.filter (fun l => decide (now - 300 ≤ l.CreatedAt))).length : Int)
        < 5 * (getPerformanceStats logs now 0 none).1 + 5) ∧
    dashboardRpmTpm logs now none = getPerformanceStats logs now 0 none ∧
    userDashboardRpmTpm logs now userID none = getPerformanceStats logs now userID none := by
  have hwin : ∀ l : usageLogModel,
      decide (l.CreatedAt ≥ now + (-5) * Minute) = decide (now - 300 ≤ l.CreatedAt) := by
    intro l
    have h : now + (-5) * Minute = now - 300 := by
      unfold Minute
      ring
    rw [h]
  have hfilter : logs.filter (fun l => decide (l.CreatedAt ≥ now + (-5) * Minute))
      = logs.filter (fun l => decide (now - 300 ≤ l.CreatedAt)) :=
    List.filter_congr (fun l _ => hwin l)
  have hall : ∀ u : Int, u ≤ 0 →
      getPerformanceStats logs now u none =
        (Int.tdiv ((logs.filter (fun l => decide (now - 300 ≤ l.CreatedAt))).length : Int) 5,
         Int.tdiv (((logs.filter (fun l => decide (now - 300 ≤ l.CreatedAt))).map
              (fun l => l.InputTokens + l.OutputTokens)).sum) 5) := by
    intro u hu
    simp only [getPerformanceStats, hfilter, if_neg (not_lt.mpr hu)]
  refine ⟨?_, hall userID, ?_, rfl, rfl⟩
  · intro hu
    simp only [getPerformanceStats, hfilter, if_pos hu, List.filter_filter]
    have hboth : logs.filter (fun l => (l.UserID == userID) && decide (now - 300 ≤ l.CreatedAt))
        = logs.filter (fun l => decide (now - 300 ≤ l.CreatedAt ∧ l.UserID = userID)) := by
      apply List.filter_congr
      intro l _
      by_cases h1 : now - 300 ≤ l.CreatedAt <;> by_cases h2 : l.UserID = userID <;>
        simp [h1, h2]
    rw [hboth]
  · rw [hall 0 (le_refl 0)]
    simp only
    have hn : (0 : Int) ≤ ((logs.filter (fun l => decide (now - 300 ≤ l.CreatedAt))).length : Int) :=
      Int.ofNat_nonneg _
    rw [Int.tdiv_eq_ediv hn (by decide)]
    omega

/-- Witness of C26: seven logs of 123 tokens in the last five minutes and one older
log give rpm 1 and tpm 172 over all users. -/
theorem C26_performance_is_five_minute_average_witness :
    getPerformanceStats
      [sampleLog 1 4 1000, sampleLog 2 4 990, sampleLog 3 4 980, sampleLog 4 5 970,
       sampleLog 5 5 960, sampleLog 6 5 950, sampleLog 7 5 701, sampleLog 8 4 699]
      1000 0 none = (1, 172) :=
  ((C26_performance_is_five_minute_average
      [sampleLog 1 4 1000, sampleLog 2 4 990, sampleLog 3 4 980, sampleLog 4 5 970,
       sampleLog 5 5 960, sampleLog 6 5 950, sampleLog 7 5 701, sampleLog 8 4 699]
      1000 0).2.1 (le_refl 0)).trans (by decide)

/-- Claim C25: when both its statements run, ListActiveWithAccountCount returns one
entry for each row of table proxies that is not soft deleted and has status active,
and no other entry (the list of returned proxies is a rearrangement of the converted
selected rows, so with distinct proxy ids no id is returned twice); the entries are
in descending order of creation time; and AccountCount of each entry is the number
of accounts, not soft deleted, whose proxy_id is the id of the proxy, which is 0
when no such account exists.  A failure of either statement is returned. -/
theorem C25_active_proxies_with_counts (proxies : List proxyModel) (db : DB) :
    (∃ res, ListActiveWithAccountCount proxies db none none = Except.ok res ∧
      (res.map (fun x => some x.Proxy)).Perm
        ((proxies.filter (fun p => decide (p.DeletedAt = none ∧ p.Status = StatusActive))).map
          (fun p => proxyModelToService (some p))) ∧
      ((proxies.map proxyModel.ID).Nodup → (res.map (fun x => x.Proxy.ID)).Nodup) ∧
      res.Pairwise (fun x y => y.Proxy.CreatedAt ≤ x.Proxy.CreatedAt) ∧
      (∀ x ∈ res, x.AccountCount = accountsUsing db x.Proxy.ID ∧
        ((∀ a ∈ db.accounts, a.DeletedAt = none → a.ProxyID ≠ some x.Proxy.ID) →
          x.AccountCount = 0))) ∧
    (∀ err countsFault,
      ListActiveWithAccountCount proxies db (some err) countsFault = Except.error err) ∧
    (∀ err, ListActiveWithAccountCount proxies db none (some err) = Except.error err) := by
  refine ⟨?_, fun _ _ => rfl, fun _ => rfl⟩
  obtain ⟨counts, hcounts, hres⟩ := ListActiveWithAccountCount_ok proxies db
  have hindex : ∀ k, mapIndex counts k = accountsUsing db k := by
    intro k
    obtain ⟨counts', hcounts', hk⟩ := counts_index db k
    rw [hcounts] at hcounts'
    rw [Except.ok.inj hcounts']
    exact hk
  have hsel : proxies.filter (fun p => p.DeletedAt.isNone && p.Status == StatusActive)
      = proxies.filter (fun p => decide (p.DeletedAt = none ∧ p.Status = StatusActive)) := by
    apply List.filter_congr
    intro p _
    cases hd : p.DeletedAt <;> by_cases hs : p.Status = StatusActive <;> simp [hs]
  rw [hsel] at hres
  have hperm : (orderBy byCreatedAtDesc (proxies.filter (fun p =>
      decide (p.DeletedAt = none ∧ p.Status = StatusActive)))).Perm
      (proxies.filter (fun p => decide (p.DeletedAt = none ∧ p.Status = StatusActive))) :=
    List.perm_insertionSort _ _
  refine ⟨_, hres, ?_, ?_, ?_, ?_⟩
  · rw [List.map_map]
    exact hperm.map _
  · intro hnodup
    rw [List.map_map]
    have hsub : List.Sublist
        ((proxies.filter (fun p => decide (p.DeletedAt = none ∧ p.Status = StatusActive))).map
          proxyModel.ID) (proxies.map proxyModel.ID) :=
      (List.filter_sublist _).map _
    exact ((hperm.map proxyModel.ID).nodup_iff).mpr (hnodup.sublist hsub)
  · rw [List.pairwise_map]
    have hsorted := @List.sorted_insertionSort _ (fun p q => byCreatedAtDesc p q = true) _
      ⟨byCreatedAtDesc_total⟩ ⟨byCreatedAtDesc_trans⟩
      (proxies.filter (fun p => decide (p.DeletedAt = none ∧ p.Status = StatusActive)))
    refine List.Pairwise.imp ?_ hsorted
    intro p q hpq
    simpa [byCreatedAtDesc] using hpq
  · intro x hx
    obtain ⟨row, _, rfl⟩ := List.mem_map.mp hx
    have hcount : (withAccountCount counts row).AccountCount
        = accountsUsing db (withAccountCount counts row).Proxy.ID := hindex row.ID
    refine ⟨hcount, ?_⟩
    intro hnone
    rw [hcount]
    unfold accountsUsing
    have hnil : db.accounts.filter (fun a => decide (a.DeletedAt = none ∧
        a.ProxyID = some (withAccountCount counts row).Proxy.ID)) = [] := by
      rw [List.filter_eq_nil_iff]
      intro a ha hc
      have hc' : a.DeletedAt = none ∧ a.ProxyID = some (withAccountCount counts row).Proxy.ID := by
        simpa using hc
      exact hnone a ha hc'.1 hc'.2
    rw [hnil]
    rfl

/-- Counterexample to C30 as stated: a history of two days with 2^63 - 1 and 1
tokens, both int64 values; the exact sum of Tokens is 2^63, the summary has
TotalTokens = -2^63. -/
theorem C30_counterexample :
    (∀ h ∈ overflowHistory, inInt64 h.Requests ∧ inInt64 h.Tokens) ∧
    (overflowHistory.map (fun h => h.Tokens)).sum = 9223372036854775808 ∧
    (accountUsageSummary overflowHistory 2 0 "2025-01-02").TotalTokens
      = -9223372036854775808 ∧
    (accountUsageSummary overflowHistory 2 0 "2025-01-02").TotalTokens
      ≠ (overflowHistory.map (fun h => h.Tokens)).sum := by
  have hsum : (overflowHistory.map (fun h => h.Tokens)).sum = 9223372036854775808 := by
    simp [overflowHistory]
  have htot : (accountUsageSummary overflowHistory 2 0 "2025-01-02").TotalTokens
      = -9223372036854775808 := by
    simp [accountUsageSummary, usageLoop, usageStep, overflowHistory, wrapInt64]
  refine ⟨?_, hsum, htot, ?_⟩
  · intro h hh
    simp only [overflowHistory, List.mem_cons, List.mem_singleton, List.not_mem_nil,
      or_false] at hh
    rcases hh with rfl | rfl <;> simp [inInt64]
  · rw [htot, hsum]
    decide

/-- Claim C30, amended: for every history list, the summary GetAccountUsageStats
computes has TotalRequests and TotalTokens equal to the sums of Requests and of
Tokens over the history as int64 arithmetic gives them, that is reduced modulo 2^64
into the int64 range; they are the exact sums whenever those lie in the int64 range.
HighestRequestDay is absent exactly when the history is empty, and otherwise holds
the date, label, cost and requests of the first entry whose Requests is maximal
(every earlier entry has fewer requests, every later entry at most as many);
ActualDaysUsed is the length of the history, and 1 for an empty history, so it is at
least 1 and the three averages per day divide by it, never by zero. -/
theorem C30_usage_summary_totals_and_highest (history : List AccountUsageHistory)
    (daysCount : Int) (avgDurationMs : Float) (todayStr : String) :
    (accountUsageSummary history daysCount avgDurationMs todayStr).TotalRequests
      = wrapInt64 (history.map (fun h => h.Requests)).sum ∧
    (accountUsageSummary history daysCount avgDurationMs todayStr).TotalTokens
      = wrapInt64 (history.map (fun h => h.Tokens)).sum ∧
    (inInt64 (history.map (fun h => h.Requests)).sum →
      (accountUsageSummary history daysCount avgDurationMs todayStr).TotalRequests
        = (history.map (fun h => h.Requests)).sum) ∧
    (inInt64 (history.map (fun h => h.Tokens)).sum →
      (accountUsageSummary history daysCount avgDurationMs todayStr).TotalTokens
        = (history.map (fun h => h.Tokens)).sum) ∧
    ((accountUsageSummary history daysCount avgDurationMs todayStr).HighestRequestDay = none
      ↔ history = []) ∧
    (∀ day, (accountUsageSummary history daysCount avgDurationMs todayStr).HighestRequestDay
        = some day →
      ∃ d, firstMaxRequests history d ∧
        day = { Date := d.Date, Label := d.Label, Cost := d.ActualCost,
                Requests := d.Requests }) ∧
    (history = [] →
      (accountUsageSummary history daysCount avgDurationMs todayStr).ActualDaysUsed = 1) ∧
    (history ≠ [] →
      (accountUsageSummary history daysCount avgDurationMs todayStr).ActualDaysUsed
        = history.length) ∧
    1 ≤ (accountUsageSummary history daysCount avgDurationMs todayStr).ActualDaysUsed ∧
    (accountUsageSummary history daysCount avgDurationMs todayStr).AvgDailyRequests
      = Float.ofInt (accountUsageSummary history daysCount avgDurationMs todayStr).TotalRequests
        / Float.ofInt
          (accountUsageSummary history daysCount avgDurationMs todayStr).ActualDaysUsed ∧
    (accountUsageSummary history daysCount avgDurationMs todayStr).AvgDailyTokens
      = Float.ofInt (accountUsageSummary history daysCount avgDurationMs todayStr).TotalTokens
        / Float.ofInt
          (accountUsageSummary history daysCount avgDurationMs todayStr).ActualDaysUsed ∧
    (accountUsageSummary history daysCount avgDurationMs todayStr).AvgDailyCost
      = (accountUsageSummary history daysCount avgDurationMs todayStr).TotalCost
        / Float.ofInt
          (accountUsageSummary history daysCount avgDurationMs todayStr).ActualDaysUsed := by
  have htot := usageLoop_totals history
    { totalActualCost := 0, totalStandardCost := 0, totalRequests := 0, totalTokens := 0,
      highestCostDay := none, highestRequestDay := none } rfl rfl
  have hhigh := usageLoop_highest history []
    { totalActualCost := 0, totalStandardCost := 0, totalRequests := 0, totalTokens := 0,
      highestCostDay := none, highestRequestDay := none }
    (fun _ => rfl) (fun d hd => Option.noConfusion hd)
  rw [List.nil_append] at hhigh
  have hreq : (accountUsageSummary history daysCount avgDurationMs todayStr).TotalRequests
      = wrapInt64 (history.map (fun h => h.Requests)).sum := by
    simp only [accountUsageSummary, usageLoop]
    rw [htot.1, zero_add]
  have htok : (accountUsageSummary history daysCount avgDurationMs todayStr).TotalTokens
      = wrapInt64 (history.map (fun h => h.Tokens)).sum := by
    simp only [accountUsageSummary, usageLoop]
    rw [htot.2, zero_add]
  refine ⟨hreq, htok, ?_, ?_, ?_, ?_, ?_, ?_, ?_, rfl, rfl, rfl⟩
  · intro hin
    rw [hreq, wrapInt64_of_inInt64 _ hin]
  · intro hin
    rw [htok, wrapInt64_of_inInt64 _ hin]
  · simp only [accountUsageSummary, usageLoop, Option.map_eq_none']
    constructor
    · exact hhigh.1
    · intro hnil
      rw [hnil]
      rfl
  · intro day hday
    simp only [accountUsageSummary, usageLoop, Option.map_eq_some'] at hday
    obtain ⟨d, hd, hdd⟩ := hday
    exact ⟨d, hhigh.2 d hd, hdd.symm⟩
  · intro hnil
    rw [hnil]
    rfl
  · intro hne
    have hlen : ¬ history.length = 0 := fun h => hne (List.length_eq_zero.mp h)
    simp only [accountUsageSummary, if_neg hlen]
  · simp only [accountUsageSummary]
    split
    · exact le_refl 1
    · rename_i hlen
      have : 0 < history.length := Nat.pos_of_ne_zero hlen
      omega

/-- Claim C29: for every service account a that is not nil,
accountModelToService(accountModelFromService(a)) is an account, not nil, with the
plain fields of a (ID, Name, Platform, Type, Credentials, Extra, ProxyID,
Concurrency, Priority, Status, ErrorMessage, LastUsedAt, CreatedAt, UpdatedAt,
Schedulable, RateLimitedAt, RateLimitResetAt, OverloadUntil, SessionWindowStart,
SessionWindowEnd, SessionWindowStatus) and with nil Proxy, AccountGroups, GroupIDs
and Groups, whatever associations a carries; and both converters map nil to nil. -/
theorem C29_conversion_round_trip (a : Account) :
    accountModelToService (accountModelFromService (some a))
      = some (Account.mk a.fields none none none none) ∧
    accountModelToService none = none ∧ accountModelFromService none = none := by
  refine ⟨?_, rfl, rfl⟩
  cases a with
  | mk f proxy accountGroups groupIDs groups =>
    simp [accountModelFromService, accountModelToService, accountRecordToService,
      rowFromService, proxyModelToService, Account.fields]

/-- Witness of C29: a service account with a proxy, a group membership, group ids
and groups comes back from the two converters with its plain fields and no
association. -/
theorem C29_conversion_round_trip_witness :
    accountModelToService (accountModelFromService (some sampleAccount))
      = some (Account.mk sampleAccount.fields none none none none) :=
  (C29_conversion_round_trip sampleAccount).1

/-- Counterexample to C23 as stated: the stored account 3 has rateLimitedAt 5,
rateLimitResetAt 900, overloadUntil 800 and schedulable true; Update called with a
record of id 3 that carries no gate and schedulable false returns nil and leaves the
stored account with nil gates and schedulable false. -/
theorem C23_counterexample :
    accountG ∈ gatedStore.accounts ∧
    accountG.RateLimitedAt = some 5 ∧ accountG.RateLimitResetAt = some 900 ∧
    accountG.OverloadUntil = some 800 ∧ accountG.Schedulable = true ∧
    (Update gatedStore staleAccount 0 none).2.2 = none ∧
    (Update gatedStore staleAccount 0 none).1.accounts
      = [accountA, { accountG with RateLimitedAt := none, RateLimitResetAt := none,
                                   OverloadUntil := none, Schedulable := false }] := by
  refine ⟨by simp [gatedStore], rfl, rfl, rfl, rfl, rfl, rfl⟩

/-- Claim C23, amended: Update(account) saves the full record.  For an account with
a non-zero id that a stored row, not soft deleted, holds, when the statement runs
Update returns nil and replaces every column of that row by the value its argument
carries, rateLimitedAt, rateLimitResetAt, overloadUntil, sessionWindowStart,
sessionWindowEnd, sessionWindowStatus, schedulable and lastUsedAt included; these
stored fields are the same before and after only when the argument carries the
stored values.  The other accounts and the memberships are as before, and a failing
statement leaves the store as it was. -/
theorem C23_update_overwrites_scheduling_fields (db : DB) (account : Account) (newID : Int)
    (hid : account.fields.ID ≠ 0)
    (hstored : ∃ r ∈ db.accounts, r.ID = account.fields.ID ∧ r.DeletedAt = none) :
    (Update db account newID none).2.2 = none ∧
    (Update db account newID none).1.account_groups = db.account_groups ∧
    List.Forall₂ (fun r r' =>
        (r.ID = account.fields.ID ∧ r.DeletedAt = none ∧
          r' = rowFromService account.fields) ∨
        (¬ (r.ID = account.fields.ID ∧ r.DeletedAt = none) ∧ r' = r))
      db.accounts (Update db account newID none).1.accounts ∧
    (∀ r' ∈ (Update db account newID none).1.accounts,
      r'.ID = account.fields.ID → r'.DeletedAt = none →
        r'.RateLimitedAt = account.fields.RateLimitedAt ∧
        r'.RateLimitResetAt = account.fields.RateLimitResetAt ∧
        r'.OverloadUntil = account.fields.OverloadUntil ∧
        r'.SessionWindowStart = account.fields.SessionWindowStart ∧
        r'.SessionWindowEnd = account.fields.SessionWindowEnd ∧
        r'.SessionWindowStatus = account.fields.SessionWindowStatus ∧
        r'.Schedulable = account.fields.Schedulable ∧
        r'.LastUsedAt = account.fields.LastUsedAt) ∧
    (∀ err, Update db account newID (some err) = (db, account, some err)) := by
  have hsave := Save_stored db (rowFromService account.fields) newID hid hstored
  have hupd : Update db account newID none =
      ({ db with accounts := db.accounts.map (fun a =>
          if a.ID = account.fields.ID ∧ a.DeletedAt = none then
            rowFromService account.fields else a) },
        applyAccountModelToService account (rowFromService account.fields), none) := by
    rw [Update_eq, hsave]
    rfl
  refine ⟨by rw [hupd], by rw [hupd], ?_, ?_, ?_⟩
  · rw [hupd]
    simp only
    rw [List.forall₂_map_right_iff, List.forall₂_same]
    intro r _
    by_cases hc : r.ID = account.fields.ID ∧ r.DeletedAt = none
    · rw [if_pos hc]
      exact Or.inl ⟨hc.1, hc.2, rfl⟩
    · rw [if_neg hc]
      exact Or.inr ⟨hc, rfl⟩
  · rw [hupd]
    intro r' hr' hrid hrlive
    obtain ⟨r, _, rfl⟩ := List.mem_map.mp hr'
    by_cases hc : r.ID = account.fields.ID ∧ r.DeletedAt = none
    · rw [if_pos hc]
      exact ⟨rfl, rfl, rfl, rfl, rfl, rfl, rfl, rfl⟩
    · rw [if_neg hc] at hrid hrlive
      exact absurd ⟨hrid, hrlive⟩ hc
  · intro err
    rw [Update_eq]
    rfl

/-- Witness of C23: the record of id 3 without gates saved over the stored account
G, whose rateLimitResetAt is 900: the stored value becomes nil. -/
theorem C23_update_overwrites_scheduling_fields_witness :
    staleAccount.fields.ID ≠ 0 ∧
    (∃ r ∈ gatedStore.accounts, r.ID = staleAccount.fields.ID ∧ r.DeletedAt = none) ∧
    (∀ r' ∈ (Update gatedStore staleAccount 0 none).1.accounts,
      r'.ID = staleAccount.fields.ID → r'.DeletedAt = none →
        r'.RateLimitResetAt = none) :=
  ⟨by decide, ⟨accountG, by simp [gatedStore], rfl, rfl⟩,
   fun r' hr' hrid hrlive =>
     ((C23_update_overwrites_scheduling_fields gatedStore staleAccount 0 (by decide)
        ⟨accountG, by simp [gatedStore], rfl, rfl⟩).2.2.2.1 r' hr' hrid hrlive).2.1⟩

/-- Counterexample to C12 as stated: in a store with the accounts 1 and 2 of equal
priority and equal membership priority in group 7, ListSchedulable and
ListSchedulableByGroupID(7) may return account 2 before account 1, and may return
account 1 before account 2: the lower id need not come first, and one store state and
time allow two sequences. -/
theorem C12_counterexample :
    accountT.ID = 2 ∧ accountA.ID = 1 ∧
    equalSortKeys tieStore Query.all accountT accountA ∧
    equalSortKeys tieStore (Query.byGroupID 7) accountT accountA ∧
    mayReturn tieStore 0 Query.all [accountT, accountA] ∧
    mayReturn tieStore 0 Query.all [accountA, accountT] ∧
    mayReturn tieStore 0 (Query.byGroupID 7) [accountT, accountA] ∧
    mayReturn tieStore 0 (Query.byGroupID 7) [accountA, accountT] := by
  have hsel : tieStore.accounts.filter (fun a => schedulableWhere 0 a)
      = [accountT, accountA] := rfl
  have hjoin : (joinAccountGroups tieStore).filter (fun x =>
      x.2.GroupID == 7 && schedulableWhere 0 x.1)
      = [(accountT, ⟨2, 7, 1⟩), (accountA, ⟨1, 7, 1⟩)] := rfl
  refine ⟨rfl, rfl, ⟨rfl, ?_⟩, ⟨rfl, ?_⟩, ?_, ?_, ?_, ?_⟩
  · intro g hg
    exact Option.noConfusion hg
  · intro g _ m1 hm1 m2 hm2 _ _ _ _
    have hall : ∀ m ∈ tieStore.account_groups, m.Priority = 1 := by
      intro m hm
      simp only [tieStore, List.mem_cons, List.mem_singleton, List.not_mem_nil,
        or_false] at hm
      rcases hm with rfl | rfl <;> rfl
    rw [hall m1 hm1, hall m2 hm2]
  · exact ⟨by rw [hsel], by decide⟩
  · exact ⟨by rw [hsel]; exact List.Perm.swap _ _ _, by decide⟩
  · exact ⟨[(accountT, ⟨2, 7, 1⟩), (accountA, ⟨1, 7, 1⟩)],
      ⟨by rw [hjoin], by decide⟩, rfl⟩
  · exact ⟨[(accountA, ⟨1, 7, 1⟩), (accountT, ⟨2, 7, 1⟩)],
      ⟨by rw [hjoin]; exact List.Perm.swap _ _ _, by decide⟩, rfl⟩

/-- Claim C12, amended: the six ListSchedulable queries order by the priorities only
(membership priority then account priority when group-scoped, account priority
otherwise); the account id is no sort key and the order of accounts with equal sort
keys is left to the store.  For every store state, time and call: the list the
embedding computes is one the store may return; any two lists the store may return
hold the same accounts, each as often, with the same sequence of account priorities
and, for a group-scoped call on a table account_groups that respects its primary key,
the same sequence of ranking keys; and exchanging two neighbours with equal sort keys
in a list the store may return gives a list the store may return.  So the result is
fixed by store state and time up to the order of accounts with equal sort keys, and
no further. -/
theorem C12_ties_are_left_to_the_store (db : DB) (now : Time) (q : Query) :
    (∃ res, q.run db now none = Except.ok res ∧ mayReturn db now q res) ∧
    (∀ r1 r2, mayReturn db now q r1 → mayReturn db now q r2 → sameUpToTies db q r1 r2) ∧
    (∀ l1 a b l2, mayReturn db now q (l1 ++ a :: b :: l2) → equalSortKeys db q a b →
      mayReturn db now q (l1 ++ b :: a :: l2)) :=
  ⟨mayReturn_run db now q, mayReturn_unique db now q,
   fun l1 a b l2 h hk => mayReturn_swap db now q l1 l2 a b h hk⟩

/-- Witness of C12: on the store with the accounts 1 and 2 of equal keys, the list
with account 2 first may be returned for group 7, hence so may the list with
account 1 first, and the two have the same sequence of priorities. -/
theorem C12_ties_are_left_to_the_store_witness :
    mayReturn tieStore 0 (Query.byGroupID 7) ([] ++ accountA :: accountT :: []) ∧
    [accountT, accountA].map accountModel.Priority
      = [accountA, accountT].map accountModel.Priority :=
  have hjoin : (joinAccountGroups tieStore).filter (fun x =>
      x.2.GroupID == 7 && schedulableWhere 0 x.1)
      = [(accountT, ⟨2, 7, 1⟩), (accountA, ⟨1, 7, 1⟩)] := rfl
  have hTA : mayReturn tieStore 0 (Query.byGroupID 7) ([] ++ accountT :: accountA :: []) :=
    ⟨[(accountT, ⟨2, 7, 1⟩), (accountA, ⟨1, 7, 1⟩)], ⟨by rw [hjoin], by decide⟩, rfl⟩
  have hkeys : equalSortKeys tieStore (Query.byGroupID 7) accountT accountA :=
    ⟨rfl, fun g _ m1 hm1 m2 hm2 _ _ _ _ => by
      have hall : ∀ m ∈ tieStore.account_groups, m.Priority = 1 := by
        intro m hm
        simp only [tieStore, List.mem_cons, List.mem_singleton, List.not_mem_nil,
          or_false] at hm
        rcases hm with rfl | rfl <;> rfl
      rw [hall m1 hm1, hall m2 hm2]⟩
  have hAT := (C12_ties_are_left_to_the_store tieStore 0 (Query.byGroupID 7)).2.2
    [] accountT accountA [] hTA hkeys
  ⟨hAT, ((C12_ties_are_left_to_the_store tieStore 0 (Query.byGroupID 7)).2.1
    _ _ hTA hAT).2.1⟩

/-- Counterexample to C13 as stated: in a store with three accounts of one priority
and one membership priority in group 7, the accounts 1 and 3 of platform claude and
account 2 of platform gemini, ListSchedulable may return the accounts in the order
3, 2, 1 and ListSchedulableByPlatform(claude) in the order 1, 3, which is not the
first list restricted to platform claude; the same holds of
ListSchedulableByGroupID(7) and ListSchedulableByGroupIDAndPlatform(7, claude). -/
theorem C13_counterexample :
    mayReturn mixedStore 0 Query.all [accountN, accountM, accountA] ∧
    mayReturn mixedStore 0 (Query.byPlatform "claude") [accountA, accountN] ∧
    mayReturn mixedStore 0 (Query.byGroupID 7) [accountN, accountM, accountA] ∧
    mayReturn mixedStore 0 (Query.byGroupIDAndPlatform 7 "claude") [accountA, accountN] ∧
    [accountN, accountM, accountA].filter (fun a => a.Platform == "claude")
      = [accountN, accountA] ∧
    [accountA, accountN]
      ≠ [accountN, accountM, accountA].filter (fun a => a.Platform == "claude") := by
  have hsel : mixedStore.accounts.filter (fun a => schedulableWhere 0 a)
      = [accountA, accountM, accountN] := rfl
  have hselp : mixedStore.accounts.filter (fun a =>
      a.Platform == "claude" && schedulableWhere 0 a) = [accountA, accountN] := rfl
  have hjoin : (joinAccountGroups mixedStore).filter (fun x =>
      x.2.GroupID == 7 && schedulableWhere 0 x.1)
      = [(accountA, ⟨1, 7, 1⟩), (accountM, ⟨2, 7, 1⟩), (accountN, ⟨3, 7, 1⟩)] := rfl
  have hjoinp : (joinAccountGroups mixedStore).filter (fun x =>
      x.2.GroupID == 7 && x.1.Platform == "claude" && schedulableWhere 0 x.1)
      = [(accountA, ⟨1, 7, 1⟩), (accountN, ⟨3, 7, 1⟩)] := rfl
  have hrev : ∀ {α : Type} (x y z : α), [z, y, x].Perm [x, y, z] := by
    intro α x y z
    exact (List.reverse_perm [x, y, z])
  refine ⟨⟨?_, by decide⟩, ⟨?_, by decide⟩, ?_, ?_, rfl, ?_⟩
  · rw [hsel]
    exact hrev _ _ _
  · rw [hselp]
  · exact ⟨[(accountN, ⟨3, 7, 1⟩), (accountM, ⟨2, 7, 1⟩), (accountA, ⟨1, 7, 1⟩)],
      ⟨by rw [hjoin]; exact hrev _ _ _, by decide⟩, rfl⟩
  · exact ⟨[(accountA, ⟨1, 7, 1⟩), (accountN, ⟨3, 7, 1⟩)],
      ⟨by rw [hjoinp], by decide⟩, rfl⟩
  · intro h
    exact absurd (congrArg (List.map accountModel.ID) h) (by decide)

/-- Claim C13, amended: platform filtering is a condition of the WHERE clause, not a
sort key, and the restricted query equals the restriction of the unrestricted one up
to the order of accounts with equal sort keys.  For every store state, time, group
g, platform p and platform list P: selecting the accounts of platform p (of a
platform in P) in a list the store may return for ListSchedulableByGroupID(g) or
ListSchedulable() gives, in the order they have there, a list the store may return
for ListSchedulableByGroupIDAndPlatform(g, p), ListSchedulableByGroupIDAndPlatforms(g,
P), ListSchedulableByPlatforms(P) or ListSchedulableByPlatform(p); and every list the
store may return for the restricted query holds the same accounts as that selection,
each as often, with the same sequence of account priorities and, on a table
account_groups that respects its primary key, of ranking keys.  The two queries are
separate statements, so accounts with equal sort keys may stand in different order
in the two results. -/
theorem C13_platform_is_a_restriction_up_to_ties (db : DB) (now : Time) (g : Int)
    (p : String) (ps : List String) :
    (∀ r, mayReturn db now (Query.byGroupID g) r →
      mayReturn db now (Query.byGroupIDAndPlatform g p)
        (r.filter (fun a => a.Platform == p))) ∧
    (∀ r, mayReturn db now (Query.byGroupID g) r →
      mayReturn db now (Query.byGroupIDAndPlatforms g ps)
        (r.filter (fun a => ps.contains a.Platform))) ∧
    (∀ r, mayReturn db now Query.all r →
      mayReturn db now (Query.byPlatforms ps)
        (r.filter (fun a => ps.contains a.Platform))) ∧
    (∀ r, mayReturn db now Query.all r →
      mayReturn db now (Query.byPlatform p) (r.filter (fun a => a.Platform == p))) ∧
    (∀ r1 r2, mayReturn db now (Query.byGroupIDAndPlatform g p) r1 →
      mayReturn db now (Query.byGroupID g) r2 →
      sameUpToTies db (Query.byGroupIDAndPlatform g p) r1
        (r2.filter (fun a => a.Platform == p))) ∧
    (∀ r1 r2, mayReturn db now (Query.byGroupIDAndPlatforms g ps) r1 →
      mayReturn db now (Query.byGroupID g) r2 →
      sameUpToTies db (Query.byGroupIDAndPlatforms g ps) r1
        (r2.filter (fun a => ps.contains a.Platform))) ∧
    (∀ r1 r2, mayReturn db now (Query.byPlatforms ps) r1 →
      mayReturn db now Query.all r2 →
      sameUpToTies db (Query.byPlatforms ps) r1
        (r2.filter (fun a => ps.contains a.Platform))) ∧
    (∀ r1 r2, mayReturn db now (Query.byPlatform p) r1 →
      mayReturn db now Query.all r2 →
      sameUpToTies db (Query.byPlatform p) r1 (r2.filter (fun a => a.Platform == p))) := by
  obtain ⟨h1, h2, h3, h4⟩ := mayReturn_restrict db now g p ps
  exact ⟨h1, h2, h3, h4,
    fun r1 r2 hr1 hr2 => mayReturn_unique db now _ _ _ hr1 (h1 r2 hr2),
    fun r1 r2 hr1 hr2 => mayReturn_unique db now _ _ _ hr1 (h2 r2 hr2),
    fun r1 r2 hr1 hr2 => mayReturn_unique db now _ _ _ hr1 (h3 r2 hr2),
    fun r1 r2 hr1 hr2 => mayReturn_unique db now _ _ _ hr1 (h4 r2 hr2)⟩

/-- Witness of C13: on the store with the accounts 1 and 3 of platform claude and
account 2 of platform gemini, the list 3, 2, 1 restricted to claude is one
ListSchedulableByPlatform(claude) may return, and the list 1, 3 holds the same
accounts. -/
theorem C13_platform_is_a_restriction_up_to_ties_witness :
    mayReturn mixedStore 0 (Query.byPlatform "claude")
      ([accountN, accountM, accountA].filter (fun a => a.Platform == "claude")) ∧
    [accountA, accountN].Perm
      ([accountN, accountM, accountA].filter (fun a => a.Platform == "claude")) :=
  have hsel : mixedStore.accounts.filter (fun a => schedulableWhere 0 a)
      = [accountA, accountM, accountN] := rfl
  have hselp : mixedStore.accounts.filter (fun a =>
      a.Platform == "claude" && schedulableWhere 0 a) = [accountA, accountN] := rfl
  have hall : mayReturn mixedStore 0 Query.all [accountN, accountM, accountA] :=
    ⟨by rw [hsel]; exact List.reverse_perm [accountA, accountM, accountN], by decide⟩
  have hp : mayReturn mixedStore 0 (Query.byPlatform "claude") [accountA, accountN] :=
    ⟨by rw [hselp], by decide⟩
  ⟨(C13_platform_is_a_restriction_up_to_ties mixedStore 0 7 "claude" []).2.2.2.1 _ hall,
   ((C13_platform_is_a_restriction_up_to_ties mixedStore 0 7 "claude" []).2.2.2.2.2.2.2
     _ _ hp hall).1⟩

/-- Counterexample to C18 as stated: the store with the accounts 1 and 2 of equal
priority, and the store UpdateSessionWindow(1, 10, 20, "active") makes of it, differ
only in the session window columns of account 1; ListSchedulable may return the ids
2, 1 on the first and 1, 2 on the second. -/
theorem C18_counterexample :
    sameButSessionWindow tieStore
      (UpdateSessionWindow tieStore 1 (some 10) (some 20) "active" none).1 ∧
    (UpdateSessionWindow tieStore 1 (some 10) (some 20) "active" none).1.accounts
      = [accountT, accountW] ∧
    mayReturn tieStore 0 Query.all [accountT, accountA] ∧
    mayReturn (UpdateSessionWindow tieStore 1 (some 10) (some 20) "active" none).1 0
      Query.all [accountW, accountT] ∧
    [accountT, accountA].map accountModel.ID = [2, 1] ∧
    [accountW, accountT].map accountModel.ID = [1, 2] ∧
    [accountT, accountA].map accountModel.ID ≠ [accountW, accountT].map accountModel.ID := by
  have hsel : tieStore.accounts.filter (fun a => schedulableWhere 0 a)
      = [accountT, accountA] := rfl
  have hsel2 : (UpdateSessionWindow tieStore 1 (some 10) (some 20) "active"
      none).1.accounts.filter (fun a => schedulableWhere 0 a) = [accountT, accountW] := rfl
  refine ⟨same_UpdateSessionWindow tieStore 1 (some 10) (some 20) "active" none, rfl,
    ⟨by rw [hsel], by decide⟩, ⟨?_, by decide⟩, rfl, rfl, by decide⟩
  rw [hsel2]
  exact List.Perm.swap _ _ _

/-- Claim C18, amended: session-window state does not gate eligibility.  For any two
store states that hold the same rows up to the accounts' sessionWindowStart,
sessionWindowEnd and sessionWindowStatus (in whatever order the tables hold them),
every time and every ListSchedulable call: a list the store may return on the one
and a list it may return on the other hold the same account ids, each as often, and
are, apart from the session window columns, equal up to the order of accounts with
equal sort keys (same rows, same sequence of account priorities and, on a table
account_groups that respects its primary key, of ranking keys).  The store
UpdateSessionWindow leaves, failing or not, is such a state, so UpdateSessionWindow
never changes which accounts are eligible.  The order of accounts with equal sort
keys is left to the store and may differ between the two results. -/
theorem C18_session_window_does_not_gate (db1 : DB) :
    (∀ db2, sameButSessionWindow db1 db2 → ∀ t q r1 r2,
      mayReturn db1 t q r1 → mayReturn db2 t q r2 →
        (r1.map accountModel.ID).Perm (r2.map accountModel.ID) ∧
        sameUpToTies (eraseSessionWindows db1) q (r1.map eraseSessionWindow)
          (r2.map eraseSessionWindow)) ∧
    (∀ id start end_ status fault,
      sameButSessionWindow db1 (UpdateSessionWindow db1 id start end_ status fault).1) ∧
    (∀ id start end_ status fault t q r1 r2,
      mayReturn db1 t q r1 →
      mayReturn (UpdateSessionWindow db1 id start end_ status fault).1 t q r2 →
        (r1.map accountModel.ID).Perm (r2.map accountModel.ID) ∧
        sameUpToTies (eraseSessionWindows db1) q (r1.map eraseSessionWindow)
          (r2.map eraseSessionWindow)) := by
  have hmain : ∀ db2, sameButSessionWindow db1 db2 → ∀ t q r1 r2,
      mayReturn db1 t q r1 → mayReturn db2 t q r2 →
        (r1.map accountModel.ID).Perm (r2.map accountModel.ID) ∧
        sameUpToTies (eraseSessionWindows db1) q (r1.map eraseSessionWindow)
          (r2.map eraseSessionWindow) := by
    intro db2 hsame t q r1 r2 h1 h2
    have h := mayReturn_of_same db1 db2 hsame t q r1 r2 h1 h2
    exact ⟨ids_perm_of_erase r1 r2 h.1, h⟩
  exact ⟨hmain, fun id start end_ status fault =>
      same_UpdateSessionWindow db1 id start end_ status fault,
    fun id start end_ status fault t q r1 r2 h1 h2 =>
      hmain _ (same_UpdateSessionWindow db1 id start end_ status fault) t q r1 r2 h1 h2⟩

/-- Witness of C18: on the store with the accounts 1 and 2 of equal priority and the
store UpdateSessionWindow(1, 10, 20, "active") makes of it, the list 2, 1 of the
first and the list 1, 2 of the second hold the same ids. -/
theorem C18_session_window_does_not_gate_witness :
    ([accountT, accountA].map accountModel.ID).Perm
      ([accountW, accountT].map accountModel.ID) :=
  have hsel : tieStore.accounts.filter (fun a => schedulableWhere 0 a)
      = [accountT, accountA] := rfl
  have hsel2 : (UpdateSessionWindow tieStore 1 (some 10) (some 20) "active"
      none).1.accounts.filter (fun a => schedulableWhere 0 a) = [accountT, accountW] := rfl
  ((C18_session_window_does_not_gate tieStore).2.2 1 (some 10) (some 20) "active" none 0
    Query.all [accountT, accountA] [accountW, accountT]
    ⟨by rw [hsel], by decide⟩
    ⟨by rw [hsel2]; exact List.Perm.swap _ _ _, by decide⟩).1

end Repository
